import Mathlib

/-!
# service_package.c: framing, queues and request/response matching

A shallow embedding of `src/service_package.c` (the skynet "package" service).

Conventions of the embedding.

* A C pointer to a block of memory together with the block it points to is a `List`
  of cells; the length of the list is the size of the allocation.  A read or write
  outside the block (undefined behaviour in C) is the fault `Fault.out_of_bounds`.
* `skynet_malloc n` is a block of `n` cells.  C leaves its content unspecified; the
  model fills it with the default value of the cell type.
* `assert(e)` with `e` false is the fault `Fault.assertion line`, `line` being the
  line of the assertion in the source file.
* `int` fields that the program only sets to 0, increments or doubles (`cap`, `head`,
  `tail`) are `Nat`; `int` fields that take the value -1 are `Int`.  No overflow of
  `int` is modelled, and the byte count `cap * sz` of an allocation in `queue_push` is
  not computed: a queue never holds 2^26 records and fewer than 2^31 chunks are
  delivered between two timer ticks.
* A chunk `(msg, sz)` handed to the decoder is the list of the `sz` bytes at `msg`;
  `msg += k; sz -= k` is `List.drop k`.
* The two `while` loops over a queue (`response`, `service_exit`) take a fuel
  argument and end in `Fault.out_of_fuel` when it runs out.
* Calls into the skynet runtime are recorded, in order, as a list of `Effect`s.  Of a
  `skynet_error` call the fixed words of the format string are kept, not the values
  printed.
-/

namespace SkynetPackage

set_option maxRecDepth 100000

/-- One octet (`uint8_t`). -/
abbrev Byte := Fin 256

/-- Ways in which a call can fail to return normally. -/
inductive Fault where
  | assertion (line : Nat)
  | out_of_bounds
  | out_of_fuel
deriving DecidableEq, Repr

deriving instance DecidableEq for Except

/-- The record `struct response`: a buffer `msg` and the frame length `sz`. -/
structure Response where
  sz : Nat
  msg : List Byte
deriving DecidableEq, Repr, Inhabited

/-- The record `struct request`. -/
structure Request where
  source : Nat
  session : Int
deriving DecidableEq, Repr, Inhabited

/-- The record `struct queue`, its `buffer` seen as `cap` slots of one record each. -/
structure Queue (α : Type) where
  cap : Nat
  sz : Nat
  head : Nat
  tail : Nat
  buffer : List α
deriving DecidableEq, Repr

/-- The record `struct package`. -/
structure Package where
  manager : Nat
  fd : Int
  heartbeat : Int
  recv : Int
  init : Int
  closed : Int
  proxy : Int
  header_sz : Int
  header : Byte × Byte
  uncomplete_sz : Int
  uncomplete : Response
  request : Queue Request
  response : Queue Response
deriving DecidableEq, Repr

/-- A fresh block of `n` cells. -/
def skynet_malloc {α : Type} [Inhabited α] (n : Nat) : List α :=
  List.replicate n default

/-- Read of cell `i` of a block. -/
def mem_read {α : Type} (buf : List α) (i : Nat) : Except Fault α :=
  match buf[i]? with
  | some v => .ok v
  | none => .error .out_of_bounds

/-- Write of cell `i` of a block. -/
def mem_write {α : Type} (buf : List α) (i : Nat) (v : α) : Except Fault (List α) :=
  if i < buf.length then .ok (buf.set i v) else .error .out_of_bounds

/-- The call `memcpy(dst + off, src, n)` on byte blocks. -/
def memcpy (dst : List Byte) (off : Int) (src : List Byte) (n : Int) :
    Except Fault (List Byte) :=
  if 0 ≤ off ∧ 0 ≤ n ∧ off + n ≤ dst.length ∧ n ≤ src.length then
    .ok (dst.take off.toNat ++ src.take n.toNat ++ dst.drop (off.toNat + n.toNat))
  else .error .out_of_bounds

/-! ## The growable circular queue -/

/-- Source: `queue_init`. -/
def queue_init {α : Type} [Inhabited α] (sz : Nat) : Queue α :=
  { head := 0, tail := 0, sz := sz, cap := 4, buffer := skynet_malloc 4 }

/-- Source: `queue_empty`. -/
def queue_empty {α : Type} (q : Queue α) : Bool :=
  decide (q.head = q.tail)

/-- Source: `queue_pop`.  `result` is the content of the caller's variable before the
call; the value returned is `(return code, queue, content of the variable after)`. -/
def queue_pop {α : Type} (q : Queue α) (result : α) : Except Fault (Int × Queue α × α) :=
  if q.head = q.tail then
    .ok (1, q, result)
  else
    match mem_read q.buffer q.head with
    | .error e => .error e
    | .ok v =>
      let head := q.head + 1
      let head := if head ≥ q.cap then 0 else head
      .ok (0, { q with head := head }, v)

/-- The copy loop of `queue_push` (`for (i=0;i<q->cap;i++)`), `n` iterations left. -/
def queue_push_copy {α : Type} (buffer : List α) (cap : Nat) :
    Nat → Nat → Nat → List α → Except Fault (List α)
  | 0, _, _, tmp => .ok tmp
  | n + 1, i, head, tmp =>
    match mem_read buffer head with
    | .error e => .error e
    | .ok v =>
      match mem_write tmp i v with
      | .error e => .error e
      | .ok tmp =>
        let head := head + 1
        let head := if head ≥ cap then 0 else head
        queue_push_copy buffer cap n (i + 1) head tmp

/-- Source: `queue_push`. -/
def queue_push {α : Type} [Inhabited α] (q : Queue α) (value : α) : Except Fault (Queue α) :=
  let slot := q.tail
  let tail := q.tail + 1
  let tail := if tail ≥ q.cap then 0 else tail
  if q.head = tail then
    if ¬ (q.sz > 0) then .error (.assertion 86) else
    let cap := q.cap * 2
    match queue_push_copy q.buffer q.cap q.cap 0 q.head (skynet_malloc cap) with
    | .error e => .error e
    | .ok tmp =>
      match mem_write tmp (q.cap - 1) value with
      | .error e => .error e
      | .ok tmp => .ok { q with head := 0, tail := q.cap, cap := cap, buffer := tmp }
  else
    match mem_write q.buffer slot value with
    | .error e => .error e
    | .ok buffer => .ok { q with tail := tail, buffer := buffer }

/-- Source: `queue_size`. -/
def queue_size {α : Type} (q : Queue α) : Int :=
  if q.head > q.tail then (q.tail : Int) + q.cap - q.head
  else (q.tail : Int) - q.head

/-- A call on a queue, for sequences of calls. -/
inductive QueueOp (α : Type) where
  | push (value : α)
  | pop
deriving DecidableEq, Repr

/-- A sequence of `queue_push` and `queue_pop` calls on one queue.  All pops write to the
same variable, `result`; each pop records its return code and the variable's content
after it. -/
def queue_run {α : Type} [Inhabited α] :
    Queue α → α → List (QueueOp α) → Except Fault (Queue α × List (Int × α))
  | q, _, [] => .ok (q, [])
  | q, result, .push v :: ops =>
    match queue_push q v with
    | .error e => .error e
    | .ok q => queue_run q result ops
  | q, result, .pop :: ops =>
    match queue_pop q result with
    | .error e => .error e
    | .ok (ret, q, result) =>
      match queue_run q result ops with
      | .error e => .error e
      | .ok (q, outs) => .ok (q, (ret, result) :: outs)

/-- The FIFO list that the queue is to refine, following the words of the claim: the
elements pushed and not yet popped, oldest first; a pop takes the oldest with code 0, or
gives code 1 and changes nothing when the list is empty. -/
def fifo_run {α : Type} (l : List α) (result : α) : List (QueueOp α) → List α × List (Int × α)
  | [] => (l, [])
  | .push v :: ops => fifo_run (l ++ [v]) result ops
  | .pop :: ops =>
    match l with
    | [] => ((fifo_run [] result ops).1, (1, result) :: (fifo_run [] result ops).2)
    | x :: l => ((fifo_run l x ops).1, (0, x) :: (fifo_run l x ops).2)

/-- The records stored in a queue, oldest first. -/
def Queue.toList {α : Type} (q : Queue α) : List α :=
  if q.head ≤ q.tail then (q.buffer.drop q.head).take (q.tail - q.head)
  else q.buffer.drop q.head ++ q.buffer.take q.tail

/-- Well-formed queue states: what `queue_init` establishes and the calls keep. -/
structure Queue.WF {α : Type} (q : Queue α) : Prop where
  sz_pos : 0 < q.sz
  head_lt : q.head < q.cap
  tail_lt : q.tail < q.cap
  length_eq : q.buffer.length = q.cap

/-! ## Calls into the skynet runtime -/

/-- Modelled from the spec: the message types of `skynet.h`, which is not part of the
source file; the names are those the source uses and only their being distinct matters.
`RESPONSE_DONTCOPY` is `PTYPE_RESPONSE | PTYPE_TAG_DONTCOPY`. -/
inductive PType where
  | TEXT
  | RESPONSE
  | RESPONSE_DONTCOPY
  | ERROR
deriving DecidableEq, Repr

/-- Modelled from the spec: the socket message types of `skynet_socket.h`, which is not
part of the source file; `OTHER` stands for every type the source does not name. -/
inductive SocketType where
  | DATA
  | CONNECT
  | CLOSE
  | ERROR
  | WARNING
  | OTHER
deriving DecidableEq, Repr

/-- The record `struct skynet_socket_message`.  For a `DATA` message `buffer` holds the
`ud` bytes received, so `ud` is its length. -/
structure SocketMessage where
  type : SocketType
  id : Int
  buffer : List Byte
deriving DecidableEq, Repr

/-- The `msg, sz` argument of `skynet_send`. -/
inductive Payload where
  | null
  | text (s : String)
  | block (msg : List Byte) (sz : Nat)
deriving DecidableEq, Repr

/-- One call into the skynet runtime. -/
inductive Effect where
  | skynet_send (destination : Nat) (type : PType) (session : Int) (data : Payload)
  | skynet_command (cmd : String) (parm : Option String)
  | skynet_error (text : String)
  | skynet_socket_shutdown (fd : Int)
  | skynet_socket_send (fd : Int) (buffer : List Byte) (sz : Nat)
  | skynet_socket_start (fd : Int)
  | skynet_socket_nodelay (fd : Int)
  | skynet_callback
deriving DecidableEq, Repr

/-- A message delivered to `message_handler`: its type together with the content that
goes with the type. -/
inductive Message where
  | TEXT (msg : List Byte)
  | CLIENT (msg : List Byte)
  | RESPONSE
  | SOCKET (smsg : SocketMessage)
  | ERROR
  | OTHER
deriving DecidableEq, Repr

/-! ## The service -/

/-- The `while` loop of `service_exit`. -/
def service_exit_loop : Nat → Package → Except Fault (Package × List Effect)
  | 0, _ => .error .out_of_fuel
  | n + 1, P =>
    if ¬ queue_empty P.request then
      match queue_pop P.request default with
      | .error e => .error e
      | .ok (_, q, req) =>
        match service_exit_loop n { P with request := q } with
        | .error e => .error e
        | .ok (P, out) => .ok (P, .skynet_send req.source .ERROR req.session .null :: out)
    else .ok (P, [])

/-- Source: `service_exit`. -/
def service_exit (fuel : Nat) (P : Package) : Except Fault (Package × List Effect) :=
  match service_exit_loop fuel { P with closed := 1 } with
  | .error e => .error e
  | .ok (P, out) =>
    .ok (P, out ++ [.skynet_send P.manager .TEXT 0 (.text "CLOSED"), .skynet_command "EXIT" none])

/-- Source: `report_info`. -/
def report_info (P : Package) (session : Int) (source : Nat) : List Effect :=
  let r : Int × Int :=
    if P.header_sz ≠ 0 then (-1, 0)
    else if P.uncomplete_sz = 0 then (0, 0)
    else (P.uncomplete_sz, P.uncomplete.sz)
  [.skynet_send source .RESPONSE session
    (.text s!"req={queue_size P.request} resp={queue_size P.response} uncomplete={r.1}/{r.2}")]

/-- Source: `command`. -/
def command (P : Package) (session : Int) (source : Nat) (msg : List Byte) :
    Except Fault (Package × List Effect) :=
  match msg with
  | [] => .error .out_of_bounds
  | c :: _ =>
    if c = 82 then
      -- 'R'
      if P.closed ≠ 0 then
        .ok (P, [.skynet_send source .ERROR session .null])
      else if ¬ queue_empty P.response then
        if ¬ queue_empty P.request then .error (.assertion 159) else
        match queue_pop P.response default with
        | .error e => .error e
        | .ok (_, q, resp) =>
          .ok ({ P with response := q },
            [.skynet_send source .RESPONSE_DONTCOPY session (.block resp.msg resp.sz)])
      else
        match queue_push P.request { source := source, session := session } with
        | .error e => .error e
        | .ok q => .ok ({ P with request := q }, [])
    else if c = 75 then
      -- 'K'
      .ok (P, [.skynet_socket_shutdown P.fd])
    else if c = 73 then
      -- 'I'
      .ok (P, report_info P session source)
    else
      .ok (P, [.skynet_error "Invalid command", .skynet_send source .ERROR session .null])

/-- The `for` loop of `parse_proxy_v1` in the branch `P->proxy == 1`, with `n` iterations
left and the loop variable at `i`.  The second component is the value returned by
`parse_proxy_v1`: the `return` inside the loop, or the final `return 0`. -/
def parse_proxy_v1_loop (msg : List Byte) : Nat → Nat → Package → Except Fault (Package × Int)
  | 0, _, P => .ok (P, 0)
  | n + 1, i, P =>
    match mem_read msg i with
    | .error e => .error e
    | .ok c =>
      if c = 13 then
        if i + 1 < msg.length ∧ msg[i + 1]? = some 10 then
          match memcpy P.uncomplete.msg P.uncomplete.sz msg (i + 2 : Nat) with
          | .error e => .error e
          | .ok buf => .ok ({ P with proxy := 3, uncomplete := { sz := i + 2, msg := buf } }, i + 2)
        else
          match memcpy P.uncomplete.msg P.uncomplete.sz msg (i + 1 : Nat) with
          | .error e => .error e
          | .ok buf =>
            parse_proxy_v1_loop msg n (i + 1)
              { P with proxy := 2, uncomplete := { sz := i + 1, msg := buf } }
      else parse_proxy_v1_loop msg n (i + 1) P

/-- Source: `parse_proxy_v1`; the result is the state and the value returned. -/
def parse_proxy_v1 (P : Package) (msg : List Byte) : Except Fault (Package × Int) :=
  if P.proxy = 1 then
    let len := if msg.length > 108 then 108 else msg.length
    parse_proxy_v1_loop msg len 0 P
  else if P.proxy = 2 then
    match msg with
    | [] => .ok (P, 0)
    | c :: _ =>
      if c ≠ 10 then .error (.assertion 209) else
      match memcpy P.uncomplete.msg P.uncomplete.sz msg 1 with
      | .error e => .error e
      | .ok buf =>
        .ok ({ P with proxy := 3, uncomplete := { sz := P.uncomplete.sz + 1, msg := buf } }, 1)
  else .ok (P, 0)

/-- The six bytes of the literal `"PROXY "`. -/
def PROXY_literal : List Byte := [80, 82, 79, 88, 89, 32]

/-- Lines 256 to 268 of `new_message`: the pending payload.  `none` in the result is the
`return` of line 266; `some msg` is the rest of the chunk, with which the loop goes on. -/
def new_message_payload (P : Package) (msg : List Byte) :
    Except Fault (Package × Option (List Byte)) :=
  if P.uncomplete_sz ≥ 0 then
    if (msg.length : Int) ≥ P.uncomplete_sz then
      match memcpy P.uncomplete.msg (P.uncomplete.sz - P.uncomplete_sz) msg P.uncomplete_sz with
      | .error e => .error e
      | .ok buf =>
        match queue_push P.response { P.uncomplete with msg := buf } with
        | .error e => .error e
        | .ok q =>
          .ok ({ P with
                  uncomplete := { P.uncomplete with msg := buf }, response := q,
                  uncomplete_sz := -1 },
            some (msg.drop P.uncomplete_sz.toNat))
    else
      match memcpy P.uncomplete.msg (P.uncomplete.sz - P.uncomplete_sz) msg msg.length with
      | .error e => .error e
      | .ok buf =>
        .ok ({ P with
                uncomplete := { P.uncomplete with msg := buf },
                uncomplete_sz := P.uncomplete_sz - msg.length },
          none)
  else .ok (P, some msg)

/-- Lines 290 to 292 of `new_message`: the header is complete, a payload is awaited. -/
def new_message_alloc (P : Package) : Package :=
  let sz := P.header.1.val * 256 + P.header.2.val
  { P with uncomplete := { sz := sz, msg := skynet_malloc sz }, uncomplete_sz := sz }

/-- Lines 270 to 292 of `new_message`: the length header.  `none` in the result is a
`return` (line 271 or 277); `some msg` is the rest of the chunk. -/
def new_message_header (P : Package) : List Byte → Except Fault (Package × Option (List Byte))
  | [] => .ok (P, none)
  | b0 :: rest =>
    if P.header_sz = 0 then
      match rest with
      | [] => .ok ({ P with header := (b0, P.header.2), header_sz := 1 }, none)
      | b1 :: rest => .ok (new_message_alloc { P with header := (b0, b1) }, some rest)
    else if P.header_sz ≠ 1 then .error (.assertion 284)
    else .ok (new_message_alloc { P with header := (P.header.1, b0), header_sz := 0 }, some rest)

/-- The `for (;;)` loop of `new_message`, with a bound on the number of iterations. -/
def new_message_loop : Nat → Package → List Byte → Except Fault Package
  | 0, _, _ => .error .out_of_fuel
  | n + 1, P, msg =>
    match new_message_payload P msg with
    | .error e => .error e
    | .ok (P, none) => .ok P
    | .ok (P, some msg) =>
      match new_message_header P msg with
      | .error e => .error e
      | .ok (P, none) => .ok P
      | .ok (P, some msg) => new_message_loop n P msg

/-- The `for (;;)` loop of `new_message` on a chunk.  An iteration that does not return
consumes a byte of the chunk, so `sz + 1` iterations are enough: the loop never runs out
of them (`new_message_for_fuel`). -/
def new_message_for (P : Package) (msg : List Byte) : Except Fault Package :=
  new_message_loop (msg.length + 1) P msg

/-- Lines 254 to 293 of `new_message`: count the chunk, then decode it. -/
def new_message_decode (P : Package) (msg : List Byte) : Except Fault Package :=
  new_message_for { P with recv := P.recv + 1 } msg

/-- Source: `new_message`. -/
def new_message (P : Package) (msg : List Byte) : Except Fault Package :=
  if P.proxy ≥ 0 ∧ P.proxy < 3 then
    if P.recv ≠ 0 then .error (.assertion 222) else
    if P.uncomplete_sz ≠ -1 then .error (.assertion 223) else
    match (if P.proxy = 0 then
        if msg.length ≥ 6 ∧ msg.take 6 = PROXY_literal then
          parse_proxy_v1
            { P with proxy := 1, uncomplete := { sz := 0, msg := skynet_malloc 108 } } msg
        else .ok ({ P with proxy := -1 }, -1)
      else if P.proxy = 1 then parse_proxy_v1 P msg
      else if P.proxy = 2 then parse_proxy_v1 P msg
      else .ok (P, 0)) with
    | .error e => .error e
    | .ok (P, proxy_len) =>
      if proxy_len = 0 then .ok P
      else if P.proxy = 3 then
        if ¬ proxy_len > 0 then .error (.assertion 246) else
        match queue_push P.response P.uncomplete with
        | .error e => .error e
        | .ok q =>
          new_message_decode { P with response := q, uncomplete_sz := -1 }
            (msg.drop proxy_len.toNat)
      else new_message_decode P msg
  else new_message_decode P msg

/-- Source: `response`, the loop that matches queued requests with queued frames. -/
def response : Nat → Package → Except Fault (Package × List Effect)
  | 0, _ => .error .out_of_fuel
  | n + 1, P =>
    if ¬ queue_empty P.request then
      if queue_empty P.response then .ok (P, [])
      else
        match queue_pop P.request default with
        | .error e => .error e
        | .ok (_, qreq, req) =>
          match queue_pop P.response default with
          | .error e => .error e
          | .ok (_, qresp, resp) =>
            match response n { P with request := qreq, response := qresp } with
            | .error e => .error e
            | .ok (P, out) =>
              .ok (P, .skynet_send req.source .RESPONSE_DONTCOPY req.session
                (.block resp.msg resp.sz) :: out)
    else .ok (P, [])

/-- Source: `socket_message`. -/
def socket_message (fuel : Nat) (P : Package) (smsg : SocketMessage) :
    Except Fault (Package × List Effect) :=
  match smsg.type with
  | .CONNECT =>
    if P.init = 0 ∧ smsg.id = P.fd then
      .ok ({ P with init := 1 }, [.skynet_send P.manager .TEXT 0 (.text "SUCC")])
    else .ok (P, [])
  | .CLOSE | .ERROR =>
    let r : Package × List Effect :=
      if P.init = 0 ∧ smsg.id = P.fd then
        ({ P with init := 1 }, [.skynet_send P.manager .TEXT 0 (.text "FAIL")])
      else (P, [])
    if smsg.id ≠ P.fd then
      .ok (r.1, r.2 ++ [.skynet_error "Invalid fd"])
    else
      match response fuel r.1 with
      | .error e => .error e
      | .ok (P, out1) =>
        match service_exit fuel P with
        | .error e => .error e
        | .ok (P, out2) => .ok (P, r.2 ++ out1 ++ out2)
  | .DATA =>
    match new_message P smsg.buffer with
    | .error e => .error e
    | .ok P => response fuel P
  | .WARNING => .ok (P, [.skynet_error "Overload"])
  | .OTHER => .ok (P, [])

/-- Source: `heartbeat`. -/
def heartbeat (P : Package) : Package × List Effect :=
  if P.recv = P.heartbeat then
    if P.closed = 0 then (P, [.skynet_socket_shutdown P.fd, .skynet_error "timeout"])
    else (P, [])
  else ({ P with heartbeat := 0, recv := 0 }, [.skynet_command "TIMEOUT" (some "1000")])

/-- Source: `send_out`; `msg` is the payload and `sz` its length. -/
def send_out (P : Package) (msg : List Byte) : Except Fault (Package × List Effect) :=
  let sz := msg.length
  if sz > 0xffff then
    .ok (P, [.skynet_error "package too long"])
  else
    let p : List Byte := skynet_malloc (sz + 2)
    match mem_write p 0 (Fin.ofNat ((sz &&& 0xff00) >>> 8)) with
    | .error e => .error e
    | .ok p =>
      match mem_write p 1 (Fin.ofNat (sz &&& 0xff)) with
      | .error e => .error e
      | .ok p =>
        match memcpy p 2 msg sz with
        | .error e => .error e
        | .ok p => .ok (P, [.skynet_socket_send P.fd p (sz + 2)])

/-- Source: `message_handler`. -/
def message_handler (fuel : Nat) (P : Package) (session : Int) (source : Nat) :
    Message → Except Fault (Package × List Effect)
  | .TEXT msg => command P session source msg
  | .CLIENT msg => send_out P msg
  | .RESPONSE => .ok (heartbeat P)
  | .SOCKET smsg => socket_message fuel P smsg
  | .ERROR => .ok (P, [])
  | .OTHER =>
    if session > 0 then .ok (P, [.skynet_send source .ERROR session .null])
    else .ok (P, [])

/-- Source: `package_create`. -/
def package_create : Package :=
  { manager := 0, fd := 0, heartbeat := -1, recv := 0, init := 0, closed := 0, proxy := 0,
    header_sz := 0, header := (0, 0), uncomplete_sz := -1, uncomplete := { sz := 0, msg := [] },
    request := queue_init 8, response := queue_init 16 }

/-- Source: `package_init`.  The `sscanf` of the parameter string is taken as given: `n` is
its return value and `manager`, `fd` are the contents of `P->manager` and `P->fd` after it.
The result is the state, the calls made and the value returned. -/
def package_init (P : Package) (n : Int) (manager : Nat) (fd : Int) :
    Package × List Effect × Int :=
  let P := { P with manager := manager, fd := fd }
  if n ≠ 2 ∨ P.manager = 0 ∨ P.fd = 0 then
    (P, [.skynet_error "Invalid param"], 1)
  else
    let r := heartbeat P
    (r.1, [.skynet_socket_start P.fd, .skynet_socket_nodelay P.fd] ++ r.2 ++ [.skynet_callback], 0)

/-! ## Auxiliary definitions for the statements -/

/-- The state `P` with the fields that the decoding loop neither reads nor writes taken
from `O`: everything but the partial-frame state and the response queue. -/
def Package.set_outer (P O : Package) : Package :=
  { P with
    manager := O.manager, fd := O.fd, heartbeat := O.heartbeat, recv := O.recv,
    init := O.init, closed := O.closed, proxy := O.proxy, request := O.request }

/-- A message together with the `session` and `source` it is delivered with. -/
structure Event where
  session : Int
  source : Nat
  msg : Message
deriving DecidableEq, Repr

/-- The messages that deliver inbound data (`SKYNET_SOCKET_TYPE_DATA`). -/
def Message.is_data : Message → Bool
  | .SOCKET smsg => decide (smsg.type = .DATA)
  | _ => false

/-- The messages that are timer ticks (`PTYPE_RESPONSE`). -/
def Message.is_tick : Message → Bool
  | .RESPONSE => true
  | _ => false

/-- The messages `message_handler` is called with, one after the other; the calls into the
runtime are collected in order. -/
def run_events (fuel : Nat) : Package → List Event → Except Fault (Package × List Effect)
  | P, [] => .ok (P, [])
  | P, e :: es =>
    match message_handler fuel P e.session e.source e.msg with
    | .error f => .error f
    | .ok (P1, out1) =>
      match run_events fuel P1 es with
      | .error f => .error f
      | .ok (P2, out2) => .ok (P2, out1 ++ out2)

/-- The bytes of a frame: the first `sz` bytes of its buffer. -/
def Response.bytes (r : Response) : List Byte :=
  r.msg.take r.sz

/-- A new connection: no data delivered yet.  It is the state made by `package_create`, up
to the fields that `package_init` and the messages other than data set. -/
structure Package.New (P : Package) : Prop where
  proxy_eq : P.proxy = 0
  recv_eq : P.recv = 0
  uncomplete_sz_eq : P.uncomplete_sz = -1
  header_sz_eq : P.header_sz = 0
  response_eq : P.response = queue_init 16

/-- The chunks are delivered to `new_message` one after the other. -/
def deliver : Package → List (List Byte) → Except Fault Package
  | P, [] => .ok P
  | P, c :: cs =>
    match new_message P c with
    | .error e => .error e
    | .ok P1 => deliver P1 cs

/-- The bytes of `"PROXY TCP4 1.2.3.4 5.6.7.8 1234 5678"`, a preamble line without its
final carriage return and line feed. -/
def preamble_example : List Byte :=
  [80, 82, 79, 88, 89, 32, 84, 67, 80, 52, 32, 49, 46, 50, 46, 51, 46, 52, 32,
    53, 46, 54, 46, 55, 46, 56, 32, 49, 50, 51, 52, 32, 53, 54, 55, 56]

/-- A chunk of 109 bytes: `"PROXY "`, 101 times the letter A, a carriage return at offset
107 and a line feed at offset 108. -/
def preamble_109 : List Byte :=
  PROXY_literal ++ List.replicate 101 65 ++ [13, 10]

/-- A payload of 20562 bytes (0x5052, the codes of P and R) that begins with `"OXY "`. -/
def payload_20562 : List Byte :=
  [79, 88, 89, 32] ++ List.replicate 20558 0

/-- The states a connection goes through: the one `package_create` makes, and those that
`package_init` and the messages handled by `message_handler` (a call that returns) lead
to. -/
inductive Reachable : Package → Prop where
  | create : Reachable package_create
  | init (P : Package) (n : Int) (manager : Nat) (fd : Int) :
      Reachable P → Reachable (package_init P n manager fd).1
  | step (P P1 : Package) (fuel : Nat) (session : Int) (source : Nat) (m : Message)
      (out : List Effect) :
      Reachable P → message_handler fuel P session source m = .ok (P1, out) → Reachable P1

/-- Both queues are well formed and one of them is empty. -/
structure Package.Exclusive (P : Package) : Prop where
  request_WF : P.request.WF
  response_WF : P.response.WF
  one_empty : P.request.toList = [] ∨ P.response.toList = []

/-- The state after the chunk `[0, 1, 65, 0]` is handled on a connection fresh from
`package_create`: one frame of one byte is queued and one header byte is buffered. -/
def state_after_frame : Package :=
  { manager := 0, fd := 0, heartbeat := -1, recv := 1, init := 0, closed := 0, proxy := -1,
    header_sz := 1, header := (0, 1), uncomplete_sz := -1, uncomplete := { sz := 1, msg := [65] },
    request := queue_init 8,
    response :=
      { cap := 4, sz := 16, head := 0, tail := 1,
        buffer := [{ sz := 1, msg := [65] }, default, default, default] } }

/-- The reply that hands the frame `r` to the request `req`: the `skynet_send` of
`command` (line 162) and of `response` (line 306). -/
def reply (req : Request) (r : Response) : Effect :=
  .skynet_send req.source .RESPONSE_DONTCOPY req.session (.block r.msg r.sz)

/-- The pull request an event carries, if it is one: a text command whose first byte is
the letter R. -/
def Event.pull (e : Event) : Option Request :=
  match e.msg with
  | .TEXT (c :: _) => if c = 82 then some { source := e.source, session := e.session } else none
  | _ => none

/-- The chunk an event delivers, if it is an inbound data delivery. -/
def Event.chunk (e : Event) : Option (List Byte) :=
  match e.msg with
  | .SOCKET smsg => if smsg.type = .DATA then some smsg.buffer else none
  | _ => none

/-- Three pull requests around one data delivery that holds two frames. -/
def events_example : List Event :=
  [⟨1, 7, .TEXT [82]⟩, ⟨0, 0, .SOCKET ⟨.DATA, 0, [0, 1, 65, 0, 2, 66, 67]⟩⟩,
    ⟨2, 8, .TEXT [82]⟩, ⟨3, 9, .TEXT [82]⟩]

/-- The state of the decoder after the chunk of `events_example`, with nothing taken from
the response queue. -/
def state_two_frames : Package :=
  { manager := 0, fd := 0, heartbeat := -1, recv := 1, init := 0, closed := 0, proxy := -1,
    header_sz := 0, header := (0, 2), uncomplete_sz := -1,
    uncomplete := { sz := 2, msg := [66, 67] },
    request := queue_init 8,
    response :=
      { cap := 4, sz := 16, head := 0, tail := 2,
        buffer := [{ sz := 1, msg := [65] }, { sz := 2, msg := [66, 67] }, default, default] } }

/-- Pushes and pops on one queue: four pushes fill the initial capacity and double it. -/
def ops_example : List (QueueOp Nat) :=
  [.push 1, .push 2, .push 3, .push 4, .pop, .push 5, .pop, .pop, .pop, .pop, .pop]

/-- A chunk of 108 bytes: `"PROXY "`, 101 times the letter A and a carriage return at
offset 107, the last offset that `parse_proxy_v1` scans. -/
def preamble_108 : List Byte :=
  PROXY_literal ++ List.replicate 101 65 ++ [13]

/-- The state of a connection fresh from `package_create` after the chunk `preamble_108`:
FoundCR, with 108 bytes in the buffer of 108 bytes. -/
def found_cr_108 : Package :=
  { package_create with proxy := 2, uncomplete := { sz := 108, msg := preamble_108 } }

/-- The first ten bytes of the preamble line of `preamble_example`: `"PROXY TCP4"`. -/
def preamble_head : List Byte :=
  preamble_example.take 10

/-- The rest of the preamble line of `preamble_example`, with its carriage return and line
feed: `" 1.2.3.4 5.6.7.8 1234 5678\r\n"`, 28 bytes. -/
def preamble_tail : List Byte :=
  preamble_example.drop 10 ++ [13, 10]

/-- The eleven bytes `"PROXY a\rb\r\n"`: the first carriage return, at offset 7, is
followed by the letter b. -/
def preamble_stray_cr : List Byte :=
  [80, 82, 79, 88, 89, 32, 97, 13, 98, 13, 10]

/-- The failure reply to the request `req`: the `skynet_send` of `service_exit`
(line 123). -/
def failure (req : Request) : Effect :=
  .skynet_send req.source .ERROR req.session .null

/-- The calls with which `service_exit` ends (lines 126 and 127): the report to the
manager and the `EXIT` command. -/
def exit_report (manager : Nat) : List Effect :=
  [.skynet_send manager .TEXT 0 (.text "CLOSED"), .skynet_command "EXIT" none]

/-- A connection set up for manager 1 and socket 5, not yet established, with two pull
requests pending and no frame queued. -/
def state_two_pulls : Package :=
  { package_create with
    manager := 1, fd := 5, heartbeat := 0,
    request :=
      { cap := 4, sz := 8, head := 0, tail := 2,
        buffer :=
          [{ source := 7, session := 1 }, { source := 8, session := 2 }, default, default] } }

/-- The wire encoding of a payload, in the words of the specification: the byte
`len div 256`, the byte `len mod 256`, then the payload. -/
def wire_encoding (p : List Byte) : List Byte :=
  Fin.ofNat (p.length / 256) :: Fin.ofNat (p.length % 256) :: p

/-- The frame that holds the payload `p` and nothing else, with its exact length. -/
def frame_of (p : List Byte) : Response :=
  { sz := p.length, msg := p }

/-- The partial-frame invariant: the header buffer holds no byte or one; a buffered header
byte and a pending payload exclude each other; a pending payload still lacks at least one
byte and at most all of its bytes, which are at most 65535; and while the preamble phase
lasts (`proxy` is 0, 1 or 2) nothing has been counted and no payload is pending. -/
structure Package.Partial (P : Package) : Prop where
  header_sz_eq : P.header_sz = 0 ∨ P.header_sz = 1
  header_excl : P.header_sz = 1 → P.uncomplete_sz = -1
  payload : P.uncomplete_sz = -1 ∨
    (1 ≤ P.uncomplete_sz ∧ P.uncomplete_sz ≤ P.uncomplete.sz ∧ P.uncomplete.sz ≤ 65535)
  preamble : 0 ≤ P.proxy ∧ P.proxy < 3 → P.recv = 0 ∧ P.uncomplete_sz = -1

/-- What a call of `new_message` comes to in a state that has the partial-frame invariant:
it returns a state that has the invariant, or it fails by a fault of `memcpy` or of
`queue_push` (line 86) or by the assertion of line 209. -/
def Partial_outcome (r : Except Fault Package) : Prop :=
  match r with
  | .error e => e = .out_of_bounds ∨ e = .assertion 86 ∨ e = .assertion 209
  | .ok P1 => P1.Partial

/-- The frame of the preamble line `body ++ CR LF` as `parse_proxy_v1` leaves it in
`uncomplete`: the length of the line, and the buffer of 108 bytes that begins with the
line. -/
def preamble_frame (body : List Byte) : Response :=
  { sz := body.length + 2,
    msg := body ++ [13, 10] ++ List.replicate (108 - (body.length + 2)) 0 }

/-- The state FoundCR that the connection `P` is in after the chunk `body ++ CR`: the
chunk is in the buffer of 108 bytes, and nothing else has changed. -/
def preamble_found_cr (P : Package) (body : List Byte) : Package :=
  { P with
    proxy := 2,
    uncomplete :=
      { sz := body.length + 1,
        msg := body ++ [13] ++ List.replicate (108 - (body.length + 1)) 0 } }

/-- The state Done with which the decoding of what follows the preamble line
`body ++ CR LF` starts on the new connection `P`: the frame of the line is the one record
of the response queue, and no partial frame is pending. -/
def preamble_done (P : Package) (body : List Byte) : Package :=
  { P with
    proxy := 3,
    uncomplete := preamble_frame body,
    response :=
      { cap := 4, sz := 16, head := 0, tail := 1,
        buffer := [preamble_frame body, default, default, default] },
    uncomplete_sz := -1 }

/-! # Theorems -/


/-! ## Theorems -/

theorem Queue.toList_length {α : Type} (q : Queue α) (h : q.WF) :
    (q.toList.length : Int) = queue_size q := by
  obtain ⟨_, h1, h2, h3⟩ := h
  unfold Queue.toList queue_size
  by_cases hc : q.head ≤ q.tail
  · have : ¬ q.head > q.tail := by omega
    simp only [hc, this, if_true, if_false, List.length_take, List.length_drop]
    omega
  · have : q.head > q.tail := by omega
    simp only [hc, this, if_true, if_false, List.length_append, List.length_take,
      List.length_drop]
    omega

theorem Queue.toList_eq_nil_iff {α : Type} (q : Queue α) (h : q.WF) :
    q.toList = [] ↔ q.head = q.tail := by
  have hl := Queue.toList_length q h
  obtain ⟨_, h1, h2, h3⟩ := h
  rw [← List.length_eq_zero]
  unfold queue_size at hl
  split_ifs at hl <;> omega

theorem queue_init_WF {α : Type} [Inhabited α] (sz : Nat) (h : 0 < sz) :
    (queue_init sz : Queue α).WF :=
  ⟨h, by simp [queue_init], by simp [queue_init], by simp [queue_init, skynet_malloc]⟩

theorem queue_init_toList {α : Type} [Inhabited α] (sz : Nat) :
    (queue_init sz : Queue α).toList = [] := by
  simp [queue_init, Queue.toList]

theorem queue_pop_nil {α : Type} (q : Queue α) (h : q.WF) (hl : q.toList = []) (r : α) :
    queue_pop q r = .ok (1, q, r) := by
  rw [Queue.toList_eq_nil_iff q h] at hl
  simp [queue_pop, hl]

theorem queue_pop_cons {α : Type} (q : Queue α) (h : q.WF) (x : α) (l : List α)
    (hl : q.toList = x :: l) (r : α) :
    ∃ q', queue_pop q r = .ok (0, q', x) ∧ q'.WF ∧ q'.toList = l ∧ q'.sz = q.sz := by
  have hne : q.head ≠ q.tail := by
    intro he
    rw [(Queue.toList_eq_nil_iff q h).2 he] at hl
    cases hl
  obtain ⟨h0, h1, h2, h3⟩ := h
  have hlt : q.head < q.buffer.length := by omega
  have hd := List.drop_eq_getElem_cons hlt
  unfold Queue.toList at hl
  simp only [queue_pop, hne, if_false, mem_read, List.getElem?_eq_getElem hlt]
  by_cases hc : q.head ≤ q.tail
  · have hc2 : q.head + 1 ≤ q.tail := by omega
    have hc3 : ¬ q.head + 1 ≥ q.cap := by omega
    obtain ⟨k, hk⟩ : ∃ k, q.tail - q.head = k + 1 := ⟨q.tail - q.head - 1, by omega⟩
    have hk2 : q.tail - (q.head + 1) = k := by omega
    simp only [hc, if_true, hd, hk, List.take_succ_cons, List.cons.injEq] at hl
    refine ⟨{ q with head := q.head + 1 }, by simp [hc3, hl.1], ⟨h0, by simp; omega, h2, h3⟩,
      ?_, rfl⟩
    simp only [Queue.toList, hc2, if_true, hk2]
    exact hl.2
  · simp only [hc, if_false, hd, List.cons_append, List.cons.injEq] at hl
    by_cases hc3 : q.head + 1 ≥ q.cap
    · have hnil : q.buffer.drop (q.head + 1) = [] := List.drop_eq_nil_of_le (by omega)
      refine ⟨{ q with head := 0 }, by simp [hc3, hl.1], ⟨h0, by simp; omega, h2, h3⟩, ?_, rfl⟩
      rw [hnil] at hl
      simpa [Queue.toList] using hl.2
    · have hc4 : ¬ q.head + 1 ≤ q.tail := by omega
      refine ⟨{ q with head := q.head + 1 }, by simp [hc3, hl.1], ⟨h0, by simp; omega, h2, h3⟩,
        ?_, rfl⟩
      simp only [Queue.toList, hc4, if_false]
      exact hl.2


theorem rot_take_succ {α : Type} (b : List α) (hd n : Nat) (hlt : hd < b.length)
    (hn : n + 1 ≤ b.length) :
    (b.drop hd ++ b.take hd).take (n + 1) =
      b[hd] :: (b.drop (if hd + 1 ≥ b.length then 0 else hd + 1) ++
        b.take (if hd + 1 ≥ b.length then 0 else hd + 1)).take n := by
  rw [List.drop_eq_getElem_cons hlt]
  simp only [List.cons_append, List.take_succ_cons, List.cons.injEq, true_and]
  by_cases hc : hd + 1 ≥ b.length
  · have hnil : b.drop (hd + 1) = [] := List.drop_eq_nil_of_le hc
    simp only [hc, if_true, hnil, List.nil_append, List.drop_zero, List.take_zero,
      List.append_nil, List.take_take]
    congr 1
    omega
  · simp only [hc, if_false, List.take_append_eq_append_take, List.take_take,
      List.length_drop]
    congr 2
    omega

theorem queue_push_copy_eq {α : Type} (buffer : List α) :
    ∀ (n i hd : Nat) (tmp : List α), hd < buffer.length → n ≤ buffer.length →
      i + n ≤ tmp.length →
      queue_push_copy buffer buffer.length n i hd tmp =
        .ok (tmp.take i ++ (buffer.drop hd ++ buffer.take hd).take n ++ tmp.drop (i + n)) := by
  intro n
  induction n with
  | zero =>
    intro i hd tmp _ _ _
    simp [queue_push_copy]
  | succ n ih =>
    intro i hd tmp hlt hn hi
    have hi2 : i < tmp.length := by omega
    have hstep := rot_take_succ buffer hd n hlt hn
    simp only [queue_push_copy, mem_read, List.getElem?_eq_getElem hlt, mem_write, hi2, if_true]
    rw [ih (i + 1) _ (tmp.set i buffer[hd]) (by split_ifs <;> omega) (by omega)
      (by simp; omega), hstep]
    congr 1
    rw [List.drop_set_of_lt _ _ (by omega), List.set_eq_take_append_cons_drop]
    simp only [hi2, if_true]
    have : (tmp.take i ++ buffer[hd] :: tmp.drop (i + 1)).take (i + 1)
        = tmp.take i ++ [buffer[hd]] := by
      rw [List.take_append_eq_append_take]
      simp [List.length_take, Nat.min_eq_left (Nat.le_of_lt hi2)]
    rw [this]
    simp [Nat.add_assoc, Nat.add_comm 1 n]

theorem set_eq_split {α : Type} (l : List α) (i : Nat) (v : α) (h : i < l.length) :
    l.set i v = l.take i ++ v :: l.drop (i + 1) := by
  rw [List.set_eq_take_append_cons_drop, if_pos h]

theorem queue_push_spec {α : Type} [Inhabited α] (q : Queue α) (h : q.WF) (v : α) :
    ∃ q', queue_push q v = .ok q' ∧ q'.WF ∧ q'.toList = q.toList ++ [v] ∧ q'.sz = q.sz := by
  obtain ⟨h0, h1, h2, h3⟩ := h
  have h0' : q.sz > 0 := h0
  by_cases hfull : q.head = (if q.tail + 1 ≥ q.cap then 0 else q.tail + 1)
  · -- the buffer is full: grow
    have hcopy := queue_push_copy_eq q.buffer q.cap 0 q.head (skynet_malloc (q.cap * 2) : List α)
      (by omega) (by omega) (by simp [skynet_malloc]; omega)
    rw [h3] at hcopy
    simp only [List.take_zero, List.nil_append, Nat.zero_add] at hcopy
    generalize hR : (List.take q.cap (List.drop q.head q.buffer ++ List.take q.head q.buffer))
      = R at hcopy
    have hlen : R.length = q.cap := by
      rw [← hR]; simp [List.length_take, List.length_drop]; omega
    have hpos : q.cap - 1 < R.length := by omega
    refine ⟨{ q with
      head := 0, tail := q.cap, cap := q.cap * 2,
      buffer := (R ++ (skynet_malloc (q.cap * 2) : List α).drop q.cap).set (q.cap - 1) v },
      ?_, ?_, ?_, rfl⟩
    · simp only [queue_push, ← hfull, if_true, h0', not_true_eq_false, if_false, hcopy,
        mem_write, List.length_append, hlen]
      rw [if_pos (by omega)]
    · exact ⟨h0, by simp; omega, by simp; omega, by
        simp [skynet_malloc, hlen, List.length_drop]; omega⟩
    · simp only [Queue.toList, Nat.zero_le, if_true, List.drop_zero, Nat.sub_zero]
      rw [List.set_append, if_pos hpos, List.take_append_eq_append_take, List.length_set, hlen,
        Nat.sub_self, List.take_zero, List.append_nil,
        List.take_of_length_le (by rw [List.length_set, hlen])]
      rw [set_eq_split R _ v hpos, List.drop_eq_nil_of_le (by omega)]
      congr 1
      rw [← hR, List.take_take, Nat.min_eq_left (by omega)]
      by_cases hc : q.tail + 1 ≥ q.cap
      · simp only [hc, if_true] at hfull
        have ht : q.tail = q.cap - 1 := by omega
        simp only [hfull, Nat.zero_le, if_true, List.drop_zero, List.take_zero, List.append_nil,
          Nat.sub_zero, ht]
      · simp only [hc, if_false] at hfull
        have hgt : ¬ q.head ≤ q.tail := by omega
        simp only [hgt, if_false]
        rw [List.take_append_eq_append_take, List.take_take,
          List.take_of_length_le (by simp [List.length_drop]; omega)]
        congr 2
        simp only [List.length_drop]
        omega
  · have ht : q.tail < q.buffer.length := by omega
    have hset := set_eq_split q.buffer q.tail v ht
    refine ⟨{ q with
      tail := (if q.tail + 1 ≥ q.cap then 0 else q.tail + 1),
      buffer := q.buffer.set q.tail v }, ?_, ?_, ?_, rfl⟩
    · simp only [queue_push, hfull, if_false, mem_write, ht, if_true]
    · exact ⟨h0, h1, by simp only; split_ifs <;> omega, by simp [h3]⟩
    · simp only [Queue.toList]
      have hlt : (q.buffer.take q.tail).length = q.tail := by
        simp [List.length_take]; omega
      by_cases hc : q.tail + 1 ≥ q.cap
      · simp only [hc, if_true] at hfull ⊢
        have hle : q.head ≤ q.tail := by omega
        have hgt : ¬ q.head ≤ 0 := by omega
        simp only [hle, hgt, if_true, if_false, List.take_zero, List.append_nil]
        have hnil : q.buffer.drop (q.tail + 1) = [] := List.drop_eq_nil_of_le (by omega)
        rw [hset, hnil, List.drop_append_of_le_length (by omega), List.drop_take]
      · simp only [hc, if_false] at hfull ⊢
        by_cases hle : q.head ≤ q.tail
        · have hle2 : q.head ≤ q.tail + 1 := by omega
          simp only [hle, hle2, if_true]
          rw [hset, List.drop_append_of_le_length (by omega), List.take_append_eq_append_take,
            List.drop_take]
          simp only [List.length_take, List.length_drop]
          have e1 : q.tail + 1 - q.head - (q.tail - q.head) ⊓ (q.buffer.length - q.head) = 1 := by
            omega
          rw [e1, List.take_succ_cons, List.take_zero]
          congr 1
          rw [List.take_take]
          congr 1
          omega
        · have hle2 : ¬ q.head ≤ q.tail + 1 := by omega
          simp only [hle, hle2, if_false]
          rw [List.drop_set_of_lt _ _ (by omega), List.append_assoc]
          congr 1
          rw [hset, List.take_append_eq_append_take, hlt]
          have e1 : q.tail + 1 - q.tail = 1 := by omega
          rw [e1, List.take_succ_cons, List.take_zero, List.take_take]
          congr 2
          omega


theorem queue_run_refines {α : Type} [Inhabited α] (ops : List (QueueOp α)) :
    ∀ (q : Queue α) (r : α), q.WF →
      ∃ q', queue_run q r ops = .ok (q', (fifo_run q.toList r ops).2) ∧ q'.WF ∧
        q'.toList = (fifo_run q.toList r ops).1 := by
  induction ops with
  | nil =>
    intro q r h
    exact ⟨q, by simp only [queue_run, fifo_run], h, by simp only [fifo_run]⟩
  | cons op ops ih =>
    intro q r h
    cases op with
    | push v =>
      obtain ⟨q1, e1, w1, l1, -⟩ := queue_push_spec q h v
      obtain ⟨q2, e2, w2, l2⟩ := ih q1 r w1
      refine ⟨q2, ?_, w2, ?_⟩
      · simp only [queue_run, e1, fifo_run]
        rw [e2, l1]
      · rw [l2, l1]
        simp only [fifo_run]
    | pop =>
      cases hl : q.toList with
      | nil =>
        have e1 := queue_pop_nil q h hl r
        obtain ⟨q2, e2, w2, l2⟩ := ih q r h
        rw [hl] at e2 l2
        exact ⟨q2, by simp only [queue_run, e1, e2, fifo_run], w2, by rw [l2]; simp only [fifo_run]⟩
      | cons x l =>
        obtain ⟨q1, e1, w1, l1, -⟩ := queue_pop_cons q h x l hl r
        obtain ⟨q2, e2, w2, l2⟩ := ih q1 x w1
        rw [l1] at e2 l2
        exact ⟨q2, by simp only [queue_run, e1, e2, fifo_run], w2, by rw [l2]; simp only [fifo_run]⟩

/-- C4. A queue made by `queue_init` (capacity 4, records of positive size) refines a FIFO
list under every sequence of `queue_push` and `queue_pop` calls, whatever the number of
capacity doublings: the run does not fault, every pop gives the code and record that the
list gives (code 0 and the oldest record not yet popped, or code 1 with the caller's
variable untouched), `queue_size` is the number of records pushed and not yet popped,
`queue_empty` holds exactly when that number is 0, and a pop on an empty queue returns the
queue as it was. -/
theorem queue_refines_fifo {α : Type} [Inhabited α] (sz : Nat) (hsz : 0 < sz)
    (ops : List (QueueOp α)) (r : α) :
    ∃ q : Queue α, queue_run (queue_init sz) r ops = .ok (q, (fifo_run [] r ops).2) ∧
      queue_size q = ((fifo_run [] r ops).1.length : Int) ∧
      (queue_empty q = true ↔ (fifo_run [] r ops).1.length = 0) ∧
      ((fifo_run [] r ops).1.length = 0 → ∀ r', queue_pop q r' = .ok (1, q, r')) := by
  obtain ⟨q, e, w, l⟩ := queue_run_refines ops (queue_init sz : Queue α) r (queue_init_WF sz hsz)
  rw [queue_init_toList] at e l
  refine ⟨q, e, ?_, ?_, ?_⟩
  · rw [← l, Queue.toList_length q w]
  · rw [← l, List.length_eq_zero, Queue.toList_eq_nil_iff q w]
    simp [queue_empty]
  · intro h0 r'
    rw [← l, List.length_eq_zero] at h0
    exact queue_pop_nil q w h0 r'

theorem queue_refines_fifo_witness :
    0 < 8 ∧ ∃ q : Queue Nat,
      queue_run (queue_init 8) 0 ops_example = .ok (q, (fifo_run [] 0 ops_example).2) ∧
      queue_size q = ((fifo_run [] 0 ops_example).1.length : Int) ∧
      (queue_empty q = true ↔ (fifo_run [] 0 ops_example).1.length = 0) ∧
      ((fifo_run [] 0 ops_example).1.length = 0 → ∀ r', queue_pop q r' = .ok (1, q, r')) :=
  ⟨by decide, queue_refines_fifo 8 (by decide) ops_example 0⟩

theorem queue_run_example :
    queue_run (queue_init 8) 0 ops_example =
      .ok ({ cap := 8, sz := 8, head := 5, tail := 5, buffer := [1, 2, 3, 4, 5, 0, 0, 0] },
        [(0, 1), (0, 2), (0, 3), (0, 4), (0, 5), (1, 5)]) := by
  decide

/-! ## The frame decoder -/

theorem new_message_payload_length (P P1 : Package) (msg m1 : List Byte)
    (h : new_message_payload P msg = .ok (P1, some m1)) : m1.length ≤ msg.length := by
  unfold new_message_payload at h
  split_ifs at h
  · split at h
    · cases h
    · split at h
      · cases h
      · simp only [Except.ok.injEq, Prod.mk.injEq, Option.some.injEq] at h
        rw [← h.2]
        simp
  · split at h <;> cases h
  · simp only [Except.ok.injEq, Prod.mk.injEq, Option.some.injEq] at h
    rw [← h.2]

theorem new_message_header_length (P P1 : Package) (msg m1 : List Byte)
    (h : new_message_header P msg = .ok (P1, some m1)) : m1.length < msg.length := by
  cases msg with
  | nil => simp [new_message_header] at h
  | cons b0 rest =>
    simp only [new_message_header] at h
    split_ifs at h
    · cases rest with
      | nil => simp at h
      | cons b1 rest =>
        simp only [Except.ok.injEq, Prod.mk.injEq, Option.some.injEq] at h
        rw [← h.2]
        simp only [List.length_cons]
        omega
    · simp only [Except.ok.injEq, Prod.mk.injEq, Option.some.injEq] at h
      rw [← h.2]
      simp

theorem new_message_loop_fuel :
    ∀ (n m : Nat) (P : Package) (msg : List Byte), msg.length < n → msg.length < m →
      new_message_loop n P msg = new_message_loop m P msg := by
  intro n
  induction n with
  | zero => intro m P msg h; omega
  | succ n ih =>
    intro m P msg hn hm
    cases m with
    | zero => omega
    | succ m =>
      simp only [new_message_loop]
      cases hp : new_message_payload P msg with
      | error e => rfl
      | ok r =>
        obtain ⟨P1, o1⟩ := r
        cases o1 with
        | none => rfl
        | some m1 =>
          have l1 := new_message_payload_length P P1 msg m1 hp
          simp only
          cases hh : new_message_header P1 m1 with
          | error e => rfl
          | ok r2 =>
            obtain ⟨P2, o2⟩ := r2
            cases o2 with
            | none => rfl
            | some m2 =>
              have l2 := new_message_header_length P1 P2 m1 m2 hh
              exact ih m P2 m2 (by omega) (by omega)

theorem mem_write_ne_fuel {α : Type} (buf : List α) (i : Nat) (v : α) (e : Fault)
    (h : mem_write buf i v = .error e) : e ≠ .out_of_fuel := by
  unfold mem_write at h; split_ifs at h; cases h; simp

theorem mem_read_ne_fuel {α : Type} (buf : List α) (i : Nat) (e : Fault)
    (h : mem_read buf i = .error e) : e ≠ .out_of_fuel := by
  unfold mem_read at h; split at h <;> cases h; simp

theorem memcpy_ne_fuel (dst : List Byte) (off : Int) (src : List Byte) (n : Int) (e : Fault)
    (h : memcpy dst off src n = .error e) : e ≠ .out_of_fuel := by
  unfold memcpy at h; split_ifs at h; cases h; simp

theorem queue_push_copy_ne_fuel {α : Type} (buffer : List α) (cap : Nat) :
    ∀ (n i hd : Nat) (tmp : List α) (e : Fault),
      queue_push_copy buffer cap n i hd tmp = .error e → e ≠ .out_of_fuel := by
  intro n
  induction n with
  | zero => intro i hd tmp e h; simp [queue_push_copy] at h
  | succ n ih =>
    intro i hd tmp e h
    simp only [queue_push_copy] at h
    split at h
    · rename_i e1 he; cases h; exact mem_read_ne_fuel _ _ _ he
    · split at h
      · rename_i e1 he; cases h; exact mem_write_ne_fuel _ _ _ _ he
      · exact ih _ _ _ _ h

theorem queue_push_ne_fuel {α : Type} [Inhabited α] (q : Queue α) (v : α) (e : Fault)
    (h : queue_push q v = .error e) : e ≠ .out_of_fuel := by
  unfold queue_push at h
  simp only at h
  split_ifs at h
  all_goals first
    | (cases h; simp)
    | (split at h
       · rename_i e1 he; cases h
         first
           | exact queue_push_copy_ne_fuel _ _ _ _ _ _ _ he
           | exact mem_write_ne_fuel _ _ _ _ he
       · first
           | (cases h)
           | (split at h
              · rename_i e1 he; cases h; exact mem_write_ne_fuel _ _ _ _ he
              · cases h))

theorem new_message_payload_ne_fuel (P : Package) (msg : List Byte) (e : Fault)
    (h : new_message_payload P msg = .error e) : e ≠ .out_of_fuel := by
  unfold new_message_payload at h
  split_ifs at h
  · split at h
    · rename_i e1 he; cases h; exact memcpy_ne_fuel _ _ _ _ _ he
    · split at h
      · rename_i e1 he; cases h; exact queue_push_ne_fuel _ _ _ he
      · cases h
  · split at h
    · rename_i e1 he; cases h; exact memcpy_ne_fuel _ _ _ _ _ he
    · cases h

theorem new_message_header_ne_fuel (P : Package) (msg : List Byte) (e : Fault)
    (h : new_message_header P msg = .error e) : e ≠ .out_of_fuel := by
  cases msg with
  | nil => simp [new_message_header] at h
  | cons b0 rest =>
    simp only [new_message_header] at h
    split_ifs at h
    · cases rest <;> simp at h
    · cases h; simp

/-- The loop of `new_message` never runs out of iterations. -/
theorem new_message_for_fuel (P : Package) (msg : List Byte) :
    new_message_for P msg ≠ .error .out_of_fuel := by
  unfold new_message_for
  generalize hn : msg.length + 1 = n
  have hlt : msg.length < n := by omega
  clear hn
  induction n generalizing P msg with
  | zero => omega
  | succ n ih =>
    simp only [new_message_loop]
    cases hp : new_message_payload P msg with
    | error e =>
      have := new_message_payload_ne_fuel P msg e hp
      simpa using this
    | ok r =>
      obtain ⟨P1, o1⟩ := r
      cases o1 with
      | none => simp
      | some m1 =>
        have l1 := new_message_payload_length P P1 msg m1 hp
        simp only
        cases hh : new_message_header P1 m1 with
        | error e =>
          have := new_message_header_ne_fuel P1 m1 e hh
          simpa using this
        | ok r2 =>
          obtain ⟨P2, o2⟩ := r2
          cases o2 with
          | none => simp
          | some m2 =>
            have l2 := new_message_header_length P1 P2 m1 m2 hh
            exact ih P2 m2 (by omega)

theorem new_message_for_eq (P : Package) (msg : List Byte) :
    new_message_for P msg =
      match new_message_payload P msg with
      | .error e => .error e
      | .ok (P, none) => .ok P
      | .ok (P, some msg) =>
        match new_message_header P msg with
        | .error e => .error e
        | .ok (P, none) => .ok P
        | .ok (P, some msg) => new_message_for P msg := by
  unfold new_message_for
  simp only [new_message_loop]
  cases hp : new_message_payload P msg with
  | error e => rfl
  | ok r =>
    obtain ⟨P1, o1⟩ := r
    cases o1 with
    | none => rfl
    | some m1 =>
      have l1 := new_message_payload_length P P1 msg m1 hp
      simp only
      cases hh : new_message_header P1 m1 with
      | error e => rfl
      | ok r2 =>
        obtain ⟨P2, o2⟩ := r2
        cases o2 with
        | none => rfl
        | some m2 =>
          have l2 := new_message_header_length P1 P2 m1 m2 hh
          exact new_message_loop_fuel msg.length (m2.length + 1) P2 m2 (by omega) (by omega)

/-! ### `memcpy` on a source cut in two -/

theorem memcpy_nat (dst : List Byte) (o : Nat) (src : List Byte) (n : Nat) :
    memcpy dst (o : Int) src (n : Int) =
      if o + n ≤ dst.length ∧ n ≤ src.length then
        .ok (dst.take o ++ src.take n ++ dst.drop (o + n))
      else .error .out_of_bounds := by
  unfold memcpy
  simp only [Int.toNat_ofNat]
  by_cases h : o + n ≤ dst.length ∧ n ≤ src.length
  · rw [if_pos h, if_pos ⟨by omega, by omega, by omega, by omega⟩]
  · rw [if_neg h, if_neg]
    intro h2
    exact h ⟨by omega, by omega⟩

theorem memcpy_neg (dst : List Byte) (off : Int) (src : List Byte) (n : Int)
    (h : off < 0 ∨ n < 0) : memcpy dst off src n = .error .out_of_bounds := by
  unfold memcpy
  rw [if_neg]
  intro h2
  omega

theorem memcpy_append_left (dst : List Byte) (off : Int) (a b : List Byte) (n : Int)
    (hn : n ≤ a.length) : memcpy dst off (a ++ b) n = memcpy dst off a n := by
  by_cases hneg : off < 0 ∨ n < 0
  · rw [memcpy_neg _ _ _ _ hneg, memcpy_neg _ _ _ _ hneg]
  · obtain ⟨o, rfl⟩ := Int.eq_ofNat_of_zero_le (by omega : 0 ≤ off)
    obtain ⟨m, rfl⟩ := Int.eq_ofNat_of_zero_le (by omega : 0 ≤ n)
    have hm : m ≤ a.length := by omega
    rw [memcpy_nat, memcpy_nat, List.take_append_of_le_length hm]
    simp only [List.length_append]
    by_cases h : o + m ≤ dst.length
    · rw [if_pos ⟨h, by omega⟩, if_pos ⟨h, hm⟩]
    · rw [if_neg (fun h2 => h h2.1), if_neg (fun h2 => h h2.1)]

theorem memcpy_append_error (dst : List Byte) (off : Int) (a b : List Byte) (n : Int) (e : Fault)
    (h : memcpy dst off a a.length = .error e) (hn : (a.length : Int) ≤ n) :
    memcpy dst off (a ++ b) n = .error e := by
  by_cases hneg : off < 0
  · rw [memcpy_neg _ _ _ _ (Or.inl hneg)] at h ⊢
    exact h
  · obtain ⟨o, rfl⟩ := Int.eq_ofNat_of_zero_le (by omega : 0 ≤ off)
    obtain ⟨m, rfl⟩ := Int.eq_ofNat_of_zero_le (by omega : 0 ≤ n)
    rw [memcpy_nat] at h ⊢
    split_ifs at h with h1
    rw [if_neg, h]
    intro h2
    exact h1 ⟨by omega, le_refl _⟩

theorem memcpy_append_right (dst : List Byte) (off : Int) (a b : List Byte) (n : Int)
    (buf : List Byte) (h : memcpy dst off a a.length = .ok buf) (hn : (a.length : Int) ≤ n) :
    memcpy dst off (a ++ b) n = memcpy buf (off + a.length) b (n - a.length) := by
  by_cases hneg : off < 0
  · rw [memcpy_neg _ _ _ _ (Or.inl hneg)] at h
    cases h
  · obtain ⟨o, rfl⟩ := Int.eq_ofNat_of_zero_le (by omega : 0 ≤ off)
    obtain ⟨m, rfl⟩ := Int.eq_ofNat_of_zero_le (by omega : 0 ≤ n)
    have hm : a.length ≤ m := by omega
    have e1 : ((o : Int) + (a.length : Int)) = ((o + a.length : Nat) : Int) := by push_cast; rfl
    have e2 : ((m : Int) - (a.length : Int)) = ((m - a.length : Nat) : Int) := by omega
    rw [e1, e2, memcpy_nat, memcpy_nat]
    rw [memcpy_nat] at h
    split_ifs at h with h1
    simp only [List.take_length, Except.ok.injEq] at h
    have hl : buf.length = dst.length := by
      rw [← h]; simp [List.length_take, List.length_drop]; omega
    have ht : (dst.take o).length = o := by simp [List.length_take]; omega
    simp only [List.length_append, hl]
    by_cases h2 : o + m ≤ dst.length ∧ m ≤ a.length + b.length
    · rw [if_pos h2, if_pos ⟨by omega, by omega⟩]
      congr 1
      have t1 : buf.take (o + a.length) = dst.take o ++ a := by
        rw [← h, List.take_append_of_le_length (by simp [ht]),
          List.take_of_length_le (by simp [ht])]
      have t2 : buf.drop (o + a.length + (m - a.length)) = dst.drop (o + m) := by
        rw [← h, List.drop_append_eq_append_drop,
          List.drop_eq_nil_of_le (by simp [ht]), List.nil_append, List.drop_drop]
        congr 1
        simp [ht]
        omega
      rw [t1, t2, List.take_append_eq_append_take, List.take_of_length_le hm]
      simp only [List.append_assoc]
    · rw [if_neg h2, if_neg]
      intro h3
      exact h2 ⟨by omega, by omega⟩

/-! ### Decoding a chunk cut in two -/

theorem new_message_payload_neg (P : Package) (msg : List Byte) (h : P.uncomplete_sz < 0) :
    new_message_payload P msg = .ok (P, some msg) := by
  unfold new_message_payload
  rw [if_neg (by omega)]

theorem new_message_payload_some_neg (P P1 : Package) (msg m1 : List Byte)
    (h : new_message_payload P msg = .ok (P1, some m1)) : P1.uncomplete_sz < 0 := by
  unfold new_message_payload at h
  split_ifs at h with h1 h2
  · split at h
    · cases h
    · split at h
      · cases h
      · simp only [Except.ok.injEq, Prod.mk.injEq, Option.some.injEq] at h
        rw [← h.1]
        simp
  · split at h <;> cases h
  · simp only [Except.ok.injEq, Prod.mk.injEq, Option.some.injEq] at h
    rw [← h.1]
    omega

theorem new_message_header_none (P P1 : Package) (msg : List Byte)
    (h : new_message_header P msg = .ok (P1, none)) :
    P1.uncomplete_sz = P.uncomplete_sz := by
  cases msg with
  | nil =>
    simp only [new_message_header, Except.ok.injEq, Prod.mk.injEq, and_true] at h
    rw [h]
  | cons b0 rest =>
    simp only [new_message_header] at h
    split_ifs at h
    · cases rest with
      | nil =>
        simp only [Except.ok.injEq, Prod.mk.injEq, and_true] at h
        rw [← h]
      | cons b1 rest => simp at h
    · simp at h

theorem new_message_payload_append (P : Package) (a b : List Byte) :
    new_message_payload P (a ++ b) =
      match new_message_payload P a with
      | .error e => .error e
      | .ok (P1, some a1) => .ok (P1, some (a1 ++ b))
      | .ok (P1, none) => new_message_payload P1 b := by
  by_cases hneg : P.uncomplete_sz < 0
  · rw [new_message_payload_neg _ _ hneg, new_message_payload_neg _ _ hneg]
  · have hge : P.uncomplete_sz ≥ 0 := by omega
    obtain ⟨n, hn⟩ := Int.eq_ofNat_of_zero_le hge
    by_cases hla : (a.length : Int) ≥ P.uncomplete_sz
    · -- the pending payload ends inside `a`
      have hlab : ((a ++ b).length : Int) ≥ P.uncomplete_sz := by
        simp only [List.length_append, Nat.cast_add]; omega
      have hna : n ≤ a.length := by omega
      unfold new_message_payload
      rw [if_pos hge, if_pos hge, if_pos hla, if_pos hlab,
        memcpy_append_left _ _ _ _ _ (by omega)]
      split
      · rfl
      · split
        · rfl
        · simp only [hn, Int.toNat_ofNat, List.drop_append_of_le_length hna]
    · -- the pending payload goes beyond `a`
      have hla2 : (a.length : Int) ≤ P.uncomplete_sz := by omega
      conv => rhs; unfold new_message_payload
      rw [if_pos hge, if_neg hla]
      cases hm : memcpy P.uncomplete.msg (P.uncomplete.sz - P.uncomplete_sz) a a.length with
      | error e =>
        simp only
        unfold new_message_payload
        rw [if_pos hge]
        split_ifs
        · rw [memcpy_append_error _ _ _ _ _ _ hm hla2]
        · rw [memcpy_append_error _ _ _ _ _ _ hm (by simp)]
      | ok buf =>
        simp only
        unfold new_message_payload
        simp only [List.length_append, Nat.cast_add]
        have hge1 : P.uncomplete_sz - (a.length : Int) ≥ 0 := by omega
        rw [if_pos hge, if_pos hge1]
        have hoff : (P.uncomplete.sz : Int) - (P.uncomplete_sz - (a.length : Int))
            = (P.uncomplete.sz : Int) - P.uncomplete_sz + (a.length : Int) := by omega
        by_cases hlab : (a.length : Int) + (b.length : Int) ≥ P.uncomplete_sz
        · have hlb : (b.length : Int) ≥ P.uncomplete_sz - (a.length : Int) := by omega
          rw [if_pos hlab, if_pos hlb, memcpy_append_right _ _ _ _ _ _ hm hla2, hoff]
          split
          · rfl
          · split
            · rfl
            · have hd : List.drop P.uncomplete_sz.toNat (a ++ b)
                  = List.drop (P.uncomplete_sz - (a.length : Int)).toNat b := by
                rw [List.drop_append_eq_append_drop, List.drop_eq_nil_of_le (by omega),
                  List.nil_append]
                congr 1
                omega
              rw [hd]
        · have hlb : ¬ (b.length : Int) ≥ P.uncomplete_sz - (a.length : Int) := by omega
          rw [if_neg hlab, if_neg hlb]
          have hm2 := memcpy_append_right _ _ _ b ((a.length : Int) + (b.length : Int)) _ hm
            (by omega)
          rw [add_sub_cancel_left] at hm2
          have hcast : (((a ++ b).length : Nat) : Int) = (a.length : Int) + (b.length : Int) := by
            simp
          rw [← hcast] at hm2
          rw [← hcast, hm2, hoff]
          split
          · rfl
          · simp only [Except.ok.injEq, Prod.mk.injEq, and_true]
            congr 1
            simp
            omega

theorem new_message_header_append (P : Package) (a b : List Byte) :
    new_message_header P (a ++ b) =
      match new_message_header P a with
      | .error e => .error e
      | .ok (P1, some a1) => .ok (P1, some (a1 ++ b))
      | .ok (P1, none) => new_message_header P1 b := by
  cases a with
  | nil => simp [new_message_header]
  | cons x a =>
    by_cases h0 : P.header_sz = 0
    · cases a with
      | nil =>
        cases b with
        | nil => simp [new_message_header, h0]
        | cons y b =>
          simp only [List.singleton_append, new_message_header, h0, if_true]
          simp [h0]
      | cons y a => simp [new_message_header, h0]
    · by_cases h1 : P.header_sz = 1
      · simp [new_message_header, h0, h1]
      · simp [new_message_header, h0, h1]

theorem new_message_for_append_aux :
    ∀ (n : Nat) (a : List Byte), a.length < n → ∀ (P : Package) (b : List Byte),
      new_message_for P (a ++ b) =
        match new_message_for P a with
        | .error e => .error e
        | .ok P1 => new_message_for P1 b := by
  intro n
  induction n with
  | zero => intro a ha; omega
  | succ n ih =>
    intro a ha P b
    rw [new_message_for_eq P (a ++ b), new_message_for_eq P a, new_message_payload_append]
    cases hp : new_message_payload P a with
    | error e => rfl
    | ok r =>
      obtain ⟨P1, o1⟩ := r
      cases o1 with
      | none =>
        simp only
        rw [new_message_for_eq P1 b]
      | some a1 =>
        have l1 := new_message_payload_length P P1 a a1 hp
        have u1 := new_message_payload_some_neg P P1 a a1 hp
        simp only
        rw [new_message_header_append]
        cases hh : new_message_header P1 a1 with
        | error e => rfl
        | ok r2 =>
          obtain ⟨P2, o2⟩ := r2
          cases o2 with
          | none =>
            have u2 := new_message_header_none P1 P2 a1 hh
            simp only
            rw [new_message_for_eq P2 b, new_message_payload_neg P2 b (by omega)]
          | some a2 =>
            have l2 := new_message_header_length P1 P2 a1 a2 hh
            simp only
            exact ih a2 (by omega) P2 b

/-- The loop of `new_message` on a chunk `a ++ b` is the loop on `a` followed, from the
state it leaves, by the loop on `b`; a fault in one is the same fault in the other. -/
theorem new_message_for_append (P : Package) (a b : List Byte) :
    new_message_for P (a ++ b) =
      match new_message_for P a with
      | .error e => .error e
      | .ok P1 => new_message_for P1 b :=
  new_message_for_append_aux (a.length + 1) a (by omega) P b

/-! ### Fields the decoding loop leaves alone -/

theorem new_message_payload_outer (P O : Package) (msg : List Byte) :
    new_message_payload (P.set_outer O) msg =
      match new_message_payload P msg with
      | .error e => .error e
      | .ok (P1, r) => .ok (P1.set_outer O, r) := by
  unfold new_message_payload
  simp only [Package.set_outer]
  split_ifs
  · cases memcpy P.uncomplete.msg (↑P.uncomplete.sz - P.uncomplete_sz) msg P.uncomplete_sz with
    | error e => rfl
    | ok buf =>
      simp only
      cases queue_push P.response { sz := P.uncomplete.sz, msg := buf } with
      | error e => rfl
      | ok q => rfl
  · cases memcpy P.uncomplete.msg (↑P.uncomplete.sz - P.uncomplete_sz) msg ↑msg.length with
    | error e => rfl
    | ok buf => rfl
  · rfl

theorem new_message_header_outer (P O : Package) (msg : List Byte) :
    new_message_header (P.set_outer O) msg =
      match new_message_header P msg with
      | .error e => .error e
      | .ok (P1, r) => .ok (P1.set_outer O, r) := by
  cases msg with
  | nil => simp [new_message_header]
  | cons b0 rest =>
    simp only [new_message_header, Package.set_outer]
    split_ifs
    · cases rest <;> simp [new_message_alloc]
    · rfl
    · simp [new_message_alloc]

theorem new_message_loop_outer (O : Package) :
    ∀ (n : Nat) (P : Package) (msg : List Byte),
      new_message_loop n (P.set_outer O) msg =
        match new_message_loop n P msg with
        | .error e => .error e
        | .ok P1 => .ok (P1.set_outer O) := by
  intro n
  induction n with
  | zero => intro P msg; simp [new_message_loop]
  | succ n ih =>
    intro P msg
    simp only [new_message_loop]
    rw [new_message_payload_outer]
    cases hp : new_message_payload P msg with
    | error e => rfl
    | ok r =>
      obtain ⟨P1, o1⟩ := r
      cases o1 with
      | none => rfl
      | some m1 =>
        simp only
        rw [new_message_header_outer]
        cases hh : new_message_header P1 m1 with
        | error e => rfl
        | ok r2 =>
          obtain ⟨P2, o2⟩ := r2
          cases o2 with
          | none => rfl
          | some m2 => exact ih P2 m2

theorem new_message_for_outer (P O : Package) (msg : List Byte) :
    new_message_for (P.set_outer O) msg =
      match new_message_for P msg with
      | .error e => .error e
      | .ok P1 => .ok (P1.set_outer O) :=
  new_message_loop_outer O _ P msg

theorem set_outer_self (P : Package) : P.set_outer P = P := rfl

theorem new_message_for_outer_eq (P P1 : Package) (msg : List Byte)
    (h : new_message_for P msg = .ok P1) : P1.set_outer P = P1 := by
  have h2 := new_message_for_outer P P msg
  rw [set_outer_self, h] at h2
  simp only [Except.ok.injEq] at h2
  exact h2.symm

theorem new_message_of_not_preamble (P : Package) (msg : List Byte)
    (h : P.proxy = 3 ∨ P.proxy = -1) : new_message P msg = new_message_decode P msg := by
  unfold new_message
  rw [if_neg (by omega)]

/-- C7. Chunk-boundary independence of the decoder.  In a state whose preamble phase is
over (`proxy` is 3, Done, or -1, Disabled), delivering `a` and then `b` to `new_message`
gives the same outcome as delivering `a ++ b` in one call: the same fault if one occurs,
and otherwise the same state in every field (response queue, buffered header byte,
`header_sz`, pending payload buffer, declared length, bytes still needed) but for the
receive counter, which counts two deliveries instead of one. -/
theorem new_message_chunk_boundary (P : Package) (a b : List Byte)
    (h : P.proxy = 3 ∨ P.proxy = -1) :
    new_message P (a ++ b) =
      match new_message P a with
      | .error e => .error e
      | .ok P1 =>
        match new_message P1 b with
        | .error e => .error e
        | .ok P2 => .ok { P2 with recv := P.recv + 1 } := by
  rw [new_message_of_not_preamble P _ h, new_message_of_not_preamble P _ h]
  unfold new_message_decode
  rw [new_message_for_append]
  cases h1 : new_message_for { P with recv := P.recv + 1 } a with
  | error e => rfl
  | ok P1 =>
    have ho := new_message_for_outer_eq _ _ _ h1
    have hproxy : P1.proxy = P.proxy := by rw [← ho]; rfl
    have hrecv : P1.recv = P.recv + 1 := by rw [← ho]; rfl
    simp only
    rw [new_message_of_not_preamble P1 _ (by rw [hproxy]; exact h)]
    unfold new_message_decode
    have h2 := new_message_for_outer P1 { P1 with recv := P1.recv + 1 } b
    have e1 : P1.set_outer { P1 with recv := P1.recv + 1 } = { P1 with recv := P1.recv + 1 } :=
      rfl
    rw [e1] at h2
    rw [h2]
    cases h3 : new_message_for P1 b with
    | error e => rfl
    | ok P2 =>
      have ho2 := new_message_for_outer_eq _ _ _ h3
      simp only [Except.ok.injEq]
      rw [← ho2]
      simp only [Package.set_outer, hrecv]

theorem new_message_chunk_boundary_witness :
    (({ package_create with proxy := -1 } : Package).proxy = 3 ∨
        ({ package_create with proxy := -1 } : Package).proxy = -1) ∧
      new_message { package_create with proxy := -1 } ([0] ++ [2, 7, 9, 0]) =
        match new_message { package_create with proxy := -1 } [0] with
        | .error e => .error e
        | .ok P1 =>
          match new_message P1 [2, 7, 9, 0] with
          | .error e => .error e
          | .ok P2 =>
            .ok { P2 with recv := ({ package_create with proxy := -1 } : Package).recv + 1 } :=
  ⟨by decide, new_message_chunk_boundary _ _ _ (by decide)⟩

/-! ## The encoder -/

theorem send_out_header_bytes (sz : Nat) (h : sz ≤ 65535) :
    ((Fin.ofNat ((sz &&& 0xff00) >>> 8) : Byte).val = sz / 256) ∧
      ((Fin.ofNat (sz &&& 0xff) : Byte).val = sz % 256) := by
  have e1 : (sz &&& 0xff00) >>> 8 = sz / 256 := by
    have e0 : (sz &&& 0xff00) >>> 8 = sz >>> 8 := by
      apply Nat.eq_of_testBit_eq
      intro j
      simp only [Nat.testBit_shiftRight, Nat.testBit_and]
      by_cases hj : j < 8
      · have : Nat.testBit 0xff00 (8 + j) = true := by
          interval_cases j <;> decide
        rw [this, Bool.and_true]
      · have : Nat.testBit sz (8 + j) = false :=
          Nat.testBit_lt_two_pow (lt_of_lt_of_le (by omega : sz < 2 ^ 16)
            (Nat.pow_le_pow_right (by decide) (by omega)))
        rw [this, Bool.false_and]
    rw [e0, Nat.shiftRight_eq_div_pow]
  have e2 : sz &&& 0xff = sz % 256 := by
    have : (0xff : Nat) = 2 ^ 8 - 1 := by decide
    rw [this, Nat.and_pow_two_sub_one_eq_mod]
  rw [e1, e2]
  simp only [Fin.ofNat, Fin.val_mk]
  omega

theorem send_out_ok (P : Package) (msg : List Byte) (h : msg.length ≤ 65535) :
    ∃ b0 b1 : Byte, b0.val = msg.length / 256 ∧ b1.val = msg.length % 256 ∧
      b0.val * 256 + b1.val = msg.length ∧
      send_out P msg =
        .ok (P, [.skynet_socket_send P.fd (b0 :: b1 :: msg) (msg.length + 2)]) := by
  obtain ⟨h0, h1⟩ := send_out_header_bytes msg.length h
  refine ⟨Fin.ofNat ((msg.length &&& 0xff00) >>> 8), Fin.ofNat (msg.length &&& 0xff), h0, h1,
    by rw [h0, h1]; omega, ?_⟩
  unfold send_out
  simp only
  rw [if_neg (by omega)]
  have hm : memcpy
      (((skynet_malloc (msg.length + 2) : List Byte).set 0
        (Fin.ofNat ((msg.length &&& 0xff00) >>> 8))).set 1 (Fin.ofNat (msg.length &&& 0xff)))
      2 msg msg.length
      = .ok (Fin.ofNat ((msg.length &&& 0xff00) >>> 8) :: Fin.ofNat (msg.length &&& 0xff) :: msg)
      := by
    have := memcpy_nat
      (((skynet_malloc (msg.length + 2) : List Byte).set 0
        (Fin.ofNat ((msg.length &&& 0xff00) >>> 8))).set 1 (Fin.ofNat (msg.length &&& 0xff)))
      2 msg msg.length
    rw [Nat.cast_ofNat] at this
    rw [this, if_pos (by simp [skynet_malloc]; omega)]
    simp only [skynet_malloc, List.replicate_succ, List.set_cons_zero, List.set_cons_succ,
      List.take_succ_cons, List.take_zero, List.take_length, Nat.add_comm 2, List.drop_succ_cons]
    simp
  simp only [mem_write, skynet_malloc, List.length_replicate, List.length_set,
    Nat.zero_lt_succ, if_true, Nat.lt_add_left_iff_pos, Nat.one_lt_succ_succ]
  simp only [skynet_malloc] at hm
  rw [hm]

/-- C5. Encoder output format.  For a payload of `sz` bytes, `sz ≤ 65535`, `send_out` makes
exactly one call into the runtime, `skynet_socket_send` on the connection's `fd` with a
buffer of `sz + 2` bytes: byte 0 is `sz / 256`, byte 1 is `sz % 256` (so that
`byte0 * 256 + byte1 = sz`), then the payload unchanged.  The state is returned as it
was. -/
theorem send_out_format (P : Package) (msg : List Byte) (h : msg.length ≤ 65535) :
    ∃ b0 b1 : Byte, b0.val = msg.length / 256 ∧ b1.val = msg.length % 256 ∧
      b0.val * 256 + b1.val = msg.length ∧
      send_out P msg =
        .ok (P, [.skynet_socket_send P.fd (b0 :: b1 :: msg) (msg.length + 2)]) :=
  send_out_ok P msg h

theorem send_out_format_witness :
    ([1, 2, 3] : List Byte).length ≤ 65535 ∧
    ∃ b0 b1 : Byte, b0.val = ([1, 2, 3] : List Byte).length / 256 ∧
      b1.val = ([1, 2, 3] : List Byte).length % 256 ∧
      b0.val * 256 + b1.val = ([1, 2, 3] : List Byte).length ∧
      send_out package_create [1, 2, 3] =
        .ok (package_create, [.skynet_socket_send package_create.fd (b0 :: b1 :: [1, 2, 3])
          (([1, 2, 3] : List Byte).length + 2)]) :=
  ⟨by decide, send_out_format package_create [1, 2, 3] (by decide)⟩

/-- C6. Oversized reject.  For a payload of more than 65535 bytes `send_out` makes no call
to `skynet_socket_send`, with no buffer at all: its only call into the runtime is the
error report, and the state is returned as it was. -/
theorem send_out_oversized (P : Package) (msg : List Byte) (h : msg.length > 65535) :
    send_out P msg = .ok (P, [.skynet_error "package too long"]) := by
  unfold send_out
  simp only
  rw [if_pos (by omega)]

theorem send_out_oversized_witness :
    (List.replicate 65536 (0 : Byte)).length > 65535 ∧
      send_out package_create (List.replicate 65536 0) =
        .ok (package_create, [.skynet_error "package too long"]) :=
  ⟨by rw [List.length_replicate]; decide,
    send_out_oversized package_create (List.replicate 65536 0)
      (by rw [List.length_replicate]; decide)⟩

/-! ## The heartbeat -/

theorem response_timer :
    ∀ (fuel : Nat) (P P1 : Package) (out : List Effect), response fuel P = .ok (P1, out) →
      P1.recv = P.recv ∧ P1.heartbeat = P.heartbeat ∧ P1.fd = P.fd ∧ P1.closed = P.closed := by
  intro fuel
  induction fuel with
  | zero => intro P P1 out h; simp [response] at h
  | succ n ih =>
    intro P P1 out h
    simp only [response] at h
    by_cases c1 : queue_empty P.request = true
    · rw [if_neg (by simp [c1])] at h
      cases h; exact ⟨rfl, rfl, rfl, rfl⟩
    · rw [if_pos c1] at h
      by_cases c2 : queue_empty P.response = true
      · rw [if_pos c2] at h
        cases h; exact ⟨rfl, rfl, rfl, rfl⟩
      · rw [if_neg c2] at h
        cases h1 : queue_pop P.request default with
        | error e => rw [h1] at h; cases h
        | ok r1 =>
          obtain ⟨c, qreq, req⟩ := r1
          rw [h1] at h
          simp only at h
          cases h2 : queue_pop P.response default with
          | error e => rw [h2] at h; cases h
          | ok r2 =>
            obtain ⟨c', qresp, resp⟩ := r2
            rw [h2] at h
            simp only at h
            cases h3 : response n { P with request := qreq, response := qresp } with
            | error e => rw [h3] at h; cases h
            | ok r3 =>
              obtain ⟨P3, out3⟩ := r3
              rw [h3] at h
              cases h
              have t := ih _ _ _ h3
              exact t

theorem service_exit_loop_timer :
    ∀ (fuel : Nat) (P P1 : Package) (out : List Effect),
      service_exit_loop fuel P = .ok (P1, out) →
      P1.recv = P.recv ∧ P1.heartbeat = P.heartbeat ∧ P1.fd = P.fd ∧ P1.closed = P.closed := by
  intro fuel
  induction fuel with
  | zero => intro P P1 out h; simp [service_exit_loop] at h
  | succ n ih =>
    intro P P1 out h
    simp only [service_exit_loop] at h
    by_cases c1 : queue_empty P.request = true
    · rw [if_neg (by simp [c1])] at h
      cases h; exact ⟨rfl, rfl, rfl, rfl⟩
    · rw [if_pos c1] at h
      cases h1 : queue_pop P.request default with
      | error e => rw [h1] at h; cases h
      | ok r1 =>
        obtain ⟨c, qreq, req⟩ := r1
        rw [h1] at h
        simp only at h
        cases h3 : service_exit_loop n { P with request := qreq } with
        | error e => rw [h3] at h; cases h
        | ok r3 =>
          obtain ⟨P3, out3⟩ := r3
          rw [h3] at h
          cases h
          have t := ih _ _ _ h3
          exact t

theorem service_exit_timer (fuel : Nat) (P P1 : Package) (out : List Effect)
    (h : service_exit fuel P = .ok (P1, out)) :
    P1.recv = P.recv ∧ P1.heartbeat = P.heartbeat ∧ P1.fd = P.fd ∧ P1.closed = 1 := by
  unfold service_exit at h
  cases h3 : service_exit_loop fuel { P with closed := 1 } with
  | error e => rw [h3] at h; cases h
  | ok r3 =>
    obtain ⟨P3, out3⟩ := r3
    rw [h3] at h
    cases h
    have t := service_exit_loop_timer _ _ _ _ h3
    exact t

theorem command_timer (P P1 : Package) (session : Int) (source : Nat) (msg : List Byte)
    (out : List Effect) (h : command P session source msg = .ok (P1, out)) :
    P1.recv = P.recv ∧ P1.heartbeat = P.heartbeat ∧ P1.fd = P.fd ∧ P1.closed = P.closed := by
  cases msg with
  | nil => cases h
  | cons c rest =>
    simp only [command] at h
    by_cases hR : c = 82
    · rw [if_pos hR] at h
      by_cases hc : P.closed ≠ 0
      · rw [if_pos hc] at h
        cases h; exact ⟨rfl, rfl, rfl, rfl⟩
      · rw [if_neg hc] at h
        by_cases he : queue_empty P.response = true
        · rw [if_neg (by simp [he])] at h
          cases h2 : queue_push P.request { source := source, session := session } with
          | error e => rw [h2] at h; cases h
          | ok q =>
            rw [h2] at h
            cases h; exact ⟨rfl, rfl, rfl, rfl⟩
        · rw [if_pos he] at h
          by_cases he2 : queue_empty P.request = true
          · rw [if_neg (by simp [he2])] at h
            cases h2 : queue_pop P.response default with
            | error e => rw [h2] at h; cases h
            | ok r2 =>
              obtain ⟨c', qresp, resp⟩ := r2
              rw [h2] at h
              cases h; exact ⟨rfl, rfl, rfl, rfl⟩
          · rw [if_pos he2] at h
            cases h
    · rw [if_neg hR] at h
      split_ifs at h <;> (cases h; exact ⟨rfl, rfl, rfl, rfl⟩)

theorem send_out_state (P P1 : Package) (msg : List Byte) (out : List Effect)
    (h : send_out P msg = .ok (P1, out)) : P1 = P := by
  unfold send_out at h
  simp only at h
  split_ifs at h
  · cases h; rfl
  · split at h
    · cases h
    · split at h
      · cases h
      · split at h
        · cases h
        · cases h; rfl

theorem socket_message_close_timer (fuel : Nat) (P P0 P1 : Package) (out0 out : List Effect)
    (e1 : P0.recv = P.recv) (e2 : P0.heartbeat = P.heartbeat) (e3 : P0.fd = P.fd)
    (h : ((match response fuel P0 with
        | .error e => .error e
        | .ok (Pa, out1) =>
          match service_exit fuel Pa with
          | .error e => .error e
          | .ok (Pb, out2) => .ok (Pb, out0 ++ out1 ++ out2)) :
            Except Fault (Package × List Effect))
        = .ok (P1, out)) :
    P1.recv = P.recv ∧ P1.heartbeat = P.heartbeat ∧ P1.fd = P.fd := by
  cases h1 : response fuel P0 with
  | error e => rw [h1] at h; cases h
  | ok r1 =>
    obtain ⟨Pa, out1⟩ := r1
    rw [h1] at h
    simp only at h
    cases h2 : service_exit fuel Pa with
    | error e => rw [h2] at h; cases h
    | ok r2 =>
      obtain ⟨Pb, out2⟩ := r2
      rw [h2] at h
      cases h
      have t1 := response_timer _ _ _ _ h1
      have t2 := service_exit_timer _ _ _ _ h2
      exact ⟨by rw [t2.1, t1.1, e1], by rw [t2.2.1, t1.2.1, e2], by rw [t2.2.2.1, t1.2.2.1, e3]⟩

theorem socket_message_timer (fuel : Nat) (P P1 : Package) (smsg : SocketMessage)
    (out : List Effect) (hd : smsg.type ≠ .DATA)
    (h : socket_message fuel P smsg = .ok (P1, out)) :
    P1.recv = P.recv ∧ P1.heartbeat = P.heartbeat ∧ P1.fd = P.fd := by
  unfold socket_message at h
  cases ht : smsg.type with
  | DATA => exact absurd ht hd
  | CONNECT =>
    rw [ht] at h
    simp only at h
    split_ifs at h <;> (cases h; exact ⟨rfl, rfl, rfl⟩)
  | CLOSE =>
    rw [ht] at h
    simp only at h
    by_cases hi : P.init = 0 ∧ smsg.id = P.fd
    · simp only [if_pos hi] at h
      rw [if_neg (by simp [hi.2])] at h
      exact socket_message_close_timer fuel P { P with init := 1 } P1
        [.skynet_send P.manager .TEXT 0 (.text "FAIL")] out rfl rfl rfl h
    · simp only [if_neg hi] at h
      by_cases hf : smsg.id ≠ P.fd
      · rw [if_pos hf] at h
        cases h; exact ⟨rfl, rfl, rfl⟩
      · rw [if_neg hf] at h
        exact socket_message_close_timer fuel P P P1 [] out rfl rfl rfl h
  | ERROR =>
    rw [ht] at h
    simp only at h
    by_cases hi : P.init = 0 ∧ smsg.id = P.fd
    · simp only [if_pos hi] at h
      rw [if_neg (by simp [hi.2])] at h
      exact socket_message_close_timer fuel P { P with init := 1 } P1
        [.skynet_send P.manager .TEXT 0 (.text "FAIL")] out rfl rfl rfl h
    · simp only [if_neg hi] at h
      by_cases hf : smsg.id ≠ P.fd
      · rw [if_pos hf] at h
        cases h; exact ⟨rfl, rfl, rfl⟩
      · rw [if_neg hf] at h
        exact socket_message_close_timer fuel P P P1 [] out rfl rfl rfl h
  | WARNING =>
    rw [ht] at h
    cases h; exact ⟨rfl, rfl, rfl⟩
  | OTHER =>
    rw [ht] at h
    cases h; exact ⟨rfl, rfl, rfl⟩

theorem message_handler_timer (fuel : Nat) (P P1 : Package) (session : Int) (source : Nat)
    (m : Message) (out : List Effect) (hd : m.is_data = false) (ht : m.is_tick = false)
    (h : message_handler fuel P session source m = .ok (P1, out)) :
    P1.recv = P.recv ∧ P1.heartbeat = P.heartbeat ∧ P1.fd = P.fd := by
  cases m with
  | TEXT msg =>
    have t := command_timer _ _ _ _ _ _ h
    exact ⟨t.1, t.2.1, t.2.2.1⟩
  | CLIENT msg =>
    have := send_out_state _ _ _ _ h
    rw [this]; exact ⟨rfl, rfl, rfl⟩
  | RESPONSE => simp [Message.is_tick] at ht
  | SOCKET smsg =>
    have : smsg.type ≠ .DATA := by simpa [Message.is_data] using hd
    exact socket_message_timer _ _ _ _ _ this h
  | ERROR =>
    simp only [message_handler] at h
    cases h; exact ⟨rfl, rfl, rfl⟩
  | OTHER =>
    simp only [message_handler] at h
    split_ifs at h <;> (cases h; exact ⟨rfl, rfl, rfl⟩)

theorem run_events_timer (fuel : Nat) :
    ∀ (es : List Event) (P P1 : Package) (out : List Effect),
      (∀ e ∈ es, e.msg.is_data = false ∧ e.msg.is_tick = false) →
      run_events fuel P es = .ok (P1, out) →
      P1.recv = P.recv ∧ P1.heartbeat = P.heartbeat ∧ P1.fd = P.fd := by
  intro es
  induction es with
  | nil =>
    intro P P1 out _ h
    simp only [run_events] at h
    cases h; exact ⟨rfl, rfl, rfl⟩
  | cons e es ih =>
    intro P P1 out hes h
    simp only [run_events] at h
    cases h1 : message_handler fuel P e.session e.source e.msg with
    | error f => rw [h1] at h; cases h
    | ok r1 =>
      obtain ⟨Pa, outa⟩ := r1
      rw [h1] at h
      simp only at h
      cases h2 : run_events fuel Pa es with
      | error f => rw [h2] at h; cases h
      | ok r2 =>
        obtain ⟨Pb, outb⟩ := r2
        rw [h2] at h
        cases h
        have he := hes e (List.mem_cons_self _ _)
        have t1 := message_handler_timer _ _ _ _ _ _ _ he.1 he.2 h1
        have t2 := ih Pa P1 outb (fun x hx => hes x (List.mem_cons_of_mem _ hx)) h2
        exact ⟨by rw [t2.1, t1.1], by rw [t2.2.1, t1.2.1], by rw [t2.2.2, t1.2.2]⟩

/-- C10. Idle timeout.  Take any state in which a timer tick does not time out (`recv`
differs from the snapshot `heartbeat`), let the tick be handled, and then let any messages
be handled that are neither inbound data nor timer ticks.  The next tick, `heartbeat` on
the state so reached, leaves the state as it is and schedules nothing (no `TIMEOUT`
command): when the connection is not closed its calls are `skynet_socket_shutdown` on the
connection's `fd` and the error report, and when it is closed it makes no call. -/
theorem heartbeat_idle_timeout (fuel : Nat) (P P2 : Package) (es : List Event)
    (out : List Effect) (h1 : P.recv ≠ P.heartbeat)
    (hes : ∀ e ∈ es, e.msg.is_data = false ∧ e.msg.is_tick = false)
    (hrun : run_events fuel (heartbeat P).1 es = .ok (P2, out)) :
    (heartbeat P).2 = [.skynet_command "TIMEOUT" (some "1000")] ∧
    heartbeat P2 =
      (P2, if P2.closed = 0 then [.skynet_socket_shutdown P.fd, .skynet_error "timeout"]
        else []) := by
  have t := run_events_timer fuel es _ _ _ hes hrun
  have e0 : heartbeat P
      = ({ P with heartbeat := 0, recv := 0 }, [.skynet_command "TIMEOUT" (some "1000")]) := by
    unfold heartbeat
    rw [if_neg h1]
  rw [e0] at t
  simp only at t
  refine ⟨by rw [e0], ?_⟩
  unfold heartbeat
  rw [if_pos (by rw [t.1, t.2.1]), t.2.2]
  split_ifs <;> rfl

theorem heartbeat_idle_timeout_witness :
    ∃ (P2 : Package) (out : List Effect),
      ({ package_create with manager := 1, fd := 5 } : Package).recv ≠
        ({ package_create with manager := 1, fd := 5 } : Package).heartbeat ∧
      run_events 4 (heartbeat { package_create with manager := 1, fd := 5 }).1
          [⟨1, 7, .TEXT [82]⟩, ⟨0, 0, .SOCKET ⟨.CONNECT, 5, []⟩⟩, ⟨0, 0, .CLIENT [1, 2]⟩] =
        .ok (P2, out) ∧
      P2.closed = 0 ∧
      (heartbeat { package_create with manager := 1, fd := 5 }).2 =
        [.skynet_command "TIMEOUT" (some "1000")] ∧
      heartbeat P2 =
        (P2, if P2.closed = 0 then [.skynet_socket_shutdown 5, .skynet_error "timeout"]
          else []) :=
  ⟨{ manager := 1, fd := 5, heartbeat := 0, recv := 0, init := 1, closed := 0, proxy := 0,
      header_sz := 0, header := (0, 0), uncomplete_sz := -1, uncomplete := { sz := 0, msg := [] },
      request :=
        { cap := 4, sz := 8, head := 0, tail := 1,
          buffer := [{ source := 7, session := 1 }, default, default, default] },
      response := queue_init 16 },
    [.skynet_send 1 .TEXT 0 (.text "SUCC"), .skynet_socket_send 5 [0, 2, 1, 2] 4],
    by decide, by decide, rfl,
    heartbeat_idle_timeout 4 { package_create with manager := 1, fd := 5 }
      { manager := 1, fd := 5, heartbeat := 0, recv := 0, init := 1, closed := 0, proxy := 0,
        header_sz := 0, header := (0, 0), uncomplete_sz := -1,
        uncomplete := { sz := 0, msg := [] },
        request :=
          { cap := 4, sz := 8, head := 0, tail := 1,
            buffer := [{ source := 7, session := 1 }, default, default, default] },
        response := queue_init 16 }
      [⟨1, 7, .TEXT [82]⟩, ⟨0, 0, .SOCKET ⟨.CONNECT, 5, []⟩⟩, ⟨0, 0, .CLIENT [1, 2]⟩]
      [.skynet_send 1 .TEXT 0 (.text "SUCC"), .skynet_socket_send 5 [0, 2, 1, 2] 4]
      (by decide) (by decide) (by decide)⟩

/-! ## The proxy preamble -/

theorem package_create_New : package_create.New :=
  ⟨rfl, rfl, rfl, rfl, rfl⟩

theorem parse_proxy_v1_loop_skip (msg : List Byte) :
    ∀ (k n i : Nat) (P : Package),
      (∀ j, i ≤ j → j < i + k → ∃ c, msg[j]? = some c ∧ c ≠ 13) →
      parse_proxy_v1_loop msg (k + n) i P = parse_proxy_v1_loop msg n (i + k) P := by
  intro k
  induction k with
  | zero => intro n i P _; simp
  | succ k ih =>
    intro n i P h
    obtain ⟨c, hc, hne⟩ := h i (le_refl _) (by omega)
    have e : k + 1 + n = (k + n) + 1 := by omega
    rw [e]
    simp only [parse_proxy_v1_loop, mem_read, hc, if_neg hne]
    rw [ih n (i + 1) P (fun j h1 h2 => h j (by omega) (by omega))]
    congr 1
    omega

theorem getElem?_body (body tail : List Byte) (hcr : ∀ b ∈ body, b ≠ 13) (j : Nat)
    (hj : j < body.length) : ∃ c, (body ++ tail)[j]? = some c ∧ c ≠ 13 := by
  refine ⟨body[j], ?_, hcr _ (List.getElem_mem _)⟩
  rw [List.getElem?_append_left hj, List.getElem?_eq_getElem hj]

theorem skynet_malloc_drop (n k : Nat) :
    (skynet_malloc n : List Byte).drop k = List.replicate (n - k) 0 := by
  simp only [skynet_malloc, List.drop_replicate]
  rfl

theorem skynet_malloc_length {α : Type} [Inhabited α] (n : Nat) :
    (skynet_malloc n : List α).length = n := by
  simp only [skynet_malloc, List.length_replicate]

theorem queue_init_push (r : Response) :
    queue_push (queue_init 16 : Queue Response) r =
      .ok { cap := 4, sz := 16, head := 0, tail := 1,
            buffer := [r, default, default, default] } := by
  rfl

/-- C9, at the failing input.  The chunk `preamble_109` begins with `"PROXY "`, its first
carriage return is at offset 107 < 108 and is followed by a line feed; `new_message` on a
new connection copies its 109 bytes into the buffer of 108 bytes allocated for the
preamble, which is a write outside the buffer. -/
theorem proxy_preamble_109_overflow :
    preamble_109.take 6 = PROXY_literal ∧ preamble_109[107]? = some 13 ∧
    preamble_109[108]? = some 10 ∧ (∀ b ∈ preamble_109.take 107, b ≠ 13) ∧
    new_message package_create preamble_109 = .error .out_of_bounds := by
  refine ⟨by decide, by decide, by decide, by decide, ?_⟩
  decide

/-- A preamble that arrives whole.  On a new connection, for a first chunk that begins with
`"PROXY "` and whose first carriage return, at offset `i` with `i + 2 ≤ 108`, is followed
by a line feed, `new_message` is the delivery of the bytes from offset `i + 2` to a
connection `Pd` in state Done with no partial frame, whose response queue holds one frame:
the first `i + 2` bytes of the chunk. -/
theorem proxy_preamble_one_chunk (P : Package) (hP : P.New) (chunk : List Byte) (i : Nat)
    (hstart : chunk.take 6 = PROXY_literal)
    (hno : ∀ j, j < i → ∃ b, chunk[j]? = some b ∧ b ≠ 13) (hcr : chunk[i]? = some 13)
    (hlf : chunk[i + 1]? = some 10) (hi : i + 2 ≤ 108) :
    ∃ Pd : Package,
      new_message P chunk = new_message Pd (chunk.drop (i + 2)) ∧
      Pd.proxy = 3 ∧ Pd.header_sz = 0 ∧ Pd.uncomplete_sz = -1 ∧
      (∃ r : Response, Pd.response.toList = [r] ∧ r.sz = i + 2 ∧
        r.bytes = chunk.take (i + 2)) := by
  obtain ⟨h1, h2, h3, h4, h5⟩ := hP
  have hlen : i + 1 < chunk.length := by
    by_contra hc
    rw [List.getElem?_eq_none (by omega)] at hlf
    cases hlf
  have hl6 : chunk.length ≥ 6 := by
    have := congrArg List.length hstart
    simp only [List.length_take, PROXY_literal, List.length_cons, List.length_nil] at this
    omega
  have htake : (chunk.take (i + 2)).length = i + 2 := by
    rw [List.length_take]; omega
  have hm := memcpy_nat (skynet_malloc 108 : List Byte) 0 chunk (i + 2)
  rw [if_pos (by rw [skynet_malloc_length]; omega), List.take_zero, List.nil_append,
    Nat.zero_add, skynet_malloc_drop, Nat.cast_zero] at hm
  have hscan : parse_proxy_v1_loop chunk (if chunk.length > 108 then 108 else chunk.length) 0
      { P with proxy := 1, uncomplete := { sz := 0, msg := skynet_malloc 108 } }
      = .ok ({ P with
                proxy := 3,
                uncomplete :=
                  { sz := i + 2,
                    msg := chunk.take (i + 2) ++ List.replicate (108 - (i + 2)) 0 } },
              ((i + 2 : Nat) : Int)) := by
    obtain ⟨n, hn⟩ : ∃ n, (if chunk.length > 108 then 108 else chunk.length) = i + (n + 1) := by
      refine ⟨(if chunk.length > 108 then 108 else chunk.length) - i - 1, ?_⟩
      split_ifs <;> omega
    rw [hn, parse_proxy_v1_loop_skip chunk i (n + 1) 0 _
      (fun j _ hj => hno j (by omega))]
    simp only [parse_proxy_v1_loop, mem_read, Nat.zero_add, hcr, if_true, hlen, hlf, and_self,
      Nat.cast_zero, hm]
    rfl
  refine ⟨{ P with
      proxy := 3,
      uncomplete :=
        { sz := i + 2, msg := chunk.take (i + 2) ++ List.replicate (108 - (i + 2)) 0 },
      response :=
        { cap := 4, sz := 16, head := 0, tail := 1,
          buffer := [{ sz := i + 2,
                       msg := chunk.take (i + 2) ++ List.replicate (108 - (i + 2)) 0 },
                     default, default, default] },
      uncomplete_sz := -1 }, ?_, rfl, h4, rfl, ?_⟩
  · rw [new_message_of_not_preamble _ (chunk.drop (i + 2)) (Or.inl rfl)]
    unfold new_message
    rw [if_pos (by omega), if_neg (by simp [h2]), if_neg (by simp [h3]), if_pos h1,
      if_pos ⟨hl6, hstart⟩]
    unfold parse_proxy_v1
    simp only [if_true]
    rw [hscan]
    have hne : ¬ (((i + 2 : Nat) : Int) = 0) := by omega
    have hpos : ((i + 2 : Nat) : Int) > 0 := by omega
    simp only [hne, if_false, if_true, hpos, not_true_eq_false, h5, queue_init_push,
      Int.toNat_ofNat]
  · refine ⟨_, rfl, rfl, ?_⟩
    simp only [Response.bytes]
    rw [List.take_append_of_le_length (by omega), List.take_of_length_le (by omega)]

/-! ## Round trip -/

theorem new_message_decode_eq (P : Package) (msg : List Byte) :
    new_message_decode P msg =
      match new_message_for P msg with
      | .error e => .error e
      | .ok P1 => .ok { P1 with recv := P.recv + 1 } := by
  unfold new_message_decode
  have h := new_message_for_outer P { P with recv := P.recv + 1 } msg
  have e1 : P.set_outer { P with recv := P.recv + 1 } = { P with recv := P.recv + 1 } := rfl
  rw [e1] at h
  rw [h]
  cases h3 : new_message_for P msg with
  | error e => rfl
  | ok P1 =>
    have ho := new_message_for_outer_eq _ _ _ h3
    simp only [Except.ok.injEq]
    rw [← ho]
    rfl

theorem new_message_for_recv (P : Package) (msg : List Byte) (r : Int) :
    new_message_for { P with recv := r } msg =
      match new_message_for P msg with
      | .error e => .error e
      | .ok P1 => .ok { P1 with recv := r } := by
  have h := new_message_for_outer P { P with recv := r } msg
  have e1 : P.set_outer { P with recv := r } = { P with recv := r } := rfl
  rw [e1] at h
  rw [h]
  cases h3 : new_message_for P msg with
  | error e => rfl
  | ok P1 =>
    have ho := new_message_for_outer_eq _ _ _ h3
    simp only [Except.ok.injEq]
    rw [← ho]
    rfl

/-- Once the preamble phase is over, delivering chunks one after the other is the decoding
loop run once on their concatenation, but for the receive counter, which counts the
chunks. -/
theorem deliver_join :
    ∀ (cs : List (List Byte)) (c : List Byte) (P : Package), P.proxy = 3 ∨ P.proxy = -1 →
      deliver P (c :: cs) =
        match new_message_for P (c ++ cs.flatten) with
        | .error e => .error e
        | .ok P1 => .ok { P1 with recv := P.recv + 1 + cs.length } := by
  intro cs
  induction cs with
  | nil =>
    intro c P h
    simp only [deliver, List.flatten_nil, List.append_nil, List.length_nil, Nat.cast_zero, add_zero]
    rw [new_message_of_not_preamble P c h, new_message_decode_eq]
    cases new_message_for P c <;> rfl
  | cons c' cs ih =>
    intro c P h
    simp only [deliver, List.flatten_cons, List.length_cons]
    rw [new_message_for_append, new_message_of_not_preamble P c h, new_message_decode_eq]
    cases h1 : new_message_for P c with
    | error e => rfl
    | ok P1 =>
      have ho := new_message_for_outer_eq _ _ _ h1
      have hproxy : P1.proxy = P.proxy := by rw [← ho]; rfl
      simp only
      have h2 := ih c' { P1 with recv := P.recv + 1 } (by simpa [hproxy] using h)
      simp only [deliver] at h2
      rw [h2, new_message_for_recv]
      cases new_message_for P1 (c' ++ cs.flatten) with
      | error e => rfl
      | ok P2 =>
        simp only [Except.ok.injEq, Nat.cast_add, Nat.cast_one]
        congr 1
        omega

theorem new_message_first_chunk (P : Package) (hP : P.New) (c : List Byte)
    (hc : ¬ (c.length ≥ 6 ∧ c.take 6 = PROXY_literal)) :
    new_message P c = new_message { P with proxy := -1 } c := by
  obtain ⟨h1, h2, h3, h4, h5⟩ := hP
  rw [new_message_of_not_preamble { P with proxy := -1 } c (Or.inr rfl)]
  unfold new_message
  rw [if_pos (by omega), if_neg (by simp [h2]), if_neg (by simp [h3]), if_pos h1, if_neg hc]
  simp

/-- Decoding the wire form of one frame, in one piece, from a state with no partial frame
and an empty response queue. -/
theorem new_message_for_frame (P : Package) (h4 : P.header_sz = 0) (h3 : P.uncomplete_sz = -1)
    (h5 : P.response = queue_init 16) (b0 b1 : Byte) (payload : List Byte)
    (hlen : b0.val * 256 + b1.val = payload.length) :
    new_message_for P (b0 :: b1 :: payload) =
      .ok { P with
            header := (b0, b1),
            uncomplete := { sz := payload.length, msg := payload },
            uncomplete_sz := -1,
            response :=
              { cap := 4, sz := 16, head := 0, tail := 1,
                buffer := [{ sz := payload.length, msg := payload }, default, default,
                  default] } } := by
  rw [new_message_for_eq, new_message_payload_neg P _ (by omega)]
  simp only [new_message_header, h4, if_true, new_message_alloc, hlen]
  rw [new_message_for_eq]
  have hm := memcpy_nat (skynet_malloc payload.length : List Byte) 0 payload payload.length
  rw [if_pos (by rw [skynet_malloc_length]; omega), List.take_zero, List.nil_append,
    List.take_length, Nat.zero_add, List.drop_eq_nil_of_le (by rw [skynet_malloc_length]),
    List.append_nil, Nat.cast_zero] at hm
  unfold new_message_payload
  simp only [ge_iff_le, Nat.cast_nonneg, if_true, le_refl, sub_self, hm, h5, queue_init_push,
    Int.toNat_ofNat, List.drop_length, new_message_header]

/-- A first chunk that begins with `"PROXY "` and has no carriage return in its first 108
bytes: the connection goes on scanning, nothing is enqueued and nothing is buffered. -/
theorem new_message_scanning (P : Package) (hP : P.New) (chunk : List Byte)
    (hstart : chunk.take 6 = PROXY_literal)
    (hcr : ∀ j, j < 108 → j < chunk.length → ∃ b, chunk[j]? = some b ∧ b ≠ 13) :
    new_message P chunk =
      .ok { P with proxy := 1, uncomplete := { sz := 0, msg := skynet_malloc 108 } } := by
  obtain ⟨h1, h2, h3, h4, h5⟩ := hP
  have hl : chunk.length ≥ 6 := by
    have := congrArg List.length hstart
    simp only [List.length_take, PROXY_literal, List.length_cons, List.length_nil] at this
    omega
  have hscan : ∀ S : Package,
      parse_proxy_v1_loop chunk (if chunk.length > 108 then 108 else chunk.length) 0 S =
        .ok (S, 0) := by
    intro S
    have h := parse_proxy_v1_loop_skip chunk
      (if chunk.length > 108 then 108 else chunk.length) 0 0 S
      (fun j _ hj => hcr j (by split_ifs at hj <;> omega) (by split_ifs at hj <;> omega))
    rw [Nat.add_zero] at h
    rw [h]
    rfl
  unfold new_message
  rw [if_pos (by omega), if_neg (by simp [h2]), if_neg (by simp [h3]), if_pos h1,
    if_pos ⟨hl, hstart⟩]
  unfold parse_proxy_v1
  simp only [if_true]
  rw [hscan]
  simp

theorem payload_20562_length : payload_20562.length = 20562 := by
  unfold payload_20562
  rw [List.length_append, List.length_replicate]
  rfl

theorem wire_20562_eq :
    (80 :: 82 :: payload_20562 : List Byte) = PROXY_literal ++ List.replicate 20558 0 := by
  unfold payload_20562 PROXY_literal
  simp only [List.cons_append, List.nil_append]

theorem wire_20562_scan (j : Nat) (hj : j < 108) :
    ∃ c, (80 :: 82 :: payload_20562)[j]? = some c ∧ c ≠ 13 := by
  rw [wire_20562_eq]
  by_cases h6 : j < 6
  · rw [List.getElem?_append_left (by simpa [PROXY_literal] using h6)]
    interval_cases j <;> exact ⟨_, rfl, by decide⟩
  · rw [List.getElem?_append_right (by simp [PROXY_literal]; omega), List.getElem?_replicate,
      if_pos (by simp [PROXY_literal]; omega)]
    exact ⟨0, rfl, by decide⟩

theorem wire_20562_take : (80 :: 82 :: payload_20562 : List Byte).take 6 = PROXY_literal := by
  rw [wire_20562_eq, List.take_append_of_le_length (by decide)]
  rfl

theorem send_out_20562 :
    send_out package_create payload_20562 =
      .ok (package_create, [.skynet_socket_send 0 (80 :: 82 :: payload_20562) 20564]) := by
  obtain ⟨b0, b1, h0, h1, -, h⟩ :=
    send_out_ok package_create payload_20562 (by rw [payload_20562_length]; decide)
  rw [payload_20562_length] at h0 h1 h
  have e0 : b0 = 80 := Fin.ext h0
  have e1 : b1 = 82 := Fin.ext h1
  rw [h, e0, e1]
  rfl

theorem new_message_20562 :
    new_message package_create (80 :: 82 :: payload_20562) =
      .ok { package_create with
            proxy := 1, uncomplete := { sz := 0, msg := skynet_malloc 108 } } :=
  new_message_scanning package_create package_create_New
    (80 :: 82 :: payload_20562) wire_20562_take (fun j hj _ => wire_20562_scan j hj)

theorem payload_20562_le : payload_20562.length ≤ 65535 := by
  rw [payload_20562_length]
  decide

theorem deliver_single (P P1 : Package) (chunk : List Byte)
    (h : new_message P chunk = .ok P1) : deliver P [chunk] = .ok P1 := by
  simp only [deliver, h]

theorem deliver_20562 :
    deliver package_create [80 :: 82 :: payload_20562] =
      .ok { package_create with
            proxy := 1, uncomplete := { sz := 0, msg := skynet_malloc 108 } } :=
  deliver_single _ _ _ new_message_20562

/-- C1, counterexample.  The payload `payload_20562` has 20562 = 0x5052 bytes and begins
with `"OXY "`, so the bytes `send_out` produces for it begin with `"PROXY "`.  Delivered in
one chunk to a connection fresh from `package_create`, they are taken for a proxy
preamble: `new_message` returns with no frame enqueued, still scanning for a carriage
return (`proxy = 1`). -/
theorem roundtrip_counterexample :
    payload_20562.length ≤ 65535 ∧
    send_out package_create payload_20562 =
      .ok (package_create, [.skynet_socket_send 0 (80 :: 82 :: payload_20562) 20564]) ∧
    ∃ P1, deliver package_create [80 :: 82 :: payload_20562] = .ok P1 ∧
      P1.response.toList = [] ∧ P1.proxy = 1 :=
  ⟨payload_20562_le, send_out_20562, _, deliver_20562, rfl, rfl⟩

/-- C1, amended.  On a new connection, for every payload of at most 65535 bytes and every
cut of the bytes `send_out` produces for it into consecutive chunks `c :: cs` whose first
chunk does not begin with the six bytes `"PROXY "`, delivering the chunks in order to
`new_message` leaves exactly one frame in the response queue, with the payload's length
and bytes, and no partial frame pending (`header_sz = 0`, `uncomplete_sz = -1`). -/
theorem roundtrip_framing (P : Package) (hP : P.New) (payload wire : List Byte)
    (hlen : payload.length ≤ 65535)
    (hw : send_out P payload = .ok (P, [.skynet_socket_send P.fd wire (payload.length + 2)]))
    (c : List Byte) (cs : List (List Byte)) (hcut : c ++ cs.flatten = wire)
    (hc : ¬ (c.length ≥ 6 ∧ c.take 6 = PROXY_literal)) :
    ∃ P', deliver P (c :: cs) = .ok P' ∧
      (∃ r : Response, P'.response.toList = [r] ∧ r.sz = payload.length ∧ r.bytes = payload) ∧
      P'.header_sz = 0 ∧ P'.uncomplete_sz = -1 := by
  obtain ⟨b0, b1, -, -, h01, h⟩ := send_out_ok P payload hlen
  rw [h] at hw
  simp only [Except.ok.injEq, Prod.mk.injEq, List.cons.injEq, Effect.skynet_socket_send.injEq,
    true_and, and_true] at hw
  have hdel : deliver P (c :: cs) = deliver { P with proxy := -1 } (c :: cs) := by
    simp only [deliver]
    rw [new_message_first_chunk P hP c hc]
  obtain ⟨h1, h2, h3, h4, h5⟩ := hP
  rw [hdel, deliver_join cs c _ (Or.inr rfl), hcut, ← hw,
    new_message_for_frame { P with proxy := -1 } h4 h3 h5 b0 b1 payload h01]
  refine ⟨_, rfl, ⟨_, rfl, rfl, ?_⟩, h4, rfl⟩
  simp [Response.bytes]

theorem roundtrip_framing_witness :
    package_create.New ∧ ([104, 105, 33] : List Byte).length ≤ 65535 ∧
    send_out package_create [104, 105, 33] =
      .ok (package_create, [.skynet_socket_send package_create.fd [0, 3, 104, 105, 33]
        (([104, 105, 33] : List Byte).length + 2)]) ∧
    [0] ++ [[3, 104], [], [105, 33]].flatten = ([0, 3, 104, 105, 33] : List Byte) ∧
    ¬ (([0] : List Byte).length ≥ 6 ∧ ([0] : List Byte).take 6 = PROXY_literal) ∧
    ∃ P', deliver package_create ([0] :: [[3, 104], [], [105, 33]]) = .ok P' ∧
      (∃ r : Response, P'.response.toList = [r] ∧ r.sz = ([104, 105, 33] : List Byte).length ∧
        r.bytes = [104, 105, 33]) ∧
      P'.header_sz = 0 ∧ P'.uncomplete_sz = -1 :=
  ⟨package_create_New, by decide, by decide, by decide, by decide,
    roundtrip_framing package_create package_create_New [104, 105, 33] [0, 3, 104, 105, 33]
      (by decide) (by decide) [0] [[3, 104], [], [105, 33]] (by decide) (by decide)⟩

/-! ## The two queues are never both non-empty -/

theorem queue_empty_iff {α : Type} (q : Queue α) (h : q.WF) :
    queue_empty q = true ↔ q.toList = [] := by
  rw [Queue.toList_eq_nil_iff q h]
  simp [queue_empty]

theorem queue_pop_WF {α : Type} (q q1 : Queue α) (r v : α) (c : Int) (h : q.WF)
    (hp : queue_pop q r = .ok (c, q1, v)) :
    q1.WF ∧ (q.toList = [] → q1.toList = []) ∧
      (∀ x l, q.toList = x :: l → q1.toList = l ∧ v = x) := by
  cases hl : q.toList with
  | nil =>
    rw [queue_pop_nil q h hl r] at hp
    simp only [Except.ok.injEq, Prod.mk.injEq] at hp
    obtain ⟨-, hq, -⟩ := hp
    rw [← hq]
    exact ⟨h, fun _ => hl, fun x l hx => by simp at hx⟩
  | cons x l =>
    obtain ⟨q', e, w, l', -⟩ := queue_pop_cons q h x l hl r
    rw [e] at hp
    simp only [Except.ok.injEq, Prod.mk.injEq] at hp
    obtain ⟨-, hq, hv⟩ := hp
    rw [← hq, ← hv]
    refine ⟨w, fun hx => by simp at hx, fun y m hy => ?_⟩
    simp only [List.cons.injEq] at hy
    rw [← hy.1, ← hy.2]
    exact ⟨l', rfl⟩

theorem queue_pop_ok {α : Type} (q : Queue α) (r : α) (h : q.WF) :
    ∃ res, queue_pop q r = .ok res := by
  cases hl : q.toList with
  | nil => exact ⟨_, queue_pop_nil q h hl r⟩
  | cons x l =>
    obtain ⟨q', e, -⟩ := queue_pop_cons q h x l hl r
    exact ⟨_, e⟩

theorem response_Exclusive :
    ∀ (fuel : Nat) (P P1 : Package) (out : List Effect), response fuel P = .ok (P1, out) →
      P.request.WF → P.response.WF → P1.Exclusive := by
  intro fuel
  induction fuel with
  | zero => intro P P1 out h; simp [response] at h
  | succ n ih =>
    intro P P1 out h wa wb
    simp only [response] at h
    by_cases c1 : queue_empty P.request = true
    · rw [if_neg (by simp [c1])] at h
      cases h
      exact ⟨wa, wb, Or.inl ((queue_empty_iff _ wa).1 c1)⟩
    · rw [if_pos c1] at h
      by_cases c2 : queue_empty P.response = true
      · rw [if_pos c2] at h
        cases h
        exact ⟨wa, wb, Or.inr ((queue_empty_iff _ wb).1 c2)⟩
      · rw [if_neg c2] at h
        cases h1 : queue_pop P.request default with
        | error e => rw [h1] at h; cases h
        | ok r1 =>
          obtain ⟨c, qreq, req⟩ := r1
          rw [h1] at h
          simp only at h
          cases h2 : queue_pop P.response default with
          | error e => rw [h2] at h; cases h
          | ok r2 =>
            obtain ⟨c', qresp, resp⟩ := r2
            rw [h2] at h
            simp only at h
            cases h3 : response n { P with request := qreq, response := qresp } with
            | error e => rw [h3] at h; cases h
            | ok r3 =>
              obtain ⟨P3, out3⟩ := r3
              rw [h3] at h
              cases h
              have t := ih _ _ _ h3 (queue_pop_WF _ _ _ _ _ wa h1).1
                (queue_pop_WF _ _ _ _ _ wb h2).1
              exact t

theorem response_queues :
    ∀ (fuel : Nat) (P P1 : Package) (out : List Effect), response fuel P = .ok (P1, out) →
      P1 = { P with request := P1.request, response := P1.response } := by
  intro fuel
  induction fuel with
  | zero => intro P P1 out h; simp [response] at h
  | succ n ih =>
    intro P P1 out h
    simp only [response] at h
    by_cases c1 : queue_empty P.request = true
    · rw [if_neg (by simp [c1])] at h
      cases h; rfl
    · rw [if_pos c1] at h
      by_cases c2 : queue_empty P.response = true
      · rw [if_pos c2] at h
        cases h; rfl
      · rw [if_neg c2] at h
        cases h1 : queue_pop P.request default with
        | error e => rw [h1] at h; cases h
        | ok r1 =>
          obtain ⟨c, qreq, req⟩ := r1
          rw [h1] at h
          simp only at h
          cases h2 : queue_pop P.response default with
          | error e => rw [h2] at h; cases h
          | ok r2 =>
            obtain ⟨c', qresp, resp⟩ := r2
            rw [h2] at h
            simp only at h
            cases h3 : response n { P with request := qreq, response := qresp } with
            | error e => rw [h3] at h; cases h
            | ok r3 =>
              obtain ⟨P3, out3⟩ := r3
              rw [h3] at h
              cases h
              have t := ih _ _ _ h3
              exact t

theorem service_exit_loop_Exclusive :
    ∀ (fuel : Nat) (P P1 : Package) (out : List Effect),
      service_exit_loop fuel P = .ok (P1, out) → P.request.WF →
      P1.request.WF ∧ P1.request.toList = [] ∧ P1.response = P.response := by
  intro fuel
  induction fuel with
  | zero => intro P P1 out h; simp [service_exit_loop] at h
  | succ n ih =>
    intro P P1 out h wa
    simp only [service_exit_loop] at h
    by_cases c1 : queue_empty P.request = true
    · rw [if_neg (by simp [c1])] at h
      cases h
      exact ⟨wa, (queue_empty_iff _ wa).1 c1, rfl⟩
    · rw [if_pos c1] at h
      cases h1 : queue_pop P.request default with
      | error e => rw [h1] at h; cases h
      | ok r1 =>
        obtain ⟨c, qreq, req⟩ := r1
        rw [h1] at h
        simp only at h
        cases h3 : service_exit_loop n { P with request := qreq } with
        | error e => rw [h3] at h; cases h
        | ok r3 =>
          obtain ⟨P3, out3⟩ := r3
          rw [h3] at h
          cases h
          have t := ih _ _ _ h3 (queue_pop_WF _ _ _ _ _ wa h1).1
          exact t

theorem service_exit_Exclusive (fuel : Nat) (P P1 : Package) (out : List Effect)
    (h : service_exit fuel P = .ok (P1, out)) (wa : P.request.WF) (wb : P.response.WF) :
    P1.Exclusive := by
  unfold service_exit at h
  cases h3 : service_exit_loop fuel { P with closed := 1 } with
  | error e => rw [h3] at h; cases h
  | ok r3 =>
    obtain ⟨P3, out3⟩ := r3
    rw [h3] at h
    cases h
    have t := service_exit_loop_Exclusive _ _ _ _ h3 wa
    exact ⟨t.1, by rw [t.2.2]; exact wb, Or.inl t.2.1⟩

theorem command_Exclusive (P P1 : Package) (session : Int) (source : Nat) (msg : List Byte)
    (out : List Effect) (h : command P session source msg = .ok (P1, out))
    (hP : P.Exclusive) : P1.Exclusive := by
  obtain ⟨wa, wb, hone⟩ := hP
  cases msg with
  | nil => cases h
  | cons c rest =>
    simp only [command] at h
    by_cases hR : c = 82
    · rw [if_pos hR] at h
      by_cases hc : P.closed ≠ 0
      · rw [if_pos hc] at h
        cases h; exact ⟨wa, wb, hone⟩
      · rw [if_neg hc] at h
        by_cases he : queue_empty P.response = true
        · rw [if_neg (by simp [he])] at h
          obtain ⟨q', e, w, l, -⟩ :=
            queue_push_spec P.request wa { source := source, session := session }
          rw [e] at h
          cases h
          exact ⟨w, wb, Or.inr ((queue_empty_iff _ wb).1 he)⟩
        · rw [if_pos he] at h
          by_cases he2 : queue_empty P.request = true
          · rw [if_neg (by simp [he2])] at h
            cases h2 : queue_pop P.response default with
            | error e => rw [h2] at h; cases h
            | ok r2 =>
              obtain ⟨c', qresp, resp⟩ := r2
              rw [h2] at h
              cases h
              exact ⟨wa, (queue_pop_WF _ _ _ _ _ wb h2).1, Or.inl ((queue_empty_iff _ wa).1 he2)⟩
          · rw [if_pos he2] at h
            cases h
    · rw [if_neg hR] at h
      split_ifs at h <;> (cases h; exact ⟨wa, wb, hone⟩)

theorem command_assert (P : Package) (hP : P.Exclusive) (session : Int) (source : Nat)
    (msg : List Byte) : command P session source msg ≠ .error (.assertion 159) := by
  obtain ⟨wa, wb, hone⟩ := hP
  cases msg with
  | nil => simp [command]
  | cons c rest =>
    simp only [command]
    by_cases hR : c = 82
    · rw [if_pos hR]
      by_cases hc : P.closed ≠ 0
      · rw [if_pos hc]; simp
      · rw [if_neg hc]
        by_cases he : queue_empty P.response = true
        · rw [if_neg (by simp [he])]
          obtain ⟨q', e, w, l, -⟩ :=
            queue_push_spec P.request wa { source := source, session := session }
          rw [e]; simp
        · rw [if_pos he]
          have hne : P.response.toList ≠ [] := fun h0 => he ((queue_empty_iff _ wb).2 h0)
          have ha : queue_empty P.request = true :=
            (queue_empty_iff _ wa).2 (hone.resolve_right hne)
          rw [if_neg (by simp [ha])]
          obtain ⟨res, h2⟩ := queue_pop_ok P.response default wb
          rw [h2]
          simp
    · rw [if_neg hR]
      split_ifs <;> simp

/-! ## The decoder and the contents of the queues -/

theorem new_message_payload_sim (R R1 : Package) (msg : List Byte) (o : Option (List Byte))
    (h : new_message_payload R msg = .ok (R1, o)) (cl : Int) (qa : Queue Request)
    (qb : Queue Response)
    (wb : qb.WF) (wr : R.response.WF) :
    ∃ qb1 fs, new_message_payload { R with closed := cl, request := qa, response := qb } msg =
        .ok ({ R1 with closed := cl, request := qa, response := qb1 }, o) ∧
      qb1.WF ∧ qb1.toList = qb.toList ++ fs ∧ R1.response.WF ∧
      R1.response.toList = R.response.toList ++ fs ∧ R1.request = R.request := by
  unfold new_message_payload at h ⊢
  simp only at h ⊢
  by_cases c1 : R.uncomplete_sz ≥ 0
  · rw [if_pos c1] at h ⊢
    by_cases c2 : (msg.length : Int) ≥ R.uncomplete_sz
    · rw [if_pos c2] at h ⊢
      cases hm : memcpy R.uncomplete.msg (↑R.uncomplete.sz - R.uncomplete_sz) msg
          R.uncomplete_sz with
      | error e => rw [hm] at h; cases h
      | ok buf =>
        rw [hm] at h
        simp only at h ⊢
        obtain ⟨q1, e1, w1, l1, -⟩ :=
          queue_push_spec R.response wr { sz := R.uncomplete.sz, msg := buf }
        obtain ⟨q2, e2, w2, l2, -⟩ := queue_push_spec qb wb { sz := R.uncomplete.sz, msg := buf }
        rw [e1] at h
        rw [e2]
        cases h
        exact ⟨q2, [{ sz := R.uncomplete.sz, msg := buf }], rfl, w2, l2, w1, l1, rfl⟩
    · rw [if_neg c2] at h ⊢
      cases hm : memcpy R.uncomplete.msg (↑R.uncomplete.sz - R.uncomplete_sz) msg
          ↑msg.length with
      | error e => rw [hm] at h; cases h
      | ok buf =>
        rw [hm] at h
        cases h
        exact ⟨qb, [], rfl, wb, by simp, wr, by simp, rfl⟩
  · rw [if_neg c1] at h ⊢
    cases h
    exact ⟨qb, [], rfl, wb, by simp, wr, by simp, rfl⟩

theorem new_message_header_sim (R R1 : Package) (msg : List Byte) (o : Option (List Byte))
    (h : new_message_header R msg = .ok (R1, o)) (cl : Int) (qa : Queue Request)
    (qb : Queue Response) :
    new_message_header { R with closed := cl, request := qa, response := qb } msg =
        .ok ({ R1 with closed := cl, request := qa, response := qb }, o) ∧
      R1.response = R.response ∧ R1.request = R.request := by
  cases msg with
  | nil =>
    simp only [new_message_header] at h ⊢
    cases h
    exact ⟨rfl, rfl, rfl⟩
  | cons b0 rest =>
    simp only [new_message_header] at h ⊢
    by_cases h0 : R.header_sz = 0
    · rw [if_pos h0] at h ⊢
      cases rest with
      | nil =>
        simp only at h ⊢
        cases h
        exact ⟨rfl, rfl, rfl⟩
      | cons b1 rest =>
        simp only at h ⊢
        cases h
        exact ⟨rfl, rfl, rfl⟩
    · rw [if_neg h0] at h ⊢
      by_cases h1 : R.header_sz ≠ 1
      · rw [if_pos h1] at h
        cases h
      · rw [if_neg h1] at h ⊢
        cases h
        exact ⟨rfl, rfl, rfl⟩

theorem new_message_loop_sim :
    ∀ (n : Nat) (R R1 : Package) (msg : List Byte), new_message_loop n R msg = .ok R1 →
      ∀ (cl : Int) (qa : Queue Request) (qb : Queue Response), qb.WF → R.response.WF →
      ∃ qb1 fs, new_message_loop n { R with closed := cl, request := qa, response := qb } msg =
          .ok { R1 with closed := cl, request := qa, response := qb1 } ∧
        qb1.WF ∧ qb1.toList = qb.toList ++ fs ∧ R1.response.WF ∧
        R1.response.toList = R.response.toList ++ fs ∧ R1.request = R.request := by
  intro n
  induction n with
  | zero => intro R R1 msg h; simp [new_message_loop] at h
  | succ n ih =>
    intro R R1 msg h cl qa qb wb wr
    simp only [new_message_loop] at h ⊢
    cases hp : new_message_payload R msg with
    | error e => rw [hp] at h; cases h
    | ok r =>
      obtain ⟨Ra, o1⟩ := r
      obtain ⟨qb1, fs1, e1, w1, l1, wr1, lr1, rq1⟩ :=
        new_message_payload_sim R Ra msg o1 hp cl qa qb wb wr
      rw [hp] at h
      rw [e1]
      cases o1 with
      | none =>
        simp only at h ⊢
        cases h
        exact ⟨qb1, fs1, rfl, w1, l1, wr1, lr1, rq1⟩
      | some m1 =>
        simp only at h ⊢
        cases hh : new_message_header Ra m1 with
        | error e => rw [hh] at h; cases h
        | ok r2 =>
          obtain ⟨Rb, o2⟩ := r2
          obtain ⟨e2, rs2, rq2⟩ := new_message_header_sim Ra Rb m1 o2 hh cl qa qb1
          rw [hh] at h
          have e2' : new_message_header
              { Ra with closed := cl, request := qa, response := qb1 } m1
              = .ok ({ Rb with closed := cl, request := qa, response := qb1 }, o2) := e2
          simp only at e2'
          rw [e2']
          cases o2 with
          | none =>
            simp only at h ⊢
            cases h
            exact ⟨qb1, fs1, rfl, w1, l1, by rw [rs2]; exact wr1, by rw [rs2]; exact lr1,
              by rw [rq2, rq1]⟩
          | some m2 =>
            simp only at h ⊢
            obtain ⟨qb3, fs3, e3, w3, l3, wr3, lr3, rq3⟩ :=
              ih Rb R1 m2 h cl qa qb1 w1 (by rw [rs2]; exact wr1)
            refine ⟨qb3, fs1 ++ fs3, e3, w3, by rw [l3, l1, List.append_assoc], wr3, ?_, ?_⟩
            · rw [lr3, rs2, lr1, List.append_assoc]
            · rw [rq3, rq2, rq1]

theorem parse_proxy_v1_loop_sim (msg : List Byte) (cl : Int) (qa : Queue Request)
    (qb : Queue Response) :
    ∀ (n i : Nat) (R R1 : Package) (k : Int), parse_proxy_v1_loop msg n i R = .ok (R1, k) →
      parse_proxy_v1_loop msg n i { R with closed := cl, request := qa, response := qb } =
          .ok ({ R1 with closed := cl, request := qa, response := qb }, k) ∧
        R1.response = R.response ∧ R1.request = R.request := by
  intro n
  induction n with
  | zero =>
    intro i R R1 k h
    simp only [parse_proxy_v1_loop] at h ⊢
    cases h
    exact ⟨rfl, rfl, rfl⟩
  | succ n ih =>
    intro i R R1 k h
    simp only [parse_proxy_v1_loop] at h ⊢
    cases hr : mem_read msg i with
    | error e => rw [hr] at h; cases h
    | ok c =>
      rw [hr] at h
      simp only at h ⊢
      by_cases hc : c = 13
      · rw [if_pos hc] at h ⊢
        by_cases hn : i + 1 < msg.length ∧ msg[i + 1]? = some 10
        · rw [if_pos hn] at h ⊢
          cases hm : memcpy R.uncomplete.msg (↑R.uncomplete.sz) msg ↑(i + 2) with
          | error e => rw [hm] at h; cases h
          | ok buf =>
            rw [hm] at h
            cases h
            exact ⟨rfl, rfl, rfl⟩
        · rw [if_neg hn] at h ⊢
          cases hm : memcpy R.uncomplete.msg (↑R.uncomplete.sz) msg ↑(i + 1) with
          | error e => rw [hm] at h; cases h
          | ok buf =>
            rw [hm] at h
            simp only at h ⊢
            have t := ih (i + 1) _ R1 k h
            exact t
      · rw [if_neg hc] at h ⊢
        exact ih (i + 1) R R1 k h

theorem parse_proxy_v1_sim (msg : List Byte) (cl : Int) (qa : Queue Request)
    (qb : Queue Response)
    (R R1 : Package) (k : Int) (h : parse_proxy_v1 R msg = .ok (R1, k)) :
    parse_proxy_v1 { R with closed := cl, request := qa, response := qb } msg =
        .ok ({ R1 with closed := cl, request := qa, response := qb }, k) ∧
      R1.response = R.response ∧ R1.request = R.request := by
  unfold parse_proxy_v1 at h ⊢
  simp only at h ⊢
  by_cases h1 : R.proxy = 1
  · rw [if_pos h1] at h ⊢
    exact parse_proxy_v1_loop_sim msg cl qa qb _ _ R R1 k h
  · rw [if_neg h1] at h ⊢
    by_cases h2 : R.proxy = 2
    · rw [if_pos h2] at h ⊢
      cases msg with
      | nil =>
        simp only at h ⊢
        cases h
        exact ⟨rfl, rfl, rfl⟩
      | cons c rest =>
        simp only at h ⊢
        by_cases hc : c ≠ 10
        · rw [if_pos hc] at h; cases h
        · rw [if_neg hc] at h ⊢
          cases hm : memcpy R.uncomplete.msg (↑R.uncomplete.sz) (c :: rest) 1 with
          | error e => rw [hm] at h; cases h
          | ok buf =>
            rw [hm] at h
            cases h
            exact ⟨rfl, rfl, rfl⟩
    · rw [if_neg h2] at h ⊢
      cases h
      exact ⟨rfl, rfl, rfl⟩

theorem new_message_decode_sim (R R1 : Package) (msg : List Byte)
    (h : new_message_decode R msg = .ok R1) (cl : Int) (qa : Queue Request)
    (qb : Queue Response)
    (wb : qb.WF) (wr : R.response.WF) :
    ∃ qb1 fs, new_message_decode { R with closed := cl, request := qa, response := qb } msg =
        .ok { R1 with closed := cl, request := qa, response := qb1 } ∧
      qb1.WF ∧ qb1.toList = qb.toList ++ fs ∧ R1.response.WF ∧
      R1.response.toList = R.response.toList ++ fs ∧ R1.request = R.request := by
  unfold new_message_decode new_message_for at h ⊢
  exact new_message_loop_sim _ _ R1 msg h cl qa qb wb wr

/-- The decoder and the queues.  If `new_message` returns on a state `R`, it returns on the
state that differs from `R` in its two queues only, provided the response queues are well
formed; the request queue is left as it is and both response queues receive the same
frames `fs`, behind those they hold. -/
theorem new_message_sim (R R1 : Package) (msg : List Byte) (h : new_message R msg = .ok R1)
    (cl : Int) (qa : Queue Request) (qb : Queue Response) (wb : qb.WF) (wr : R.response.WF) :
    ∃ qb1 fs, new_message { R with closed := cl, request := qa, response := qb } msg =
        .ok { R1 with closed := cl, request := qa, response := qb1 } ∧
      qb1.WF ∧ qb1.toList = qb.toList ++ fs ∧ R1.response.WF ∧
      R1.response.toList = R.response.toList ++ fs ∧ R1.request = R.request := by
  unfold new_message at h ⊢
  simp only at h ⊢
  by_cases hp : R.proxy ≥ 0 ∧ R.proxy < 3
  · rw [if_pos hp] at h ⊢
    by_cases hr : R.recv ≠ 0
    · rw [if_pos hr] at h; cases h
    · rw [if_neg hr] at h ⊢
      by_cases hu : R.uncomplete_sz ≠ -1
      · rw [if_pos hu] at h; cases h
      · rw [if_neg hu] at h ⊢
        -- the preamble step on `R` and on the state with the other queues
        have key : ∀ (S1 : Package) (k : Int),
            S1.response = R.response → S1.request = R.request →
            (if k = 0 then .ok S1
              else if S1.proxy = 3 then
                if ¬ k > 0 then .error (.assertion 246) else
                match queue_push S1.response S1.uncomplete with
                | .error e => .error e
                | .ok q =>
                  new_message_decode { S1 with response := q, uncomplete_sz := -1 }
                    (msg.drop k.toNat)
              else new_message_decode S1 msg) = .ok R1 →
            ∃ qb1 fs,
              (if k = 0 then .ok { S1 with closed := cl, request := qa, response := qb }
                else if S1.proxy = 3 then
                  if ¬ k > 0 then .error (.assertion 246) else
                  match queue_push qb S1.uncomplete with
                  | .error e => .error e
                  | .ok q =>
                    new_message_decode
                      { S1 with closed := cl, request := qa, response := q, uncomplete_sz := -1 }
                      (msg.drop k.toNat)
                else
                  new_message_decode { S1 with closed := cl, request := qa, response := qb }
                    msg) =
                .ok { R1 with closed := cl, request := qa, response := qb1 } ∧
              qb1.WF ∧ qb1.toList = qb.toList ++ fs ∧ R1.response.WF ∧
              R1.response.toList = R.response.toList ++ fs ∧ R1.request = R.request := by
          intro S1 k hs1 hs2 hk
          by_cases k0 : k = 0
          · rw [if_pos k0] at hk ⊢
            cases hk
            exact ⟨qb, [], rfl, wb, by simp, by rw [hs1]; exact wr, by rw [hs1]; simp, hs2⟩
          · rw [if_neg k0] at hk ⊢
            by_cases p3 : S1.proxy = 3
            · rw [if_pos p3] at hk ⊢
              by_cases kp : ¬ k > 0
              · rw [if_pos kp] at hk; cases hk
              · rw [if_neg kp] at hk ⊢
                obtain ⟨q1, e1, w1, l1, -⟩ :=
                  queue_push_spec S1.response (by rw [hs1]; exact wr) S1.uncomplete
                obtain ⟨q2, e2, w2, l2, -⟩ := queue_push_spec qb wb S1.uncomplete
                rw [e1] at hk
                rw [e2]
                simp only at hk ⊢
                obtain ⟨qb3, fs3, e3, w3, l3, wr3, lr3, rq3⟩ :=
                  new_message_decode_sim _ R1 _ hk cl qa q2 w2 w1
                refine ⟨qb3, S1.uncomplete :: fs3, e3, w3, ?_, wr3, ?_, ?_⟩
                · rw [l3, l2]; simp
                · rw [lr3]
                  simp only
                  rw [l1, hs1]; simp
                · rw [rq3]; exact hs2
            · rw [if_neg p3] at hk ⊢
              obtain ⟨qb3, fs3, e3, w3, l3, wr3, lr3, rq3⟩ :=
                new_message_decode_sim S1 R1 msg hk cl qa qb wb (by rw [hs1]; exact wr)
              exact ⟨qb3, fs3, e3, w3, l3, wr3, by rw [lr3, hs1], by rw [rq3, hs2]⟩
        by_cases p0 : R.proxy = 0
        · rw [if_pos p0] at h ⊢
          by_cases hpre : msg.length ≥ 6 ∧ msg.take 6 = PROXY_literal
          · rw [if_pos hpre] at h ⊢
            cases hs : parse_proxy_v1
                { R with proxy := 1, uncomplete := { sz := 0, msg := skynet_malloc 108 } } msg with
            | error e => rw [hs] at h; cases h
            | ok r =>
              obtain ⟨S1, k⟩ := r
              rw [hs] at h
              obtain ⟨e1, hs1, hs2⟩ := parse_proxy_v1_sim msg cl qa qb _ S1 k hs
              simp only at e1 h ⊢
              rw [e1]
              exact key S1 k hs1 hs2 h
          · rw [if_neg hpre] at h ⊢
            exact key { R with proxy := -1 } (-1) rfl rfl h
        · rw [if_neg p0] at h ⊢
          by_cases p1 : R.proxy = 1
          · rw [if_pos p1] at h ⊢
            cases hs : parse_proxy_v1 R msg with
            | error e => rw [hs] at h; cases h
            | ok r =>
              obtain ⟨S1, k⟩ := r
              rw [hs] at h
              obtain ⟨e1, hs1, hs2⟩ := parse_proxy_v1_sim msg cl qa qb _ S1 k hs
              simp only at e1 h ⊢
              rw [e1]
              exact key S1 k hs1 hs2 h
          · rw [if_neg p1] at h ⊢
            by_cases p2 : R.proxy = 2
            · rw [if_pos p2] at h ⊢
              cases hs : parse_proxy_v1 R msg with
              | error e => rw [hs] at h; cases h
              | ok r =>
                obtain ⟨S1, k⟩ := r
                rw [hs] at h
                obtain ⟨e1, hs1, hs2⟩ := parse_proxy_v1_sim msg cl qa qb _ S1 k hs
                simp only at e1 h ⊢
                rw [e1]
                exact key S1 k hs1 hs2 h
            · rw [if_neg p2] at h ⊢
              exact key R 0 rfl rfl h
  · rw [if_neg hp] at h ⊢
    exact new_message_decode_sim R R1 msg h cl qa qb wb wr

theorem socket_message_close_Exclusive (fuel : Nat) (P0 P1 : Package) (out0 out : List Effect)
    (wa : P0.request.WF) (wb : P0.response.WF)
    (h : ((match response fuel P0 with
        | .error e => .error e
        | .ok (Pa, out1) =>
          match service_exit fuel Pa with
          | .error e => .error e
          | .ok (Pb, out2) => .ok (Pb, out0 ++ out1 ++ out2)) :
            Except Fault (Package × List Effect))
        = .ok (P1, out)) :
    P1.Exclusive := by
  cases h1 : response fuel P0 with
  | error e => rw [h1] at h; cases h
  | ok r1 =>
    obtain ⟨Pa, out1⟩ := r1
    rw [h1] at h
    simp only at h
    cases h2 : service_exit fuel Pa with
    | error e => rw [h2] at h; cases h
    | ok r2 =>
      obtain ⟨Pb, out2⟩ := r2
      rw [h2] at h
      cases h
      have t1 := response_Exclusive _ _ _ _ h1 wa wb
      exact service_exit_Exclusive _ _ _ _ h2 t1.request_WF t1.response_WF

theorem socket_message_Exclusive (fuel : Nat) (P P1 : Package) (smsg : SocketMessage)
    (out : List Effect) (h : socket_message fuel P smsg = .ok (P1, out)) (hP : P.Exclusive) :
    P1.Exclusive := by
  obtain ⟨wa, wb, hone⟩ := hP
  unfold socket_message at h
  cases ht : smsg.type with
  | DATA =>
    rw [ht] at h
    simp only at h
    cases hn : new_message P smsg.buffer with
    | error e => rw [hn] at h; cases h
    | ok Pa =>
      rw [hn] at h
      simp only at h
      obtain ⟨-, -, -, -, -, wr, -, rq⟩ :=
        new_message_sim P Pa _ hn P.closed P.request P.response wb wb
      exact response_Exclusive _ _ _ _ h (by rw [rq]; exact wa) wr
  | CONNECT =>
    rw [ht] at h
    simp only at h
    split_ifs at h <;> (cases h; exact ⟨wa, wb, hone⟩)
  | CLOSE =>
    rw [ht] at h
    simp only at h
    by_cases hi : P.init = 0 ∧ smsg.id = P.fd
    · simp only [if_pos hi] at h
      rw [if_neg (by simp [hi.2])] at h
      exact socket_message_close_Exclusive fuel { P with init := 1 } P1
        [.skynet_send P.manager .TEXT 0 (.text "FAIL")] out wa wb h
    · simp only [if_neg hi] at h
      by_cases hf : smsg.id ≠ P.fd
      · rw [if_pos hf] at h
        cases h; exact ⟨wa, wb, hone⟩
      · rw [if_neg hf] at h
        exact socket_message_close_Exclusive fuel P P1 [] out wa wb h
  | ERROR =>
    rw [ht] at h
    simp only at h
    by_cases hi : P.init = 0 ∧ smsg.id = P.fd
    · simp only [if_pos hi] at h
      rw [if_neg (by simp [hi.2])] at h
      exact socket_message_close_Exclusive fuel { P with init := 1 } P1
        [.skynet_send P.manager .TEXT 0 (.text "FAIL")] out wa wb h
    · simp only [if_neg hi] at h
      by_cases hf : smsg.id ≠ P.fd
      · rw [if_pos hf] at h
        cases h; exact ⟨wa, wb, hone⟩
      · rw [if_neg hf] at h
        exact socket_message_close_Exclusive fuel P P1 [] out wa wb h
  | WARNING =>
    rw [ht] at h
    cases h; exact ⟨wa, wb, hone⟩
  | OTHER =>
    rw [ht] at h
    cases h; exact ⟨wa, wb, hone⟩

theorem message_handler_Exclusive (fuel : Nat) (P P1 : Package) (session : Int) (source : Nat)
    (m : Message) (out : List Effect)
    (h : message_handler fuel P session source m = .ok (P1, out)) (hP : P.Exclusive) :
    P1.Exclusive := by
  cases m with
  | TEXT msg => exact command_Exclusive _ _ _ _ _ _ h hP
  | CLIENT msg =>
    have := send_out_state _ _ _ _ h
    rw [this]; exact hP
  | RESPONSE =>
    simp only [message_handler, heartbeat] at h
    split_ifs at h <;> (cases h; exact ⟨hP.1, hP.2, hP.3⟩)
  | SOCKET smsg => exact socket_message_Exclusive _ _ _ _ _ h hP
  | ERROR =>
    simp only [message_handler] at h
    cases h; exact hP
  | OTHER =>
    simp only [message_handler] at h
    split_ifs at h <;> (cases h; exact hP)

theorem package_create_Exclusive : package_create.Exclusive :=
  ⟨queue_init_WF 8 (by decide), queue_init_WF 16 (by decide), Or.inl rfl⟩

theorem package_init_Exclusive (P : Package) (n : Int) (manager : Nat) (fd : Int)
    (hP : P.Exclusive) : (package_init P n manager fd).1.Exclusive := by
  unfold package_init heartbeat
  simp only
  split_ifs <;> exact ⟨hP.1, hP.2, hP.3⟩

theorem Reachable_Exclusive (P : Package) (h : Reachable P) : P.Exclusive := by
  induction h with
  | create => exact package_create_Exclusive
  | init P n manager fd _ ih => exact package_init_Exclusive P n manager fd ih
  | step P P1 fuel session source m out _ hstep ih =>
    exact message_handler_Exclusive fuel P P1 session source m out hstep ih

/-- C3. Queue exclusivity.  In every state reached from `package_create` through
`package_init` and handled messages (text commands, outbound sends, timer ticks, socket
messages of every type, and the rest), the request queue and the response queue are not
both non-empty: `queue_empty` holds of one of them.  Consequently the assertion
`assert(queue_empty(&P->request))` of line 159 does not fail in `command` on such a
state, whatever the command. -/
theorem queue_exclusivity (P : Package) (h : Reachable P) :
    (queue_empty P.request = true ∨ queue_empty P.response = true) ∧
      ∀ (session : Int) (source : Nat) (msg : List Byte),
        command P session source msg ≠ .error (.assertion 159) := by
  have hE := Reachable_Exclusive P h
  refine ⟨?_, fun session source msg => command_assert P hE session source msg⟩
  cases hE.one_empty with
  | inl ha => exact Or.inl ((queue_empty_iff _ hE.request_WF).2 ha)
  | inr hb => exact Or.inr ((queue_empty_iff _ hE.response_WF).2 hb)

theorem queue_exclusivity_witness :
    Reachable state_after_frame ∧
    (queue_empty state_after_frame.request = true ∨
      queue_empty state_after_frame.response = true) ∧
    ∀ (session : Int) (source : Nat) (msg : List Byte),
      command state_after_frame session source msg ≠ .error (.assertion 159) :=
  ⟨Reachable.step package_create state_after_frame 4 0 0 (.SOCKET ⟨.DATA, 0, [0, 1, 65, 0]⟩) []
      Reachable.create (by decide),
    queue_exclusivity state_after_frame
      (Reachable.step package_create state_after_frame 4 0 0
        (.SOCKET ⟨.DATA, 0, [0, 1, 65, 0]⟩) [] Reachable.create (by decide))⟩

/-! ## Requests and frames are matched in order -/

theorem response_spec :
    ∀ (fuel : Nat) (P : Package), P.request.WF → P.response.WF →
      P.request.toList.length < fuel →
      ∃ (qa : Queue Request) (qb : Queue Response) (a1 : List Request) (b1 : List Response),
        response fuel P = .ok ({ P with request := qa, response := qb }, List.zipWith reply a1 b1) ∧
        qa.WF ∧ qb.WF ∧ P.request.toList = a1 ++ qa.toList ∧
        P.response.toList = b1 ++ qb.toList ∧ a1.length = b1.length ∧
        (qa.toList = [] ∨ qb.toList = []) := by
  intro fuel
  induction fuel with
  | zero => intro P _ _ h; omega
  | succ n ih =>
    intro P wa wb hlen
    simp only [response]
    cases hA : P.request.toList with
    | nil =>
      rw [if_neg (by simp [(queue_empty_iff _ wa).2 hA])]
      exact ⟨P.request, P.response, [], [], rfl, wa, wb, by simp [hA], by simp, rfl, Or.inl hA⟩
    | cons a A =>
      have ne : ¬ queue_empty P.request = true := by
        rw [queue_empty_iff _ wa, hA]; simp
      rw [if_pos ne]
      cases hB : P.response.toList with
      | nil =>
        rw [if_pos ((queue_empty_iff _ wb).2 hB)]
        exact ⟨P.request, P.response, [], [], rfl, wa, wb, by simp [hA], by simp [hB], rfl,
          Or.inr hB⟩
      | cons b B =>
        have ne2 : ¬ queue_empty P.response = true := by
          rw [queue_empty_iff _ wb, hB]; simp
        rw [if_neg ne2]
        obtain ⟨qa1, ea, wa1, la1, -⟩ := queue_pop_cons P.request wa a A hA default
        obtain ⟨qb1, eb, wb1, lb1, -⟩ := queue_pop_cons P.response wb b B hB default
        rw [ea, eb]
        simp only
        rw [hA] at hlen
        obtain ⟨qa, qb, a1, b1, e, wa2, wb2, la2, lb2, hl, hone⟩ :=
          ih { P with request := qa1, response := qb1 } wa1 wb1
            (by simp only [la1]; simp only [List.length_cons] at hlen; omega)
        rw [e]
        simp only at la2 lb2 ⊢
        refine ⟨qa, qb, a :: a1, b :: b1, rfl, wa2, wb2, ?_, ?_, by simp [hl], hone⟩
        · rw [← la1] ; rw [la2]; simp [la1]
        · rw [← lb1] ; rw [lb2]; simp [lb1]

theorem new_message_closed (R R1 : Package) (msg : List Byte) (h : new_message R msg = .ok R1)
    (wr : R.response.WF) : R1.closed = R.closed := by
  obtain ⟨qb1, fs, e, -⟩ := new_message_sim R R1 msg h R.closed R.request R.response wr wr
  have e0 : ({ R with closed := R.closed, request := R.request, response := R.response } : Package)
      = R := rfl
  rw [e0, h] at e
  simp only [Except.ok.injEq] at e
  have := congrArg Package.closed e
  exact this

theorem command_pull_nil (P : Package) (wa : P.request.WF) (wb : P.response.WF)
    (hc : P.closed = 0) (hB : P.response.toList = []) (session : Int) (source : Nat)
    (rest : List Byte) :
    ∃ qa, command P session source (82 :: rest) = .ok ({ P with request := qa }, []) ∧ qa.WF ∧
      qa.toList = P.request.toList ++ [{ source := source, session := session }] := by
  obtain ⟨qa, e, w, l, -⟩ := queue_push_spec P.request wa { source := source, session := session }
  refine ⟨qa, ?_, w, l⟩
  simp only [command, if_true]
  rw [if_neg (by simp [hc]), if_neg (by simp [(queue_empty_iff _ wb).2 hB]), e]

theorem command_pull_cons (P : Package) (wa : P.request.WF) (wb : P.response.WF)
    (hc : P.closed = 0) (b : Response) (B : List Response) (hB : P.response.toList = b :: B)
    (hA : P.request.toList = []) (session : Int) (source : Nat) (rest : List Byte) :
    ∃ qb, command P session source (82 :: rest) =
        .ok ({ P with response := qb }, [reply { source := source, session := session } b]) ∧
      qb.WF ∧ qb.toList = B := by
  obtain ⟨qb, e, w, l, -⟩ := queue_pop_cons P.response wb b B hB default
  refine ⟨qb, ?_, w, l⟩
  have ne : ¬ queue_empty P.response = true := by
    rw [queue_empty_iff _ wb, hB]; simp
  simp only [command, if_true]
  rw [if_neg (by simp [hc]), if_pos ne, if_neg (by simp [(queue_empty_iff _ wa).2 hA]), e]
  rfl

theorem event_cases (e : Event) (h : e.pull.isSome ∨ e.chunk.isSome) :
    (∃ rest, e.msg = .TEXT (82 :: rest) ∧
      e.pull = some { source := e.source, session := e.session } ∧ e.chunk = none) ∨
    (∃ smsg, e.msg = .SOCKET smsg ∧ smsg.type = .DATA ∧ e.pull = none ∧
      e.chunk = some smsg.buffer) := by
  obtain ⟨session, source, m⟩ := e
  cases m with
  | TEXT msg =>
    cases msg with
    | nil => simp [Event.pull, Event.chunk] at h
    | cons c rest =>
      by_cases hc : c = 82
      · subst hc
        exact Or.inl ⟨rest, rfl, by simp [Event.pull], by simp [Event.chunk]⟩
      · simp [Event.pull, Event.chunk, hc] at h
  | CLIENT msg => simp [Event.pull, Event.chunk] at h
  | RESPONSE => simp [Event.pull, Event.chunk] at h
  | SOCKET smsg =>
    by_cases ht : smsg.type = .DATA
    · exact Or.inr ⟨smsg, rfl, ht, by simp [Event.pull], by simp [Event.chunk, ht]⟩
    · simp [Event.pull, Event.chunk, ht] at h
  | ERROR => simp [Event.pull, Event.chunk] at h
  | OTHER => simp [Event.pull, Event.chunk] at h

theorem run_events_matching (fuel : Nat) :
    ∀ (es : List Event) (P R Rd : Package) (r1 : List Request) (f1 : List Response),
      (∀ e ∈ es, e.pull.isSome ∨ e.chunk.isSome) →
      P = { R with request := P.request, response := P.response } →
      P.request.WF → P.response.WF → R.response.WF → R.closed = 0 →
      R.response.toList = f1 ++ P.response.toList → r1.length = f1.length →
      (P.request.toList = [] ∨ P.response.toList = []) →
      deliver R (es.filterMap Event.chunk) = .ok Rd →
      P.request.toList.length + es.length < fuel →
      ∃ (P' : Package) (out : List Effect) (r1' : List Request) (f1' : List Response),
        run_events fuel P es = .ok (P', out) ∧
        r1 ++ P.request.toList ++ es.filterMap Event.pull = r1' ++ P'.request.toList ∧
        Rd.response.toList = f1' ++ P'.response.toList ∧ r1'.length = f1'.length ∧
        (P'.request.toList = [] ∨ P'.response.toList = []) ∧
        List.zipWith reply r1 f1 ++ out = List.zipWith reply r1' f1' := by
  intro es
  induction es with
  | nil =>
    intro P R Rd r1 f1 _ hsim wa wb wr hc hf hl hone hd _
    simp only [List.filterMap_nil, deliver] at hd
    cases hd
    exact ⟨P, [], r1, f1, rfl, by simp, hf, hl, hone, by simp⟩
  | cons e es ih =>
    intro P R Rd r1 f1 hes hsim wa wb wr hc hf hl hone hd hfuel
    have hes' : ∀ x ∈ es, x.pull.isSome ∨ x.chunk.isSome :=
      fun x hx => hes x (List.mem_cons_of_mem _ hx)
    have hcP : P.closed = R.closed := by rw [hsim]
    simp only [List.length_cons] at hfuel
    rcases event_cases e (hes e (List.mem_cons_self _ _)) with
      ⟨rest, hm, hp, hch⟩ | ⟨smsg, hm, ht, hp, hch⟩
    · -- a pull request
      rw [List.filterMap_cons_none hch] at hd
      rw [List.filterMap_cons_some hp]
      simp only [run_events, hm, message_handler]
      cases hB : P.response.toList with
      | nil =>
        obtain ⟨qa, ec, wqa, lqa⟩ :=
          command_pull_nil P wa wb (by rw [hcP, hc]) hB e.session e.source rest
        rw [ec]
        simp only
        rw [hB] at hf
        obtain ⟨P', out, r1', f1', er, e1, e2, e3, e4, e5⟩ :=
          ih { P with request := qa } R Rd r1 f1 hes'
            (by simp only; rw [hsim]) wqa wb wr hc (by simpa [hB] using hf) hl
            (Or.inr hB) hd (by simp only [lqa, List.length_append, List.length_singleton]; omega)
        rw [er]
        refine ⟨P', out, r1', f1', by simp, ?_, e2, e3, e4, by simpa using e5⟩
        rw [← e1]
        simp [lqa]
      | cons b B =>
        have hA : P.request.toList = [] := hone.resolve_right (by rw [hB]; simp)
        obtain ⟨qb, ec, wqb, lqb⟩ :=
          command_pull_cons P wa wb (by rw [hcP, hc]) b B hB hA e.session e.source rest
        rw [ec]
        simp only
        rw [hB] at hf
        obtain ⟨P', out, r1', f1', er, e1, e2, e3, e4, e5⟩ :=
          ih { P with response := qb } R Rd
            (r1 ++ [{ source := e.source, session := e.session }]) (f1 ++ [b]) hes'
            (by simp only; rw [hsim]) wa wqb wr hc (by simp [hf, lqb])
            (by simp [hl]) (Or.inl hA) hd (by simp only [hA, List.length_nil]; omega)
        rw [er]
        refine ⟨P', reply { source := e.source, session := e.session } b :: out, r1', f1',
          by simp, ?_, e2, e3, e4, ?_⟩
        · rw [← e1]
          simp [hA]
        · rw [← e5, List.zipWith_append _ _ _ _ _ hl]
          simp
    · -- an inbound data delivery
      rw [List.filterMap_cons_some hch] at hd
      rw [List.filterMap_cons_none hp]
      simp only [deliver] at hd
      cases hn : new_message R smsg.buffer with
      | error f => rw [hn] at hd; cases hd
      | ok R1 =>
        rw [hn] at hd
        simp only at hd
        obtain ⟨qb1, fs, en, wqb1, lqb1, wr1, lr1, -⟩ :=
          new_message_sim R R1 _ hn P.closed P.request P.response wb wr
        have eP : ({ R with closed := P.closed, request := P.request, response := P.response }
            : Package) = P := by
          rw [hcP]
          exact hsim.symm
        rw [eP] at en
        have hc1 : R1.closed = 0 := by rw [new_message_closed R R1 _ hn wr, hc]
        obtain ⟨qa, qb, a1, b1, erp, wqa, wqb, la, lb, hab, hone'⟩ :=
          response_spec fuel
            { R1 with closed := P.closed, request := P.request, response := qb1 } wa wqb1
            (by simp only; omega)
        simp only at erp la lb
        simp only [run_events, hm, message_handler, socket_message, ht, en, erp]
        obtain ⟨P', out, r1', f1', er, e1, e2, e3, e4, e5⟩ :=
          ih { R1 with closed := P.closed, request := qa, response := qb } R1 Rd
            (r1 ++ a1) (f1 ++ b1) hes'
            (by simp only; rw [hcP, hc, ← hc1]) wqa wqb wr1 hc1
            (by simp only; rw [lr1, hf, List.append_assoc, ← lqb1, lb, List.append_assoc])
            (by simp [hl, hab]) hone' hd
            (by
              simp only
              have := congrArg List.length la
              simp only [List.length_append] at this
              omega)
        simp only at er e1 e2 e4
        rw [er]
        refine ⟨P', List.zipWith reply a1 b1 ++ out, r1', f1', rfl, ?_, e2, e3, e4, ?_⟩
        · rw [← e1, la]
          simp
        · rw [← e5, List.zipWith_append _ _ _ _ _ hl]
          simp

/-- C2. Order preservation.  Take a new, not closed connection and any sequence of events
made of pull requests (text command `R`, with a source and a session) and inbound data
deliveries, such that the decoder completes the deliveries (`deliver` returns) with the
frames `Rd.response.toList`, in order of completion.  With more fuel than events, handling
the events returns, and the calls into the runtime are exactly the replies pairing the k-th
pull request with the k-th frame, for k up to min(N, M), each sent to that request's
source with its session and carrying that frame; the request queue is left with the
N - min(N, M) last requests and the response queue with the M - min(N, M) last frames, in
order of arrival. -/
theorem order_preservation (fuel : Nat) (P0 Rd : Package) (es : List Event) (hnew : P0.New)
    (hreq : P0.request = queue_init 8) (hclosed : P0.closed = 0)
    (hes : ∀ e ∈ es, e.pull.isSome ∨ e.chunk.isSome)
    (hd : deliver P0 (es.filterMap Event.chunk) = .ok Rd) (hfuel : es.length < fuel) :
    ∃ (P : Package) (out : List Effect),
      run_events fuel P0 es = .ok (P, out) ∧
      out = List.zipWith reply (es.filterMap Event.pull) Rd.response.toList ∧
      P.request.toList = (es.filterMap Event.pull).drop
        (min (es.filterMap Event.pull).length Rd.response.toList.length) ∧
      P.response.toList = Rd.response.toList.drop
        (min (es.filterMap Event.pull).length Rd.response.toList.length) := by
  have wa : P0.request.WF := by rw [hreq]; exact queue_init_WF 8 (by decide)
  have wb : P0.response.WF := by rw [hnew.response_eq]; exact queue_init_WF 16 (by decide)
  have hA : P0.request.toList = [] := by rw [hreq]; rfl
  have hB : P0.response.toList = [] := by rw [hnew.response_eq]; rfl
  obtain ⟨P, out, r1, f1, er, e1, e2, e3, e4, e5⟩ :=
    run_events_matching fuel es P0 P0 Rd [] [] hes rfl wa wb wb hclosed (by simp) rfl
      (Or.inl hA) hd (by rw [hA]; simpa using hfuel)
  simp only [hA, List.nil_append, List.zipWith_nil_left] at e1 e5
  refine ⟨P, out, er, ?_, ?_, ?_⟩
  · rw [e1, e2, List.zipWith_append _ _ _ _ _ e3, e5]
    cases e4 with
    | inl h => rw [h]; simp
    | inr h => rw [h]; simp
  · rw [e1, e2]
    have hm : min (r1 ++ P.request.toList).length (f1 ++ P.response.toList).length
        = r1.length := by
      simp only [List.length_append]
      cases e4 with
      | inl h => rw [h]; simp; omega
      | inr h => rw [h]; simp; omega
    rw [hm, List.drop_left]
  · rw [e1, e2]
    have hm : min (r1 ++ P.request.toList).length (f1 ++ P.response.toList).length
        = f1.length := by
      simp only [List.length_append]
      cases e4 with
      | inl h => rw [h]; simp; omega
      | inr h => rw [h]; simp; omega
    rw [hm, List.drop_left]

theorem order_preservation_witness :
    package_create.New ∧ package_create.request = queue_init 8 ∧ package_create.closed = 0 ∧
    (∀ e ∈ events_example, e.pull.isSome ∨ e.chunk.isSome) ∧
    deliver package_create (events_example.filterMap Event.chunk) = .ok state_two_frames ∧
    events_example.length < 5 ∧
    ∃ (P : Package) (out : List Effect),
      run_events 5 package_create events_example = .ok (P, out) ∧
      out = List.zipWith reply (events_example.filterMap Event.pull)
        state_two_frames.response.toList ∧
      P.request.toList = (events_example.filterMap Event.pull).drop
        (min (events_example.filterMap Event.pull).length
          state_two_frames.response.toList.length) ∧
      P.response.toList = state_two_frames.response.toList.drop
        (min (events_example.filterMap Event.pull).length
          state_two_frames.response.toList.length) :=
  ⟨package_create_New, rfl, rfl, by decide, by decide, by decide,
    order_preservation 5 package_create state_two_frames events_example package_create_New rfl
      rfl (by decide) (by decide) (by decide)⟩

/-! ## What `new_message` leaves alone -/

theorem parse_proxy_v1_loop_frame (msg : List Byte) :
    ∀ (n i : Nat) (S S1 : Package) (k : Int), parse_proxy_v1_loop msg n i S = .ok (S1, k) →
      S1 = { S with proxy := S1.proxy, uncomplete := S1.uncomplete } ∧
        ((k = 0 ∧ (S1.proxy = S.proxy ∨ S1.proxy = 2)) ∨ (0 < k ∧ S1.proxy = 3)) := by
  intro n
  induction n with
  | zero =>
    intro i S S1 k h
    simp only [parse_proxy_v1_loop] at h
    cases h
    exact ⟨rfl, Or.inl ⟨rfl, Or.inl rfl⟩⟩
  | succ n ih =>
    intro i S S1 k h
    simp only [parse_proxy_v1_loop] at h
    cases hr : mem_read msg i with
    | error e => rw [hr] at h; cases h
    | ok b =>
      rw [hr] at h
      simp only at h
      by_cases hc : b = 13
      · rw [if_pos hc] at h
        by_cases hn : i + 1 < msg.length ∧ msg[i + 1]? = some 10
        · rw [if_pos hn] at h
          cases hm : memcpy S.uncomplete.msg (↑S.uncomplete.sz) msg ↑(i + 2) with
          | error e => rw [hm] at h; cases h
          | ok buf =>
            rw [hm] at h
            cases h
            exact ⟨rfl, Or.inr ⟨by omega, rfl⟩⟩
        · rw [if_neg hn] at h
          cases hm : memcpy S.uncomplete.msg (↑S.uncomplete.sz) msg ↑(i + 1) with
          | error e => rw [hm] at h; cases h
          | ok buf =>
            rw [hm] at h
            simp only at h
            have t := ih (i + 1) _ S1 k h
            obtain ⟨t1, t2⟩ := t
            refine ⟨?_, ?_⟩
            · rw [t1]
            · rcases t2 with ⟨k0, hp⟩ | hk
              · refine Or.inl ⟨k0, Or.inr ?_⟩
                rcases hp with hp | hp
                · rw [hp]
                · exact hp
              · exact Or.inr hk
      · rw [if_neg hc] at h
        exact ih (i + 1) S S1 k h

theorem parse_proxy_v1_frame (R R1 : Package) (msg : List Byte) (k : Int)
    (h : parse_proxy_v1 R msg = .ok (R1, k)) :
    R1 = { R with proxy := R1.proxy, uncomplete := R1.uncomplete } ∧
      ((k = 0 ∧ (R1.proxy = R.proxy ∨ R1.proxy = 2)) ∨ (0 < k ∧ R1.proxy = 3)) := by
  unfold parse_proxy_v1 at h
  simp only at h
  by_cases h1 : R.proxy = 1
  · rw [if_pos h1] at h
    exact parse_proxy_v1_loop_frame msg _ _ R R1 k h
  · rw [if_neg h1] at h
    by_cases h2 : R.proxy = 2
    · rw [if_pos h2] at h
      cases msg with
      | nil =>
        simp only at h
        cases h
        exact ⟨rfl, Or.inl ⟨rfl, Or.inl rfl⟩⟩
      | cons b rest =>
        simp only at h
        by_cases hc : b ≠ 10
        · rw [if_pos hc] at h; cases h
        · rw [if_neg hc] at h
          cases hm : memcpy R.uncomplete.msg (↑R.uncomplete.sz) (b :: rest) 1 with
          | error e => rw [hm] at h; cases h
          | ok buf =>
            rw [hm] at h
            cases h
            exact ⟨rfl, Or.inr ⟨by decide, rfl⟩⟩
    · rw [if_neg h2] at h
      cases h
      exact ⟨rfl, Or.inl ⟨rfl, Or.inl rfl⟩⟩

theorem new_message_decode_frame (P P1 : Package) (msg : List Byte)
    (h : new_message_decode P msg = .ok P1) :
    P1.manager = P.manager ∧ P1.fd = P.fd ∧ P1.heartbeat = P.heartbeat ∧ P1.init = P.init ∧
      P1.closed = P.closed ∧ P1.request = P.request ∧ P1.proxy = P.proxy ∧
      P1.recv = P.recv + 1 := by
  unfold new_message_decode at h
  have ho := new_message_for_outer_eq _ _ _ h
  rw [← ho]
  exact ⟨rfl, rfl, rfl, rfl, rfl, rfl, rfl, rfl⟩

/-- The fields `new_message` leaves as they are, and what it does to the receive counter:
a call that returns with the preamble still incomplete (`proxy` is 0, 1 or 2 after it)
does not count, any other call counts once. -/
theorem new_message_frame (P P1 : Package) (msg : List Byte) (h : new_message P msg = .ok P1) :
    P1.manager = P.manager ∧ P1.fd = P.fd ∧ P1.heartbeat = P.heartbeat ∧ P1.init = P.init ∧
      P1.closed = P.closed ∧ P1.request = P.request ∧
      P1.recv = P.recv + (if 0 ≤ P1.proxy ∧ P1.proxy < 3 then 0 else 1) ∧
      (¬ (0 ≤ P.proxy ∧ P.proxy < 3) → P1.proxy = P.proxy) := by
  unfold new_message at h
  by_cases hp : P.proxy ≥ 0 ∧ P.proxy < 3
  · rw [if_pos hp] at h
    by_cases hr : P.recv ≠ 0
    · rw [if_pos hr] at h; cases h
    · rw [if_neg hr] at h
      by_cases hu : P.uncomplete_sz ≠ -1
      · rw [if_pos hu] at h; cases h
      · rw [if_neg hu] at h
        have key : ∀ (S1 : Package) (k : Int),
            S1 = { P with proxy := S1.proxy, uncomplete := S1.uncomplete } →
            ((k = 0 ∧ (0 ≤ S1.proxy ∧ S1.proxy < 3)) ∨ (k ≠ 0 ∧ ¬ (0 ≤ S1.proxy ∧ S1.proxy < 3))) →
            (if k = 0 then .ok S1
              else if S1.proxy = 3 then
                if ¬ k > 0 then .error (.assertion 246) else
                match queue_push S1.response S1.uncomplete with
                | .error e => .error e
                | .ok q =>
                  new_message_decode { S1 with response := q, uncomplete_sz := -1 }
                    (msg.drop k.toNat)
              else new_message_decode S1 msg) = .ok P1 →
            P1.manager = P.manager ∧ P1.fd = P.fd ∧ P1.heartbeat = P.heartbeat ∧
              P1.init = P.init ∧ P1.closed = P.closed ∧ P1.request = P.request ∧
              P1.recv = P.recv + (if 0 ≤ P1.proxy ∧ P1.proxy < 3 then 0 else 1) ∧
              (¬ (0 ≤ P.proxy ∧ P.proxy < 3) → P1.proxy = P.proxy) := by
          intro S1 k hS hk hres
          have hfields : S1.manager = P.manager ∧ S1.fd = P.fd ∧ S1.heartbeat = P.heartbeat ∧
              S1.init = P.init ∧ S1.closed = P.closed ∧ S1.request = P.request ∧
              S1.recv = P.recv := by
            rw [hS]; exact ⟨rfl, rfl, rfl, rfl, rfl, rfl, rfl⟩
          obtain ⟨f1, f2, f3, f4, f5, f6, f7⟩ := hfields
          rcases hk with ⟨k0, hin⟩ | ⟨k0, hout⟩
          · rw [if_pos k0] at hres
            cases hres
            refine ⟨f1, f2, f3, f4, f5, f6, ?_, fun hn => absurd hp hn⟩
            rw [if_pos hin, f7]; simp
          · rw [if_neg k0] at hres
            by_cases p3 : S1.proxy = 3
            · rw [if_pos p3] at hres
              by_cases kp : ¬ k > 0
              · rw [if_pos kp] at hres; cases hres
              · rw [if_neg kp] at hres
                cases hq : queue_push S1.response S1.uncomplete with
                | error e => rw [hq] at hres; cases hres
                | ok q =>
                  rw [hq] at hres
                  simp only at hres
                  obtain ⟨g1, g2, g3, g4, g5, g6, g7, g8⟩ := new_message_decode_frame _ _ _ hres
                  simp only at g1 g2 g3 g4 g5 g6 g7 g8
                  refine ⟨by rw [g1, f1], by rw [g2, f2], by rw [g3, f3], by rw [g4, f4],
                    by rw [g5, f5], by rw [g6, f6], ?_, fun hn => absurd hp hn⟩
                  rw [g7, if_neg hout, g8, f7]
            · rw [if_neg p3] at hres
              obtain ⟨g1, g2, g3, g4, g5, g6, g7, g8⟩ := new_message_decode_frame _ _ _ hres
              refine ⟨by rw [g1, f1], by rw [g2, f2], by rw [g3, f3], by rw [g4, f4],
                by rw [g5, f5], by rw [g6, f6], ?_, fun hn => absurd hp hn⟩
              rw [g7, if_neg hout, g8, f7]
        have hparse : ∀ (S S1 : Package) (k : Int),
            S = { P with proxy := S.proxy, uncomplete := S.uncomplete } →
            (S.proxy = 1 ∨ S.proxy = 2) →
            parse_proxy_v1 S msg = .ok (S1, k) →
            S1 = { P with proxy := S1.proxy, uncomplete := S1.uncomplete } ∧
              ((k = 0 ∧ (0 ≤ S1.proxy ∧ S1.proxy < 3)) ∨
                (k ≠ 0 ∧ ¬ (0 ≤ S1.proxy ∧ S1.proxy < 3))) := by
          intro S S1 k hS hSp hpar
          obtain ⟨t1, t2⟩ := parse_proxy_v1_frame S S1 msg k hpar
          refine ⟨?_, ?_⟩
          · rw [t1, hS]
          · rcases t2 with ⟨k0, hq⟩ | ⟨kp, hq⟩
            · refine Or.inl ⟨k0, ?_⟩
              rcases hq with hq | hq <;> rcases hSp with hSp | hSp <;> omega
            · exact Or.inr ⟨by omega, by omega⟩
        by_cases p0 : P.proxy = 0
        · rw [if_pos p0] at h
          by_cases hpre : msg.length ≥ 6 ∧ msg.take 6 = PROXY_literal
          · rw [if_pos hpre] at h
            cases hs : parse_proxy_v1
                { P with proxy := 1, uncomplete := { sz := 0, msg := skynet_malloc 108 } } msg with
            | error e => rw [hs] at h; cases h
            | ok r =>
              obtain ⟨S1, k⟩ := r
              rw [hs] at h
              obtain ⟨a1, a2⟩ := hparse _ S1 k rfl (Or.inl rfl) hs
              exact key S1 k a1 a2 h
          · rw [if_neg hpre] at h
            exact key { P with proxy := -1 } (-1) rfl (Or.inr ⟨by decide, by simp⟩) h
        · rw [if_neg p0] at h
          by_cases p1 : P.proxy = 1
          · rw [if_pos p1] at h
            cases hs : parse_proxy_v1 P msg with
            | error e => rw [hs] at h; cases h
            | ok r =>
              obtain ⟨S1, k⟩ := r
              rw [hs] at h
              obtain ⟨a1, a2⟩ := hparse P S1 k rfl (Or.inl p1) hs
              exact key S1 k a1 a2 h
          · rw [if_neg p1] at h
            have p2 : P.proxy = 2 := by omega
            rw [if_pos p2] at h
            cases hs : parse_proxy_v1 P msg with
            | error e => rw [hs] at h; cases h
            | ok r =>
              obtain ⟨S1, k⟩ := r
              rw [hs] at h
              obtain ⟨a1, a2⟩ := hparse P S1 k rfl (Or.inr p2) hs
              exact key S1 k a1 a2 h
  · rw [if_neg hp] at h
    obtain ⟨g1, g2, g3, g4, g5, g6, g7, g8⟩ := new_message_decode_frame _ _ _ h
    refine ⟨g1, g2, g3, g4, g5, g6, ?_, fun _ => g7⟩
    rw [g7, if_neg hp, g8]

/-! ## Requests after the close -/

theorem socket_message_close_closed (fuel : Nat) (P0 P1 : Package) (out0 out : List Effect)
    (h : ((match response fuel P0 with
        | .error e => .error e
        | .ok (Pa, out1) =>
          match service_exit fuel Pa with
          | .error e => .error e
          | .ok (Pb, out2) => .ok (Pb, out0 ++ out1 ++ out2)) :
            Except Fault (Package × List Effect))
        = .ok (P1, out)) :
    P1.closed = 1 := by
  cases h1 : response fuel P0 with
  | error e => rw [h1] at h; cases h
  | ok r1 =>
    obtain ⟨Pa, out1⟩ := r1
    rw [h1] at h
    simp only at h
    cases h2 : service_exit fuel Pa with
    | error e => rw [h2] at h; cases h
    | ok r2 =>
      obtain ⟨Pb, out2⟩ := r2
      rw [h2] at h
      cases h
      exact (service_exit_timer _ _ _ _ h2).2.2.2

theorem socket_message_closed (fuel : Nat) (P P1 : Package) (smsg : SocketMessage)
    (out : List Effect) (h : socket_message fuel P smsg = .ok (P1, out)) :
    P1.closed = P.closed ∨ P1.closed = 1 := by
  unfold socket_message at h
  cases ht : smsg.type with
  | DATA =>
    rw [ht] at h
    simp only at h
    cases hn : new_message P smsg.buffer with
    | error e => rw [hn] at h; cases h
    | ok Pa =>
      rw [hn] at h
      simp only at h
      have t1 := new_message_frame P Pa _ hn
      have t2 := response_timer _ _ _ _ h
      exact Or.inl (by rw [t2.2.2.2, t1.2.2.2.2.1])
  | CONNECT =>
    rw [ht] at h
    simp only at h
    split_ifs at h <;> (cases h; exact Or.inl rfl)
  | CLOSE =>
    rw [ht] at h
    simp only at h
    by_cases hi : P.init = 0 ∧ smsg.id = P.fd
    · simp only [if_pos hi] at h
      rw [if_neg (by simp [hi.2])] at h
      exact Or.inr (socket_message_close_closed fuel { P with init := 1 } P1
        [.skynet_send P.manager .TEXT 0 (.text "FAIL")] out h)
    · simp only [if_neg hi] at h
      by_cases hf : smsg.id ≠ P.fd
      · rw [if_pos hf] at h
        cases h; exact Or.inl rfl
      · rw [if_neg hf] at h
        exact Or.inr (socket_message_close_closed fuel P P1 [] out h)
  | ERROR =>
    rw [ht] at h
    simp only at h
    by_cases hi : P.init = 0 ∧ smsg.id = P.fd
    · simp only [if_pos hi] at h
      rw [if_neg (by simp [hi.2])] at h
      exact Or.inr (socket_message_close_closed fuel { P with init := 1 } P1
        [.skynet_send P.manager .TEXT 0 (.text "FAIL")] out h)
    · simp only [if_neg hi] at h
      by_cases hf : smsg.id ≠ P.fd
      · rw [if_pos hf] at h
        cases h; exact Or.inl rfl
      · rw [if_neg hf] at h
        exact Or.inr (socket_message_close_closed fuel P P1 [] out h)
  | WARNING =>
    rw [ht] at h
    cases h; exact Or.inl rfl
  | OTHER =>
    rw [ht] at h
    cases h; exact Or.inl rfl

theorem message_handler_closed (fuel : Nat) (P P1 : Package) (session : Int) (source : Nat)
    (m : Message) (out : List Effect)
    (h : message_handler fuel P session source m = .ok (P1, out)) :
    P1.closed = P.closed ∨ P1.closed = 1 := by
  cases m with
  | TEXT msg => exact Or.inl (command_timer _ _ _ _ _ _ h).2.2.2
  | CLIENT msg =>
    have := send_out_state _ _ _ _ h
    rw [this]; exact Or.inl rfl
  | RESPONSE =>
    simp only [message_handler, heartbeat] at h
    split_ifs at h <;> (cases h; exact Or.inl rfl)
  | SOCKET smsg => exact socket_message_closed _ _ _ _ _ h
  | ERROR =>
    simp only [message_handler] at h
    cases h; exact Or.inl rfl
  | OTHER =>
    simp only [message_handler] at h
    split_ifs at h <;> (cases h; exact Or.inl rfl)

theorem run_events_closed (fuel : Nat) :
    ∀ (es : List Event) (P P1 : Package) (out : List Effect),
      run_events fuel P es = .ok (P1, out) → P.closed ≠ 0 → P1.closed ≠ 0 := by
  intro es
  induction es with
  | nil =>
    intro P P1 out h hc
    simp only [run_events] at h
    cases h; exact hc
  | cons e es ih =>
    intro P P1 out h hc
    simp only [run_events] at h
    cases h1 : message_handler fuel P e.session e.source e.msg with
    | error f => rw [h1] at h; cases h
    | ok r1 =>
      obtain ⟨Pa, outa⟩ := r1
      rw [h1] at h
      simp only at h
      cases h2 : run_events fuel Pa es with
      | error f => rw [h2] at h; cases h
      | ok r2 =>
        obtain ⟨Pb, outb⟩ := r2
        rw [h2] at h
        cases h
        have t1 := message_handler_closed _ _ _ _ _ _ _ h1
        refine ih Pa P1 outb h2 ?_
        rcases t1 with t1 | t1
        · rw [t1]; exact hc
        · rw [t1]; decide

theorem command_closed (P : Package) (hc : P.closed ≠ 0) (session : Int) (source : Nat)
    (rest : List Byte) :
    command P session source (82 :: rest) =
      .ok (P, [.skynet_send source .ERROR session .null]) := by
  simp only [command, if_true]
  rw [if_pos hc]

/-- C12. Requests after close are rejected.  `service_exit`, when it returns, leaves
`closed = 1`.  From a state in which `closed` is set, whatever messages are handled
afterwards, `closed` is still set, and a pull request (command `R`) then makes exactly one
call, the `PTYPE_ERROR` reply to the requester with the requester's session, and returns
the state as it was: nothing is added to the request queue and nothing is taken from the
response queue. -/
theorem closed_rejects_requests (fuel : Nat) (P0 P P2 : Package) (out0 out : List Effect)
    (es : List Event) (hexit : service_exit fuel P0 = .ok (P, out0))
    (hrun : run_events fuel P es = .ok (P2, out)) :
    P.closed = 1 ∧ P2.closed ≠ 0 ∧
      ∀ (session : Int) (source : Nat) (rest : List Byte),
        command P2 session source (82 :: rest) =
          .ok (P2, [.skynet_send source .ERROR session .null]) := by
  have hc : P.closed = 1 := (service_exit_timer _ _ _ _ hexit).2.2.2
  have hc2 : P2.closed ≠ 0 := run_events_closed fuel es P P2 out hrun (by rw [hc]; decide)
  exact ⟨hc, hc2, fun session source rest => command_closed P2 hc2 session source rest⟩

theorem closed_rejects_requests_witness :
    service_exit 1 package_create =
      .ok ({ package_create with closed := 1 },
        [.skynet_send 0 .TEXT 0 (.text "CLOSED"), .skynet_command "EXIT" none]) ∧
    run_events 1 { package_create with closed := 1 }
        [⟨1, 7, .TEXT [82]⟩, ⟨0, 0, .CLIENT [1]⟩] =
      .ok ({ package_create with closed := 1 },
        [.skynet_send 7 .ERROR 1 .null, .skynet_socket_send 0 [0, 1, 1] 3]) ∧
    ({ package_create with closed := 1 } : Package).closed = 1 ∧
    ({ package_create with closed := 1 } : Package).closed ≠ 0 ∧
      ∀ (session : Int) (source : Nat) (rest : List Byte),
        command { package_create with closed := 1 } session source (82 :: rest) =
          .ok ({ package_create with closed := 1 },
            [.skynet_send source .ERROR session .null]) :=
  ⟨by decide, by decide,
    closed_rejects_requests 1 package_create { package_create with closed := 1 }
      { package_create with closed := 1 }
      [.skynet_send 0 .TEXT 0 (.text "CLOSED"), .skynet_command "EXIT" none]
      [.skynet_send 7 .ERROR 1 .null, .skynet_socket_send 0 [0, 1, 1] 3]
      [⟨1, 7, .TEXT [82]⟩, ⟨0, 0, .CLIENT [1]⟩] (by decide) (by decide)⟩

/-! ## What the messages other than data leave alone -/

theorem service_exit_loop_queues :
    ∀ (fuel : Nat) (P P1 : Package) (out : List Effect),
      service_exit_loop fuel P = .ok (P1, out) → P1 = { P with request := P1.request } := by
  intro fuel
  induction fuel with
  | zero => intro P P1 out h; simp [service_exit_loop] at h
  | succ n ih =>
    intro P P1 out h
    simp only [service_exit_loop] at h
    by_cases c1 : queue_empty P.request = true
    · rw [if_neg (by simp [c1])] at h
      cases h; rfl
    · rw [if_pos c1] at h
      cases h1 : queue_pop P.request default with
      | error e => rw [h1] at h; cases h
      | ok r1 =>
        obtain ⟨c, qreq, req⟩ := r1
        rw [h1] at h
        simp only at h
        cases h3 : service_exit_loop n { P with request := qreq } with
        | error e => rw [h3] at h; cases h
        | ok r3 =>
          obtain ⟨P3, out3⟩ := r3
          rw [h3] at h
          cases h
          have t := ih _ _ _ h3
          exact t

theorem service_exit_queues (fuel : Nat) (P P1 : Package) (out : List Effect)
    (h : service_exit fuel P = .ok (P1, out)) :
    P1 = { P with closed := 1, request := P1.request } := by
  unfold service_exit at h
  cases h3 : service_exit_loop fuel { P with closed := 1 } with
  | error e => rw [h3] at h; cases h
  | ok r3 =>
    obtain ⟨P3, out3⟩ := r3
    rw [h3] at h
    cases h
    have t := service_exit_loop_queues _ _ _ _ h3
    exact t

theorem command_queues (P P1 : Package) (session : Int) (source : Nat) (msg : List Byte)
    (out : List Effect) (h : command P session source msg = .ok (P1, out)) :
    P1 = { P with request := P1.request, response := P1.response } := by
  cases msg with
  | nil => cases h
  | cons c rest =>
    simp only [command] at h
    by_cases hR : c = 82
    · rw [if_pos hR] at h
      by_cases hc : P.closed ≠ 0
      · rw [if_pos hc] at h
        cases h; rfl
      · rw [if_neg hc] at h
        by_cases he : queue_empty P.response = true
        · rw [if_neg (by simp [he])] at h
          cases h2 : queue_push P.request { source := source, session := session } with
          | error e => rw [h2] at h; cases h
          | ok q =>
            rw [h2] at h
            cases h; rfl
        · rw [if_pos he] at h
          by_cases he2 : queue_empty P.request = true
          · rw [if_neg (by simp [he2])] at h
            cases h2 : queue_pop P.response default with
            | error e => rw [h2] at h; cases h
            | ok r2 =>
              obtain ⟨c', qresp, resp⟩ := r2
              rw [h2] at h
              cases h; rfl
          · rw [if_pos he2] at h
            cases h
    · rw [if_neg hR] at h
      split_ifs at h <;> (cases h; rfl)

theorem socket_message_close_decoder (fuel : Nat) (P0 P1 : Package) (out0 out : List Effect)
    (h : ((match response fuel P0 with
        | .error e => .error e
        | .ok (Pa, out1) =>
          match service_exit fuel Pa with
          | .error e => .error e
          | .ok (Pb, out2) => .ok (Pb, out0 ++ out1 ++ out2)) :
            Except Fault (Package × List Effect))
        = .ok (P1, out)) :
    P1.proxy = P0.proxy ∧ P1.header_sz = P0.header_sz ∧ P1.header = P0.header ∧
      P1.uncomplete_sz = P0.uncomplete_sz ∧ P1.uncomplete = P0.uncomplete ∧
      P1.recv = P0.recv ∧ P1.heartbeat = P0.heartbeat := by
  cases h1 : response fuel P0 with
  | error e => rw [h1] at h; cases h
  | ok r1 =>
    obtain ⟨Pa, out1⟩ := r1
    rw [h1] at h
    simp only at h
    cases h2 : service_exit fuel Pa with
    | error e => rw [h2] at h; cases h
    | ok r2 =>
      obtain ⟨Pb, out2⟩ := r2
      rw [h2] at h
      cases h
      have t1 := response_queues _ _ _ _ h1
      have t2 := service_exit_queues _ _ _ _ h2
      rw [t2, t1]
      exact ⟨rfl, rfl, rfl, rfl, rfl, rfl, rfl⟩

/-- A message that is neither inbound data nor a timer tick changes nothing of the decoder
state, nor the two counters of the heartbeat. -/
theorem message_handler_decoder (fuel : Nat) (P P1 : Package) (session : Int) (source : Nat)
    (m : Message) (out : List Effect) (hd : m.is_data = false) (ht : m.is_tick = false)
    (h : message_handler fuel P session source m = .ok (P1, out)) :
    P1.proxy = P.proxy ∧ P1.header_sz = P.header_sz ∧ P1.header = P.header ∧
      P1.uncomplete_sz = P.uncomplete_sz ∧ P1.uncomplete = P.uncomplete ∧
      P1.recv = P.recv ∧ P1.heartbeat = P.heartbeat := by
  cases m with
  | TEXT msg =>
    have t := command_queues _ _ _ _ _ _ h
    rw [t]
    exact ⟨rfl, rfl, rfl, rfl, rfl, rfl, rfl⟩
  | CLIENT msg =>
    have := send_out_state _ _ _ _ h
    rw [this]
    exact ⟨rfl, rfl, rfl, rfl, rfl, rfl, rfl⟩
  | RESPONSE => simp [Message.is_tick] at ht
  | SOCKET smsg =>
    simp only [message_handler] at h
    unfold socket_message at h
    cases hty : smsg.type with
    | DATA => simp [Message.is_data, hty] at hd
    | CONNECT =>
      rw [hty] at h
      simp only at h
      split_ifs at h <;> (cases h; exact ⟨rfl, rfl, rfl, rfl, rfl, rfl, rfl⟩)
    | CLOSE =>
      rw [hty] at h
      simp only at h
      by_cases hi : P.init = 0 ∧ smsg.id = P.fd
      · simp only [if_pos hi] at h
        rw [if_neg (by simp [hi.2])] at h
        exact socket_message_close_decoder fuel { P with init := 1 } P1
          [.skynet_send P.manager .TEXT 0 (.text "FAIL")] out h
      · simp only [if_neg hi] at h
        by_cases hf : smsg.id ≠ P.fd
        · rw [if_pos hf] at h
          cases h; exact ⟨rfl, rfl, rfl, rfl, rfl, rfl, rfl⟩
        · rw [if_neg hf] at h
          exact socket_message_close_decoder fuel P P1 [] out h
    | ERROR =>
      rw [hty] at h
      simp only at h
      by_cases hi : P.init = 0 ∧ smsg.id = P.fd
      · simp only [if_pos hi] at h
        rw [if_neg (by simp [hi.2])] at h
        exact socket_message_close_decoder fuel { P with init := 1 } P1
          [.skynet_send P.manager .TEXT 0 (.text "FAIL")] out h
      · simp only [if_neg hi] at h
        by_cases hf : smsg.id ≠ P.fd
        · rw [if_pos hf] at h
          cases h; exact ⟨rfl, rfl, rfl, rfl, rfl, rfl, rfl⟩
        · rw [if_neg hf] at h
          exact socket_message_close_decoder fuel P P1 [] out h
    | WARNING =>
      rw [hty] at h
      cases h; exact ⟨rfl, rfl, rfl, rfl, rfl, rfl, rfl⟩
    | OTHER =>
      rw [hty] at h
      cases h; exact ⟨rfl, rfl, rfl, rfl, rfl, rfl, rfl⟩
  | ERROR =>
    simp only [message_handler] at h
    cases h; exact ⟨rfl, rfl, rfl, rfl, rfl, rfl, rfl⟩
  | OTHER =>
    simp only [message_handler] at h
    split_ifs at h <;> (cases h; exact ⟨rfl, rfl, rfl, rfl, rfl, rfl, rfl⟩)

/-- An inbound data delivery is a call of `new_message` followed by `response`, which
changes the two queues only. -/
theorem message_handler_data (fuel : Nat) (P P1 : Package) (session : Int) (source : Nat)
    (m : Message) (out : List Effect) (hd : m.is_data = true)
    (h : message_handler fuel P session source m = .ok (P1, out)) :
    ∃ (msg : List Byte) (Pa : Package), new_message P msg = .ok Pa ∧
      P1 = { Pa with request := P1.request, response := P1.response } := by
  cases m with
  | SOCKET smsg =>
    simp only [message_handler] at h
    unfold socket_message at h
    cases hty : smsg.type with
    | DATA =>
      rw [hty] at h
      simp only at h
      cases hn : new_message P smsg.buffer with
      | error e => rw [hn] at h; cases h
      | ok Pa =>
        rw [hn] at h
        simp only at h
        exact ⟨smsg.buffer, Pa, hn, response_queues _ _ _ _ h⟩
    | CONNECT => simp [Message.is_data, hty] at hd
    | CLOSE => simp [Message.is_data, hty] at hd
    | ERROR => simp [Message.is_data, hty] at hd
    | WARNING => simp [Message.is_data, hty] at hd
    | OTHER => simp [Message.is_data, hty] at hd
  | TEXT msg => simp [Message.is_data] at hd
  | CLIENT msg => simp [Message.is_data] at hd
  | RESPONSE => simp [Message.is_data] at hd
  | ERROR => simp [Message.is_data] at hd
  | OTHER => simp [Message.is_data] at hd

/-! ## Activity and the timeout -/

/-- C14, at the failing input.  The chunk `preamble_108` (108 bytes, carriage return at
offset 107) takes a new connection to FoundCR with the buffer of 108 bytes full; the line
feed that completes the line of 109 bytes is then copied to offset 108 of that buffer,
which is outside it. -/
theorem preamble_length_overflow :
    preamble_108.length = 108 ∧ preamble_108.take 6 = PROXY_literal ∧
    preamble_108[107]? = some 13 ∧ (∀ b ∈ preamble_108.take 107, b ≠ 13) ∧
    (skynet_malloc 108 : List Byte).length = 108 ∧
    deliver package_create [preamble_108] = .ok found_cr_108 ∧
    deliver package_create [preamble_108, [10]] = .error .out_of_bounds := by
  refine ⟨by decide, by decide, by decide, by decide, by decide, by decide, by decide⟩

/-- C17, at the failing input.  The line `"PROXY TCP4 1.2.3.4 5.6.7.8 1234 5678\r\n"` is
delivered to a new connection as `preamble_head` (ten bytes, no carriage return) and
`preamble_tail`.  The first delivery leaves the state Scanning with nothing buffered
(`uncomplete.sz = 0`, the buffer as allocated), and the frame enqueued on completion holds
the 28 bytes of the second chunk only, not the 38 bytes of the line. -/
theorem preamble_scanning_dropped :
    preamble_head ++ preamble_tail = preamble_example ++ [13, 10] ∧
    preamble_head.take 6 = PROXY_literal ∧ (∀ b ∈ preamble_head, b ≠ 13) ∧
    new_message package_create preamble_head =
      .ok { package_create with proxy := 1, uncomplete := { sz := 0, msg := skynet_malloc 108 } } ∧
    deliver package_create [preamble_head, preamble_tail] =
      .ok { package_create with
            proxy := 3, recv := 1,
            uncomplete := { sz := 28, msg := preamble_tail ++ skynet_malloc 80 },
            response :=
              { cap := 4, sz := 16, head := 0, tail := 1,
                buffer :=
                  [{ sz := 28, msg := preamble_tail ++ skynet_malloc 80 },
                    default, default, default] } } ∧
    Response.bytes { sz := 28, msg := preamble_tail ++ skynet_malloc 80 } = preamble_tail ∧
    preamble_tail ≠ preamble_example ++ [13, 10] := by
  refine ⟨by decide, by decide, by decide, by decide, by decide, by decide, by decide⟩

/-- C18, at the failing input.  In state Scanning the chunk `preamble_stray_cr`
(`"PROXY a\rb\r\n"`) has its first carriage return at offset 7, followed by the letter b.
The loop of `parse_proxy_v1` goes on after it, finds the carriage return and line feed at
offsets 9 and 10, ends in state Done and returns 11; `new_message` then enqueues a frame,
whose 11 bytes are `"PROXY a\rPRO"`. -/
theorem preamble_stray_cr_goes_on :
    preamble_stray_cr[7]? = some 13 ∧ (∀ b ∈ preamble_stray_cr.take 7, b ≠ 13) ∧
    preamble_stray_cr[8]? = some 98 ∧
    parse_proxy_v1
        { package_create with proxy := 1, uncomplete := { sz := 0, msg := skynet_malloc 108 } }
        preamble_stray_cr =
      .ok ({ package_create with
              proxy := 3,
              uncomplete :=
                { sz := 11,
                  msg := preamble_stray_cr.take 8 ++ preamble_stray_cr ++ skynet_malloc 89 } },
        11) ∧
    new_message package_create preamble_stray_cr =
      .ok { package_create with
            proxy := 3, recv := 1,
            uncomplete :=
              { sz := 11,
                msg := preamble_stray_cr.take 8 ++ preamble_stray_cr ++ skynet_malloc 89 },
            response :=
              { cap := 4, sz := 16, head := 0, tail := 1,
                buffer :=
                  [{ sz := 11,
                     msg := preamble_stray_cr.take 8 ++ preamble_stray_cr ++ skynet_malloc 89 },
                    default, default, default] } } ∧
    Response.bytes
        { sz := 11, msg := preamble_stray_cr.take 8 ++ preamble_stray_cr ++ skynet_malloc 89 } =
      [80, 82, 79, 88, 89, 32, 97, 13, 80, 82, 79] := by
  refine ⟨by decide, by decide, by decide, by decide, by decide, by decide⟩

/-- C19, at the failing input.  The state `found_cr_108` is the FoundCR state that a new
connection reaches on the chunk `preamble_108`: 108 bytes are accumulated in the buffer of
108 bytes.  A chunk that begins with a line feed does not complete the preamble there: the
line feed is copied outside the buffer.  An empty chunk leaves the state as it is, and a
chunk that begins with another byte fails the assertion of line 209. -/
theorem found_cr_108_overflow :
    new_message package_create preamble_108 = .ok found_cr_108 ∧
    found_cr_108.proxy = 2 ∧ found_cr_108.uncomplete.sz = 108 ∧
    found_cr_108.uncomplete.msg.length = 108 ∧
    new_message found_cr_108 [10] = .error .out_of_bounds ∧
    new_message found_cr_108 [10, 0, 1, 65] = .error .out_of_bounds ∧
    new_message found_cr_108 [] = .ok found_cr_108 ∧
    new_message found_cr_108 [65] = .error (.assertion 209) := by
  refine ⟨by decide, by decide, by decide, by decide, by decide, by decide, by decide, by decide⟩

/-! ## A first chunk that is not a preamble -/

theorem deliver_proxy :
    ∀ (cs : List (List Byte)) (P P2 : Package), ¬ (0 ≤ P.proxy ∧ P.proxy < 3) →
      deliver P cs = .ok P2 → P2.proxy = P.proxy := by
  intro cs
  induction cs with
  | nil =>
    intro P P2 _ h
    simp only [deliver] at h
    cases h; rfl
  | cons c cs ih =>
    intro P P2 hp h
    simp only [deliver] at h
    cases h1 : new_message P c with
    | error e => rw [h1] at h; cases h
    | ok P1 =>
      rw [h1] at h
      simp only at h
      have t := (new_message_frame P P1 c h1).2.2.2.2.2.2.2 hp
      have t2 := ih P1 P2 (by rw [t]; exact hp) h
      rw [t2, t]

/-- C16. A first chunk that is not a preamble disables preamble detection for good.  On a
new connection, for every first chunk `c` whose first six bytes are not `"PROXY "` (a chunk
shorter than six bytes is such a chunk), `new_message` gives what the decoding loop gives
on the same state with `proxy = -1` (Disabled), which is what `new_message` gives on a
connection already Disabled: no frame is enqueued but those the decoder completes.  When
the call returns, `proxy` is -1, and after every later sequence of chunks `proxy` is still
-1 and a further call of `new_message` is the decoding loop alone, whatever the chunk
begins with. -/
theorem first_chunk_disables (P : Package) (hP : P.New) (c : List Byte)
    (hc : c.take 6 ≠ PROXY_literal) :
    new_message P c = new_message_decode { P with proxy := -1 } c ∧
    new_message P c = new_message { P with proxy := -1 } c ∧
    ∀ P1 : Package, new_message P c = .ok P1 →
      P1.proxy = -1 ∧
      ∀ (cs : List (List Byte)) (P2 : Package), deliver P1 cs = .ok P2 →
        P2.proxy = -1 ∧
        ∀ msg : List Byte, new_message P2 msg = new_message_decode P2 msg := by
  have h1 := new_message_first_chunk P hP c (fun h => hc h.2)
  have h2 := new_message_of_not_preamble { P with proxy := -1 } c (Or.inr rfl)
  refine ⟨by rw [h1, h2], h1, ?_⟩
  intro P1 hn
  rw [h1] at hn
  have t := (new_message_frame { P with proxy := -1 } P1 c hn).2.2.2.2.2.2.2 (by simp)
  have t1 : P1.proxy = -1 := t
  refine ⟨t1, ?_⟩
  intro cs P2 hd
  have t2 := deliver_proxy cs P1 P2 (by rw [t1]; omega) hd
  have t3 : P2.proxy = -1 := by rw [t2, t1]
  exact ⟨t3, fun msg => new_message_of_not_preamble P2 msg (Or.inr t3)⟩

theorem first_chunk_disables_witness :
    package_create.New ∧ ([80] : List Byte).take 6 ≠ PROXY_literal ∧
    new_message package_create [80] =
      .ok { package_create with proxy := -1, recv := 1, header := (80, 0), header_sz := 1 } ∧
    new_message package_create [80] =
      new_message_decode { package_create with proxy := -1 } [80] ∧
    new_message package_create [80] = new_message { package_create with proxy := -1 } [80] ∧
    ∀ P1 : Package, new_message package_create [80] = .ok P1 →
      P1.proxy = -1 ∧
      ∀ (cs : List (List Byte)) (P2 : Package), deliver P1 cs = .ok P2 →
        P2.proxy = -1 ∧
        ∀ msg : List Byte, new_message P2 msg = new_message_decode P2 msg :=
  ⟨package_create_New, by decide, by decide,
    first_chunk_disables package_create package_create_New [80] (by decide)⟩

/-! ## Shutdown -/

theorem service_exit_loop_spec :
    ∀ (fuel : Nat) (P : Package), P.request.WF → P.request.toList.length < fuel →
      ∃ qa : Queue Request,
        service_exit_loop fuel P =
          .ok ({ P with request := qa }, P.request.toList.map failure) ∧
        qa.WF ∧ qa.toList = [] := by
  intro fuel
  induction fuel with
  | zero => intro P _ h; omega
  | succ n ih =>
    intro P wa hlen
    simp only [service_exit_loop]
    cases hA : P.request.toList with
    | nil =>
      rw [if_neg (by simp [(queue_empty_iff _ wa).2 hA])]
      exact ⟨P.request, rfl, wa, hA⟩
    | cons a A =>
      have ne : ¬ queue_empty P.request = true := by
        rw [queue_empty_iff _ wa, hA]; simp
      rw [if_pos ne]
      obtain ⟨qa1, ea, wa1, la1, -⟩ := queue_pop_cons P.request wa a A hA default
      rw [ea]
      simp only
      rw [hA] at hlen
      obtain ⟨qa, e, wa2, la2⟩ :=
        ih { P with request := qa1 } wa1
          (by simp only [la1]; simp only [List.length_cons] at hlen; omega)
      rw [e]
      simp only [la1]
      exact ⟨qa, rfl, wa2, la2⟩

theorem service_exit_spec (fuel : Nat) (P : Package) (wa : P.request.WF)
    (hlen : P.request.toList.length < fuel) :
    ∃ qa : Queue Request,
      service_exit fuel P =
        .ok ({ P with closed := 1, request := qa },
          P.request.toList.map failure ++ exit_report P.manager) ∧
      qa.WF ∧ qa.toList = [] := by
  obtain ⟨qa, e, w, l⟩ := service_exit_loop_spec fuel { P with closed := 1 } wa hlen
  unfold service_exit
  rw [e]
  exact ⟨qa, rfl, w, l⟩

theorem zipWith_reply_split (A a1 ra : List Request) (B b1 rb : List Response)
    (hA : A = a1 ++ ra) (hB : B = b1 ++ rb) (hl : a1.length = b1.length)
    (hone : ra = [] ∨ rb = []) :
    List.zipWith reply a1 b1 = List.zipWith reply A B ∧ ra = A.drop B.length ∧
      rb = B.drop A.length := by
  rw [hA, hB, List.zipWith_append _ _ _ _ _ hl]
  rcases hone with h | h
  · rw [h]
    simp only [List.zipWith_nil_left, List.append_nil, List.length_append]
    refine ⟨trivial, ?_, ?_⟩
    · rw [List.drop_eq_nil_of_le (by omega)]
    · rw [hl, List.drop_left]
  · rw [h]
    simp only [List.zipWith_nil_right, List.append_nil, List.length_append]
    refine ⟨trivial, ?_, ?_⟩
    · rw [← hl, List.drop_left]
    · rw [List.drop_eq_nil_of_le (by omega)]

theorem socket_message_close_spec (fuel : Nat) (P0 : Package) (out0 : List Effect)
    (wa : P0.request.WF) (wb : P0.response.WF) (hlen : P0.request.toList.length < fuel) :
    ∃ (qa : Queue Request) (qb : Queue Response),
      ((match response fuel P0 with
        | .error e => .error e
        | .ok (Pa, out1) =>
          match service_exit fuel Pa with
          | .error e => .error e
          | .ok (Pb, out2) => .ok (Pb, out0 ++ out1 ++ out2)) :
            Except Fault (Package × List Effect)) =
        .ok ({ P0 with closed := 1, request := qa, response := qb },
          out0 ++ List.zipWith reply P0.request.toList P0.response.toList ++
            ((P0.request.toList.drop P0.response.toList.length).map failure ++
              exit_report P0.manager)) ∧
      qa.WF ∧ qa.toList = [] ∧ qb.WF ∧
      qb.toList = P0.response.toList.drop P0.request.toList.length := by
  obtain ⟨qa, qb, a1, b1, e, wa2, wb2, la, lb, hl, hone⟩ := response_spec fuel P0 wa wb hlen
  obtain ⟨z1, z2, z3⟩ := zipWith_reply_split _ a1 qa.toList _ b1 qb.toList la lb hl hone
  have hlen2 : qa.toList.length < fuel := by
    have := congrArg List.length la
    rw [List.length_append] at this
    omega
  obtain ⟨qc, e2, wc, lc⟩ :=
    service_exit_spec fuel { P0 with request := qa, response := qb } wa2 hlen2
  rw [e]
  simp only
  rw [e2]
  simp only
  rw [z1, z2]
  exact ⟨qc, qb, rfl, wc, lc, wb2, z3⟩

/-- C13. Shutdown drains the pending requests.  A socket `CLOSE` or `ERROR` message for
the connection's own `fd`, handled in a state with well-formed queues (enough iterations
allowed for the requests queued), returns, and the calls it makes are, in this order: the
`"FAIL"` report to the manager if the connection was never established (`init = 0`); for
the requests that a queued frame can still be matched with, that frame
(`zipWith reply`); for every other request in the queue, in queue order, exactly one
`PTYPE_ERROR` reply to its source with its session; the text `"CLOSED"` to the manager and
the `EXIT` command.  Afterwards the request queue is empty and `closed` is 1.  When no
frame is queued, which is so whenever requests are pending in a reachable state, every
request in the queue gets the `PTYPE_ERROR` reply. -/
theorem shutdown_drains (fuel : Nat) (P : Package) (session : Int) (source : Nat)
    (smsg : SocketMessage) (hty : smsg.type = .CLOSE ∨ smsg.type = .ERROR)
    (hfd : smsg.id = P.fd) (wa : P.request.WF) (wb : P.response.WF)
    (hlen : P.request.toList.length < fuel) :
    ∃ (P1 : Package) (out : List Effect),
      message_handler fuel P session source (.SOCKET smsg) = .ok (P1, out) ∧
      out =
        (if P.init = 0 then [.skynet_send P.manager .TEXT 0 (.text "FAIL")] else []) ++
          List.zipWith reply P.request.toList P.response.toList ++
          ((P.request.toList.drop P.response.toList.length).map failure ++
            [.skynet_send P.manager .TEXT 0 (.text "CLOSED"), .skynet_command "EXIT" none]) ∧
      (P.response.toList = [] →
        out =
          (if P.init = 0 then [.skynet_send P.manager .TEXT 0 (.text "FAIL")] else []) ++
            (P.request.toList.map failure ++
              [.skynet_send P.manager .TEXT 0 (.text "CLOSED"),
                .skynet_command "EXIT" none])) ∧
      P1.request.WF ∧ P1.request.toList = [] ∧ P1.closed = 1 ∧
      P1.response.toList = P.response.toList.drop P.request.toList.length ∧
      P1.manager = P.manager ∧ P1.fd = P.fd := by
  have key : ∃ (P1 : Package) (out : List Effect),
      message_handler fuel P session source (.SOCKET smsg) = .ok (P1, out) ∧
      out =
        (if P.init = 0 then [.skynet_send P.manager .TEXT 0 (.text "FAIL")] else []) ++
          List.zipWith reply P.request.toList P.response.toList ++
          ((P.request.toList.drop P.response.toList.length).map failure ++
            [.skynet_send P.manager .TEXT 0 (.text "CLOSED"), .skynet_command "EXIT" none]) ∧
      P1.request.WF ∧ P1.request.toList = [] ∧ P1.closed = 1 ∧
      P1.response.toList = P.response.toList.drop P.request.toList.length ∧
      P1.manager = P.manager ∧ P1.fd = P.fd := by
    have hsock : message_handler fuel P session source (.SOCKET smsg) =
        ((match response fuel
              (if P.init = 0 ∧ smsg.id = P.fd then { P with init := 1 } else P) with
          | .error e => .error e
          | .ok (Pa, out1) =>
            match service_exit fuel Pa with
            | .error e => .error e
            | .ok (Pb, out2) =>
              .ok (Pb,
                (if P.init = 0 ∧ smsg.id = P.fd then
                    [.skynet_send P.manager .TEXT 0 (.text "FAIL")] else []) ++
                  out1 ++ out2)) : Except Fault (Package × List Effect)) := by
      simp only [message_handler]
      unfold socket_message
      rcases hty with h | h
      · rw [h]
        simp only
        by_cases hi : P.init = 0 ∧ smsg.id = P.fd
        · simp only [if_pos hi]
          rw [if_neg (by simp [hfd])]
        · simp only [if_neg hi]
          rw [if_neg (by simp [hfd])]
      · rw [h]
        simp only
        by_cases hi : P.init = 0 ∧ smsg.id = P.fd
        · simp only [if_pos hi]
          rw [if_neg (by simp [hfd])]
        · simp only [if_neg hi]
          rw [if_neg (by simp [hfd])]
    rw [hsock]
    by_cases hi : P.init = 0
    · rw [if_pos ⟨hi, hfd⟩, if_pos ⟨hi, hfd⟩, if_pos hi]
      obtain ⟨qa, qb, e, w1, l1, w2, l2⟩ :=
        socket_message_close_spec fuel { P with init := 1 }
          [.skynet_send P.manager .TEXT 0 (.text "FAIL")] wa wb hlen
      rw [e]
      exact ⟨_, _, rfl, rfl, w1, l1, rfl, l2, rfl, rfl⟩
    · rw [if_neg (fun h => hi h.1), if_neg (fun h => hi h.1), if_neg hi]
      obtain ⟨qa, qb, e, w1, l1, w2, l2⟩ := socket_message_close_spec fuel P [] wa wb hlen
      rw [e]
      exact ⟨_, _, rfl, rfl, w1, l1, rfl, l2, rfl, rfl⟩
  obtain ⟨P1, out, h1, h2, h3⟩ := key
  refine ⟨P1, out, h1, h2, ?_, h3⟩
  intro hB
  rw [h2, hB]
  simp

theorem shutdown_drains_witness :
    ((⟨.CLOSE, 5, []⟩ : SocketMessage).type = .CLOSE ∨
      (⟨.CLOSE, 5, []⟩ : SocketMessage).type = .ERROR) ∧
    (⟨.CLOSE, 5, []⟩ : SocketMessage).id = state_two_pulls.fd ∧
    state_two_pulls.request.WF ∧ state_two_pulls.response.WF ∧
    state_two_pulls.request.toList.length < 3 ∧
    message_handler 3 state_two_pulls 0 0 (.SOCKET ⟨.CLOSE, 5, []⟩) =
      .ok ({ state_two_pulls with
              init := 1, closed := 1,
              request := { state_two_pulls.request with head := 2 } },
        [.skynet_send 1 .TEXT 0 (.text "FAIL"), .skynet_send 7 .ERROR 1 .null,
          .skynet_send 8 .ERROR 2 .null, .skynet_send 1 .TEXT 0 (.text "CLOSED"),
          .skynet_command "EXIT" none]) ∧
    ∃ (P1 : Package) (out : List Effect),
      message_handler 3 state_two_pulls 0 0 (.SOCKET ⟨.CLOSE, 5, []⟩) = .ok (P1, out) ∧
      out =
        (if state_two_pulls.init = 0 then
            [.skynet_send state_two_pulls.manager .TEXT 0 (.text "FAIL")] else []) ++
          List.zipWith reply state_two_pulls.request.toList state_two_pulls.response.toList ++
          ((state_two_pulls.request.toList.drop state_two_pulls.response.toList.length).map
              failure ++
            [.skynet_send state_two_pulls.manager .TEXT 0 (.text "CLOSED"),
              .skynet_command "EXIT" none]) ∧
      (state_two_pulls.response.toList = [] →
        out =
          (if state_two_pulls.init = 0 then
              [.skynet_send state_two_pulls.manager .TEXT 0 (.text "FAIL")] else []) ++
            (state_two_pulls.request.toList.map failure ++
              [.skynet_send state_two_pulls.manager .TEXT 0 (.text "CLOSED"),
                .skynet_command "EXIT" none])) ∧
      P1.request.WF ∧ P1.request.toList = [] ∧ P1.closed = 1 ∧
      P1.response.toList =
        state_two_pulls.response.toList.drop state_two_pulls.request.toList.length ∧
      P1.manager = state_two_pulls.manager ∧ P1.fd = state_two_pulls.fd :=
  ⟨Or.inl rfl, rfl, ⟨by decide, by decide, by decide, rfl⟩, queue_init_WF 16 (by decide),
    by decide, by decide,
    shutdown_drains 3 state_two_pulls 0 0 ⟨.CLOSE, 5, []⟩ (Or.inl rfl) rfl
      ⟨by decide, by decide, by decide, rfl⟩ (queue_init_WF 16 (by decide)) (by decide)⟩

/-! ## Decoding a stream of frames -/

theorem new_message_for_nil (P : Package) (h3 : P.uncomplete_sz = -1) :
    new_message_for P [] = .ok P := by
  rw [new_message_for_eq, new_message_payload_neg P _ (by omega)]
  simp only [new_message_header]

/-- Decoding the wire form of one frame, in one piece, from a state with no partial
frame. -/
theorem new_message_for_frame_WF (P : Package) (h4 : P.header_sz = 0)
    (h3 : P.uncomplete_sz = -1) (wb : P.response.WF) (b0 b1 : Byte) (payload : List Byte)
    (hlen : b0.val * 256 + b1.val = payload.length) :
    ∃ q : Queue Response,
      new_message_for P (b0 :: b1 :: payload) =
        .ok { P with
              header := (b0, b1),
              uncomplete := { sz := payload.length, msg := payload },
              uncomplete_sz := -1,
              response := q } ∧
      q.WF ∧ q.toList = P.response.toList ++ [frame_of payload] := by
  obtain ⟨q, e, w, l, -⟩ := queue_push_spec P.response wb { sz := payload.length, msg := payload }
  refine ⟨q, ?_, w, l⟩
  rw [new_message_for_eq, new_message_payload_neg P _ (by omega)]
  simp only [new_message_header, h4, if_true, new_message_alloc, hlen]
  rw [new_message_for_eq]
  have hm := memcpy_nat (skynet_malloc payload.length : List Byte) 0 payload payload.length
  rw [if_pos (by rw [skynet_malloc_length]; omega), List.take_zero, List.nil_append,
    List.take_length, Nat.zero_add, List.drop_eq_nil_of_le (by rw [skynet_malloc_length]),
    List.append_nil, Nat.cast_zero] at hm
  unfold new_message_payload
  simp only [ge_iff_le, Nat.cast_nonneg, if_true, le_refl, sub_self, hm, e,
    Int.toNat_ofNat, List.drop_length, new_message_header]

theorem wire_encoding_header (p : List Byte) (hp : p.length ≤ 65535) :
    (Fin.ofNat (p.length / 256) : Byte).val * 256 + (Fin.ofNat (p.length % 256) : Byte).val =
      p.length := by
  simp only [Fin.ofNat, Nat.succ_eq_add_one]
  omega

theorem new_message_for_stream :
    ∀ (ps : List (List Byte)) (P : Package), P.header_sz = 0 → P.uncomplete_sz = -1 →
      P.response.WF → (∀ p ∈ ps, p.length ≤ 65535) →
      ∃ P1 : Package,
        new_message_for P (ps.map wire_encoding).flatten = .ok P1 ∧
        P1.header_sz = 0 ∧ P1.uncomplete_sz = -1 ∧ P1.response.WF ∧
        P1.response.toList = P.response.toList ++ ps.map frame_of := by
  intro ps
  induction ps with
  | nil =>
    intro P h4 h3 wb _
    refine ⟨P, ?_, h4, h3, wb, by simp⟩
    simp only [List.map_nil, List.flatten_nil]
    exact new_message_for_nil P h3
  | cons p ps ih =>
    intro P h4 h3 wb hps
    obtain ⟨q, e, w, l⟩ :=
      new_message_for_frame_WF P h4 h3 wb (Fin.ofNat (p.length / 256))
        (Fin.ofNat (p.length % 256)) p
        (wire_encoding_header p (hps p (List.mem_cons_self _ _)))
    obtain ⟨P1, e1, a1, a2, a3, a4⟩ :=
      ih { P with
            header := (Fin.ofNat (p.length / 256), Fin.ofNat (p.length % 256)),
            uncomplete := { sz := p.length, msg := p },
            uncomplete_sz := -1,
            response := q } h4 rfl w (fun x hx => hps x (List.mem_cons_of_mem _ hx))
    refine ⟨P1, ?_, a1, a2, a3, ?_⟩
    · simp only [List.map_cons, List.flatten_cons]
      rw [new_message_for_append]
      have e0 : wire_encoding p =
          Fin.ofNat (p.length / 256) :: Fin.ofNat (p.length % 256) :: p := rfl
      rw [e0, e]
      exact e1
    · rw [a4]
      simp only at l ⊢
      rw [l]
      simp

/-- C15. Decoding a stream of frames.  Take a state whose preamble phase is over (`proxy`
is 3, Done, or -1, Disabled) with no partial header and no partial payload, and whose
response queue is well formed, as it is in every reachable state.  For every list of
payloads `ps`, each of at most 65535 bytes (empty payloads included), and every list of
chunks `cs` whose concatenation is the concatenation of the wire encodings of the
payloads, delivering the chunks in order to `new_message` returns; the response queue then
holds what it held before followed by the frames of `ps` in order, each with its exact
length and bytes, no partial header and no partial payload is left, and the receive
counter has counted the chunks. -/
theorem decode_stream (P : Package) (hproxy : P.proxy = 3 ∨ P.proxy = -1)
    (hh : P.header_sz = 0) (hu : P.uncomplete_sz = -1) (wb : P.response.WF)
    (ps : List (List Byte)) (hps : ∀ p ∈ ps, p.length ≤ 65535) (cs : List (List Byte))
    (hcs : cs.flatten = (ps.map wire_encoding).flatten) :
    ∃ P1 : Package,
      deliver P cs = .ok P1 ∧ P1.response.WF ∧
      P1.response.toList = P.response.toList ++ ps.map frame_of ∧
      P1.header_sz = 0 ∧ P1.uncomplete_sz = -1 ∧ P1.proxy = P.proxy ∧
      P1.request = P.request ∧ P1.recv = P.recv + cs.length := by
  obtain ⟨P1, e, a1, a2, a3, a4⟩ := new_message_for_stream ps P hh hu wb hps
  cases cs with
  | nil =>
    cases ps with
    | nil =>
      exact ⟨P, rfl, wb, by simp, hh, hu, rfl, rfl, by simp⟩
    | cons p ps =>
      simp [wire_encoding] at hcs
  | cons c cs =>
    rw [deliver_join cs c P hproxy]
    have e0 : c ++ cs.flatten = (ps.map wire_encoding).flatten := by
      rw [← hcs, List.flatten_cons]
    rw [e0, e]
    have ho := new_message_for_outer_eq _ _ _ e
    have hp : P1.proxy = P.proxy := by rw [← ho]; rfl
    have hr : P1.request = P.request := by rw [← ho]; rfl
    refine ⟨_, rfl, a3, a4, a1, a2, hp, hr, ?_⟩
    simp only [List.length_cons, Nat.cast_add, Nat.cast_one]
    ring

theorem decode_stream_witness :
    (state_two_frames.proxy = 3 ∨ state_two_frames.proxy = -1) ∧
    state_two_frames.header_sz = 0 ∧ state_two_frames.uncomplete_sz = -1 ∧
    state_two_frames.response.WF ∧
    (∀ p ∈ ([[65], [], [66, 67]] : List (List Byte)), p.length ≤ 65535) ∧
    ([[0], [1, 65, 0], [], [0, 0, 2, 66], [67]] : List (List Byte)).flatten =
      (([[65], [], [66, 67]] : List (List Byte)).map wire_encoding).flatten ∧
    ∃ P1 : Package,
      deliver state_two_frames [[0], [1, 65, 0], [], [0, 0, 2, 66], [67]] = .ok P1 ∧
      P1.response.WF ∧
      P1.response.toList =
        state_two_frames.response.toList ++
          ([[65], [], [66, 67]] : List (List Byte)).map frame_of ∧
      P1.header_sz = 0 ∧ P1.uncomplete_sz = -1 ∧ P1.proxy = state_two_frames.proxy ∧
      P1.request = state_two_frames.request ∧
      P1.recv =
        state_two_frames.recv +
          ([[0], [1, 65, 0], [], [0, 0, 2, 66], [67]] : List (List Byte)).length :=
  ⟨Or.inr rfl, rfl, rfl, ⟨by decide, by decide, by decide, rfl⟩, by decide, by decide,
    decode_stream state_two_frames (Or.inr rfl) rfl rfl ⟨by decide, by decide, by decide, rfl⟩
      [[65], [], [66, 67]] (by decide) [[0], [1, 65, 0], [], [0, 0, 2, 66], [67]]
      (by decide)⟩

/-! ## The partial-frame invariant -/

theorem mem_write_fault {α : Type} (buf : List α) (i : Nat) (v : α) (e : Fault)
    (h : mem_write buf i v = .error e) : e = .out_of_bounds := by
  unfold mem_write at h; split_ifs at h; cases h; rfl

theorem mem_read_fault {α : Type} (buf : List α) (i : Nat) (e : Fault)
    (h : mem_read buf i = .error e) : e = .out_of_bounds := by
  unfold mem_read at h; split at h <;> cases h; rfl

theorem memcpy_fault (dst : List Byte) (off : Int) (src : List Byte) (n : Int) (e : Fault)
    (h : memcpy dst off src n = .error e) : e = .out_of_bounds := by
  unfold memcpy at h; split_ifs at h; cases h; rfl

theorem queue_push_copy_fault {α : Type} (buffer : List α) (cap : Nat) :
    ∀ (n i hd : Nat) (tmp : List α) (e : Fault),
      queue_push_copy buffer cap n i hd tmp = .error e → e = .out_of_bounds := by
  intro n
  induction n with
  | zero => intro i hd tmp e h; simp [queue_push_copy] at h
  | succ n ih =>
    intro i hd tmp e h
    simp only [queue_push_copy] at h
    cases hr : mem_read buffer hd with
    | error e1 =>
      rw [hr] at h
      cases h
      exact mem_read_fault _ _ _ hr
    | ok v =>
      rw [hr] at h
      simp only at h
      cases hw : mem_write tmp i v with
      | error e1 =>
        rw [hw] at h
        cases h
        exact mem_write_fault _ _ _ _ hw
      | ok tmp1 =>
        rw [hw] at h
        exact ih _ _ _ _ h

theorem queue_push_fault {α : Type} [Inhabited α] (q : Queue α) (v : α) (e : Fault)
    (h : queue_push q v = .error e) : e = .out_of_bounds ∨ e = .assertion 86 := by
  unfold queue_push at h
  simp only at h
  by_cases hf : q.head = if q.tail + 1 ≥ q.cap then 0 else q.tail + 1
  · rw [if_pos hf] at h
    by_cases hs : ¬ q.sz > 0
    · rw [if_pos hs] at h
      cases h
      exact Or.inr rfl
    · rw [if_neg hs] at h
      cases hc : queue_push_copy q.buffer q.cap q.cap 0 q.head (skynet_malloc (q.cap * 2)) with
      | error e1 =>
        rw [hc] at h
        cases h
        exact Or.inl (queue_push_copy_fault _ _ _ _ _ _ _ hc)
      | ok tmp =>
        rw [hc] at h
        simp only at h
        cases hw : mem_write tmp (q.cap - 1) v with
        | error e1 =>
          rw [hw] at h
          cases h
          exact Or.inl (mem_write_fault _ _ _ _ hw)
        | ok tmp1 =>
          rw [hw] at h
          cases h
  · rw [if_neg hf] at h
    cases hw : mem_write q.buffer q.tail v with
    | error e1 =>
      rw [hw] at h
      cases h
      exact Or.inl (mem_write_fault _ _ _ _ hw)
    | ok tmp1 =>
      rw [hw] at h
      cases h

/-- One pass through lines 256 to 268 of `new_message`, from a state in which a pending
payload, if there is one, has no header byte beside it. -/
theorem new_message_payload_partial (S : Package) (m : List Byte)
    (h1 : S.header_sz = 0 ∨ S.header_sz = 1)
    (h2 : S.uncomplete_sz = -1 ∨
      (0 ≤ S.uncomplete_sz ∧ S.uncomplete_sz ≤ S.uncomplete.sz ∧ S.uncomplete.sz ≤ 65535 ∧
        S.header_sz = 0))
    (r : Except Fault (Package × Option (List Byte))) (h : new_message_payload S m = r) :
    match r with
    | .error e => e = .out_of_bounds ∨ e = .assertion 86
    | .ok (S1, none) =>
      (S1.header_sz = 0 ∨ S1.header_sz = 1) ∧ (S1.header_sz = 1 → S1.uncomplete_sz = -1) ∧
        (S1.uncomplete_sz = -1 ∨
          (1 ≤ S1.uncomplete_sz ∧ S1.uncomplete_sz ≤ S1.uncomplete.sz ∧
            S1.uncomplete.sz ≤ 65535))
    | .ok (S1, some _) => (S1.header_sz = 0 ∨ S1.header_sz = 1) ∧ S1.uncomplete_sz = -1 := by
  unfold new_message_payload at h
  by_cases c1 : S.uncomplete_sz ≥ 0
  · rw [if_pos c1] at h
    by_cases c2 : (m.length : Int) ≥ S.uncomplete_sz
    · rw [if_pos c2] at h
      cases hm : memcpy S.uncomplete.msg (S.uncomplete.sz - S.uncomplete_sz) m
          S.uncomplete_sz with
      | error e =>
        rw [hm] at h
        subst h
        exact Or.inl (memcpy_fault _ _ _ _ _ hm)
      | ok buf =>
        rw [hm] at h
        simp only at h
        cases hq : queue_push S.response { S.uncomplete with msg := buf } with
        | error e =>
          rw [hq] at h
          subst h
          exact queue_push_fault _ _ _ hq
        | ok q =>
          rw [hq] at h
          subst h
          exact ⟨h1, rfl⟩
    · rw [if_neg c2] at h
      cases hm : memcpy S.uncomplete.msg (S.uncomplete.sz - S.uncomplete_sz) m m.length with
      | error e =>
        rw [hm] at h
        subst h
        exact Or.inl (memcpy_fault _ _ _ _ _ hm)
      | ok buf =>
        rw [hm] at h
        subst h
        simp only
        rcases h2 with h2 | ⟨a1, a2, a3, a4⟩
        · omega
        · refine ⟨Or.inl a4, fun h => by omega, Or.inr ⟨by omega, by omega, a3⟩⟩
  · rw [if_neg c1] at h
    subst h
    simp only
    rcases h2 with h2 | ⟨a1, a2, a3, a4⟩
    · exact ⟨h1, h2⟩
    · omega

/-- One pass through lines 270 to 292 of `new_message`, from a state with no payload
pending. -/
theorem new_message_header_partial (S : Package) (m : List Byte)
    (h1 : S.header_sz = 0 ∨ S.header_sz = 1) (h2 : S.uncomplete_sz = -1)
    (r : Except Fault (Package × Option (List Byte))) (h : new_message_header S m = r) :
    match r with
    | .error _ => False
    | .ok (S1, none) =>
      (S1.header_sz = 0 ∨ S1.header_sz = 1) ∧ (S1.header_sz = 1 → S1.uncomplete_sz = -1) ∧
        (S1.uncomplete_sz = -1 ∨
          (1 ≤ S1.uncomplete_sz ∧ S1.uncomplete_sz ≤ S1.uncomplete.sz ∧
            S1.uncomplete.sz ≤ 65535))
    | .ok (S1, some _) =>
      (S1.header_sz = 0 ∨ S1.header_sz = 1) ∧
        (S1.uncomplete_sz = -1 ∨
          (0 ≤ S1.uncomplete_sz ∧ S1.uncomplete_sz ≤ S1.uncomplete.sz ∧
            S1.uncomplete.sz ≤ 65535 ∧ S1.header_sz = 0)) := by
  cases m with
  | nil =>
    simp only [new_message_header] at h
    subst h
    exact ⟨h1, fun _ => h2, Or.inl h2⟩
  | cons b0 rest =>
    simp only [new_message_header] at h
    by_cases c0 : S.header_sz = 0
    · rw [if_pos c0] at h
      cases rest with
      | nil =>
        simp only at h
        subst h
        exact ⟨Or.inr rfl, fun _ => h2, Or.inl h2⟩
      | cons b1 rest =>
        simp only at h
        subst h
        have l0 := b0.isLt
        have l1 := b1.isLt
        simp only [new_message_alloc]
        refine ⟨Or.inl c0, Or.inr ⟨by omega, by omega, by omega, c0⟩⟩
    · rw [if_neg c0] at h
      have c1 : S.header_sz = 1 := by omega
      rw [if_neg (by simp [c1])] at h
      subst h
      have l0 := S.header.1.isLt
      have l1 := b0.isLt
      simp only [new_message_alloc]
      refine ⟨Or.inl trivial, Or.inr ⟨by omega, by omega, by omega, trivial⟩⟩

theorem new_message_loop_partial :
    ∀ (n : Nat) (S : Package) (m : List Byte), (S.header_sz = 0 ∨ S.header_sz = 1) →
      (S.uncomplete_sz = -1 ∨
        (0 ≤ S.uncomplete_sz ∧ S.uncomplete_sz ≤ S.uncomplete.sz ∧ S.uncomplete.sz ≤ 65535 ∧
          S.header_sz = 0)) →
      ∀ r : Except Fault Package, new_message_loop n S m = r →
        match r with
        | .error e => e = .out_of_bounds ∨ e = .assertion 86 ∨ e = .out_of_fuel
        | .ok S1 =>
          (S1.header_sz = 0 ∨ S1.header_sz = 1) ∧ (S1.header_sz = 1 → S1.uncomplete_sz = -1) ∧
            (S1.uncomplete_sz = -1 ∨
              (1 ≤ S1.uncomplete_sz ∧ S1.uncomplete_sz ≤ S1.uncomplete.sz ∧
                S1.uncomplete.sz ≤ 65535)) := by
  intro n
  induction n with
  | zero =>
    intro S m _ _ r h
    simp only [new_message_loop] at h
    subst h
    exact Or.inr (Or.inr rfl)
  | succ n ih =>
    intro S m h1 h2 r h
    simp only [new_message_loop] at h
    cases hp : new_message_payload S m with
    | error e =>
      rw [hp] at h
      subst h
      have t := new_message_payload_partial S m h1 h2 _ hp
      simp only at t
      rcases t with t | t
      · exact Or.inl t
      · exact Or.inr (Or.inl t)
    | ok r1 =>
      obtain ⟨S1, o1⟩ := r1
      have t := new_message_payload_partial S m h1 h2 _ hp
      rw [hp] at h
      cases o1 with
      | none =>
        simp only at h t
        subst h
        exact t
      | some m1 =>
        simp only at h t
        cases hh : new_message_header S1 m1 with
        | error e =>
          have t2 := new_message_header_partial S1 m1 t.1 t.2 _ hh
          exact absurd t2 id
        | ok r2 =>
          obtain ⟨S2, o2⟩ := r2
          have t2 := new_message_header_partial S1 m1 t.1 t.2 _ hh
          rw [hh] at h
          cases o2 with
          | none =>
            simp only at h t2
            subst h
            exact t2
          | some m2 =>
            simp only at h t2
            exact ih S2 m2 t2.1 t2.2 r h

/-- Lines 254 to 293 of `new_message` from a state whose preamble phase is over: the
partial-frame invariant holds afterwards, and the only faults are those of `memcpy` and
`queue_push`. -/
theorem new_message_decode_partial (S : Package) (m : List Byte)
    (h1 : S.header_sz = 0 ∨ S.header_sz = 1)
    (h2 : S.uncomplete_sz = -1 ∨
      (0 ≤ S.uncomplete_sz ∧ S.uncomplete_sz ≤ S.uncomplete.sz ∧ S.uncomplete.sz ≤ 65535 ∧
        S.header_sz = 0))
    (hnp : ¬ (0 ≤ S.proxy ∧ S.proxy < 3)) : Partial_outcome (new_message_decode S m) := by
  have t := new_message_loop_partial (m.length + 1) { S with recv := S.recv + 1 } m h1 h2
    (new_message_decode S m) rfl
  cases h : new_message_decode S m with
  | error e =>
    rw [h] at t
    simp only at t
    rcases t with t | t | t
    · exact Or.inl t
    · exact Or.inr (Or.inl t)
    · rw [t] at h
      exact absurd h (new_message_for_fuel _ _)
  | ok S1 =>
    rw [h] at t
    simp only at t
    have ho := new_message_for_outer_eq _ _ _ h
    have hp : S1.proxy = S.proxy := by rw [← ho]; rfl
    exact ⟨t.1, t.2.1, t.2.2, fun hpre => absurd (by rw [← hp]; exact hpre) hnp⟩

theorem parse_proxy_v1_loop_fault (msg : List Byte) :
    ∀ (n i : Nat) (S : Package) (e : Fault), parse_proxy_v1_loop msg n i S = .error e →
      e = .out_of_bounds := by
  intro n
  induction n with
  | zero =>
    intro i S e h
    simp only [parse_proxy_v1_loop] at h
    cases h
  | succ n ih =>
    intro i S e h
    simp only [parse_proxy_v1_loop] at h
    cases hr : mem_read msg i with
    | error e1 =>
      rw [hr] at h
      cases h
      exact mem_read_fault _ _ _ hr
    | ok b =>
      rw [hr] at h
      simp only at h
      by_cases hc : b = 13
      · rw [if_pos hc] at h
        by_cases hn : i + 1 < msg.length ∧ msg[i + 1]? = some 10
        · rw [if_pos hn] at h
          cases hm : memcpy S.uncomplete.msg (↑S.uncomplete.sz) msg ↑(i + 2) with
          | error e1 =>
            rw [hm] at h
            cases h
            exact memcpy_fault _ _ _ _ _ hm
          | ok buf =>
            rw [hm] at h
            cases h
        · rw [if_neg hn] at h
          cases hm : memcpy S.uncomplete.msg (↑S.uncomplete.sz) msg ↑(i + 1) with
          | error e1 =>
            rw [hm] at h
            cases h
            exact memcpy_fault _ _ _ _ _ hm
          | ok buf =>
            rw [hm] at h
            simp only at h
            exact ih (i + 1) _ e h
      · rw [if_neg hc] at h
        exact ih (i + 1) S e h

theorem parse_proxy_v1_fault (R : Package) (msg : List Byte) (e : Fault)
    (h : parse_proxy_v1 R msg = .error e) : e = .out_of_bounds ∨ e = .assertion 209 := by
  unfold parse_proxy_v1 at h
  simp only at h
  by_cases h1 : R.proxy = 1
  · rw [if_pos h1] at h
    exact Or.inl (parse_proxy_v1_loop_fault msg _ _ R e h)
  · rw [if_neg h1] at h
    by_cases h2 : R.proxy = 2
    · rw [if_pos h2] at h
      cases msg with
      | nil =>
        simp only at h
        cases h
      | cons b rest =>
        simp only at h
        by_cases hc : b ≠ 10
        · rw [if_pos hc] at h
          cases h
          exact Or.inr rfl
        · rw [if_neg hc] at h
          cases hm : memcpy R.uncomplete.msg (↑R.uncomplete.sz) (b :: rest) 1 with
          | error e1 =>
            rw [hm] at h
            cases h
            exact Or.inl (memcpy_fault _ _ _ _ _ hm)
          | ok buf =>
            rw [hm] at h
            cases h
    · rw [if_neg h2] at h
      cases h

/-- A call of `new_message` keeps the partial-frame invariant, and in a state that has it
the call fails only by a fault of `memcpy` or `queue_push` or by the assertion of line
209: not by the assertions of lines 222, 223, 246 and 284. -/
theorem new_message_partial (P : Package) (hP : P.Partial) (msg : List Byte) :
    Partial_outcome (new_message P msg) := by
  obtain ⟨i1, i2, i3, i4⟩ := hP
  have hdec : P.uncomplete_sz = -1 ∨
      (0 ≤ P.uncomplete_sz ∧ P.uncomplete_sz ≤ P.uncomplete.sz ∧ P.uncomplete.sz ≤ 65535 ∧
        P.header_sz = 0) := by
    rcases i3 with a | ⟨a1, a2, a3⟩
    · exact Or.inl a
    · refine Or.inr ⟨by omega, a2, a3, ?_⟩
      rcases i1 with b | b
      · exact b
      · have := i2 b
        omega
  unfold new_message
  by_cases hp : P.proxy ≥ 0 ∧ P.proxy < 3
  · rw [if_pos hp]
    obtain ⟨r0, u0⟩ := i4 hp
    rw [if_neg (by simp [r0]), if_neg (by simp [u0])]
    have key : ∀ (S1 : Package) (k : Int),
        S1 = { P with proxy := S1.proxy, uncomplete := S1.uncomplete } →
        ((k = 0 ∧ (0 ≤ S1.proxy ∧ S1.proxy < 3)) ∨
          (k ≠ 0 ∧ ¬ (0 ≤ S1.proxy ∧ S1.proxy < 3) ∧ (S1.proxy = 3 → k > 0))) →
        Partial_outcome
          (if k = 0 then .ok S1
            else if S1.proxy = 3 then
              if ¬ k > 0 then .error (.assertion 246) else
              match queue_push S1.response S1.uncomplete with
              | .error e => .error e
              | .ok q =>
                new_message_decode { S1 with response := q, uncomplete_sz := -1 }
                  (msg.drop k.toNat)
            else new_message_decode S1 msg) := by
      intro S1 k hS hk
      have f1 : S1.header_sz = P.header_sz := by rw [hS]
      have f2 : S1.uncomplete_sz = P.uncomplete_sz := by rw [hS]
      have f3 : S1.recv = P.recv := by rw [hS]
      rcases hk with ⟨k0, hin⟩ | ⟨k0, hout, hk3⟩
      · rw [if_pos k0]
        exact ⟨by rw [f1]; exact i1, fun _ => by rw [f2]; exact u0,
          Or.inl (by rw [f2]; exact u0), fun _ => ⟨by rw [f3]; exact r0, by rw [f2]; exact u0⟩⟩
      · rw [if_neg k0]
        by_cases p3 : S1.proxy = 3
        · rw [if_pos p3, if_neg (not_not.2 (hk3 p3))]
          cases hq : queue_push S1.response S1.uncomplete with
          | error e =>
            rcases queue_push_fault _ _ _ hq with t | t
            · exact Or.inl t
            · exact Or.inr (Or.inl t)
          | ok q =>
            exact new_message_decode_partial _ _ (by simp only; rw [f1]; exact i1) (Or.inl rfl)
              (by simp only; exact hout)
        · rw [if_neg p3]
          exact new_message_decode_partial S1 msg (by rw [f1]; exact i1)
            (Or.inl (by rw [f2]; exact u0)) hout
    have hparse : ∀ (S S1 : Package) (k : Int),
        S = { P with proxy := S.proxy, uncomplete := S.uncomplete } →
        (S.proxy = 1 ∨ S.proxy = 2) →
        parse_proxy_v1 S msg = .ok (S1, k) →
        S1 = { P with proxy := S1.proxy, uncomplete := S1.uncomplete } ∧
          ((k = 0 ∧ (0 ≤ S1.proxy ∧ S1.proxy < 3)) ∨
            (k ≠ 0 ∧ ¬ (0 ≤ S1.proxy ∧ S1.proxy < 3) ∧ (S1.proxy = 3 → k > 0))) := by
      intro S S1 k hS hSp hpar
      obtain ⟨t1, t2⟩ := parse_proxy_v1_frame S S1 msg k hpar
      refine ⟨?_, ?_⟩
      · rw [t1, hS]
      · rcases t2 with ⟨k0, hq⟩ | ⟨kp, hq⟩
        · refine Or.inl ⟨k0, ?_⟩
          rcases hq with hq | hq <;> rcases hSp with hSp | hSp <;> omega
        · exact Or.inr ⟨by omega, by omega, fun _ => kp⟩
    have hfault : ∀ (S : Package) (e : Fault), parse_proxy_v1 S msg = .error e →
        Partial_outcome (.error e) := by
      intro S e he
      rcases parse_proxy_v1_fault S msg e he with t | t
      · exact Or.inl t
      · exact Or.inr (Or.inr t)
    by_cases p0 : P.proxy = 0
    · rw [if_pos p0]
      by_cases hpre : msg.length ≥ 6 ∧ msg.take 6 = PROXY_literal
      · rw [if_pos hpre]
        cases hs : parse_proxy_v1
            { P with proxy := 1, uncomplete := { sz := 0, msg := skynet_malloc 108 } } msg with
        | error e => exact hfault _ e hs
        | ok r1 =>
          obtain ⟨S1, k⟩ := r1
          obtain ⟨a1, a2⟩ := hparse _ S1 k rfl (Or.inl rfl) hs
          exact key S1 k a1 a2
      · rw [if_neg hpre]
        exact key { P with proxy := -1 } (-1) rfl (Or.inr ⟨by decide, by simp, by simp⟩)
    · rw [if_neg p0]
      by_cases p1 : P.proxy = 1
      · rw [if_pos p1]
        cases hs : parse_proxy_v1 P msg with
        | error e => exact hfault _ e hs
        | ok r1 =>
          obtain ⟨S1, k⟩ := r1
          obtain ⟨a1, a2⟩ := hparse P S1 k rfl (Or.inl p1) hs
          exact key S1 k a1 a2
      · rw [if_neg p1]
        have p2 : P.proxy = 2 := by omega
        rw [if_pos p2]
        cases hs : parse_proxy_v1 P msg with
        | error e => exact hfault _ e hs
        | ok r1 =>
          obtain ⟨S1, k⟩ := r1
          obtain ⟨a1, a2⟩ := hparse P S1 k rfl (Or.inr p2) hs
          exact key S1 k a1 a2
  · rw [if_neg hp]
    exact new_message_decode_partial P msg i1 hdec hp

theorem Partial_of_fields (P P1 : Package) (hP : P.Partial) (e1 : P1.proxy = P.proxy)
    (e2 : P1.header_sz = P.header_sz) (e3 : P1.uncomplete_sz = P.uncomplete_sz)
    (e4 : P1.uncomplete = P.uncomplete) (e5 : P1.recv = P.recv ∨ P1.recv = 0) :
    P1.Partial := by
  obtain ⟨i1, i2, i3, i4⟩ := hP
  refine ⟨by rw [e2]; exact i1, by rw [e2, e3]; exact i2, by rw [e3, e4]; exact i3, ?_⟩
  rw [e1, e3]
  intro hp
  have t := i4 hp
  refine ⟨?_, t.2⟩
  rcases e5 with e5 | e5
  · rw [e5]; exact t.1
  · exact e5

theorem heartbeat_Partial (P : Package) (hP : P.Partial) : (heartbeat P).1.Partial := by
  unfold heartbeat
  by_cases h : P.recv = P.heartbeat
  · rw [if_pos h]
    split_ifs <;> exact hP
  · rw [if_neg h]
    exact Partial_of_fields P _ hP rfl rfl rfl rfl (Or.inr rfl)

theorem package_create_Partial : package_create.Partial :=
  ⟨Or.inl rfl, fun _ => rfl, Or.inl rfl, fun _ => ⟨rfl, rfl⟩⟩

theorem package_init_Partial (P : Package) (hP : P.Partial) (n : Int) (manager : Nat)
    (fd : Int) : (package_init P n manager fd).1.Partial := by
  have h0 : ({ P with manager := manager, fd := fd } : Package).Partial :=
    Partial_of_fields P _ hP rfl rfl rfl rfl (Or.inl rfl)
  unfold package_init
  simp only
  split_ifs
  · exact h0
  · exact heartbeat_Partial _ h0

theorem message_handler_Partial (fuel : Nat) (P P1 : Package) (session : Int) (source : Nat)
    (m : Message) (out : List Effect) (hP : P.Partial)
    (h : message_handler fuel P session source m = .ok (P1, out)) : P1.Partial := by
  cases hd : m.is_data with
  | true =>
    obtain ⟨msg, Pa, hn, hq⟩ := message_handler_data fuel P P1 session source m out hd h
    have t := new_message_partial P hP msg
    rw [hn] at t
    rw [hq]
    exact Partial_of_fields Pa _ t rfl rfl rfl rfl (Or.inl rfl)
  | false =>
    cases ht : m.is_tick with
    | true =>
      cases m with
      | RESPONSE =>
        simp only [message_handler, Except.ok.injEq] at h
        have e : P1 = (heartbeat P).1 := by
          rw [h]
        rw [e]
        exact heartbeat_Partial P hP
      | TEXT msg => simp [Message.is_tick] at ht
      | CLIENT msg => simp [Message.is_tick] at ht
      | SOCKET smsg => simp [Message.is_tick] at ht
      | ERROR => simp [Message.is_tick] at ht
      | OTHER => simp [Message.is_tick] at ht
    | false =>
      have t := message_handler_decoder fuel P P1 session source m out hd ht h
      exact Partial_of_fields P P1 hP t.1 t.2.1 t.2.2.2.1 t.2.2.2.2.1 (Or.inl t.2.2.2.2.2.1)

theorem Reachable_Partial (P : Package) (h : Reachable P) : P.Partial := by
  induction h with
  | create => exact package_create_Partial
  | init P n manager fd _ ih => exact package_init_Partial P ih n manager fd
  | step P P1 fuel session source m out _ hstep ih =>
    exact message_handler_Partial fuel P P1 session source m out ih hstep

theorem deliver_Partial :
    ∀ (cs : List (List Byte)) (P P1 : Package), P.Partial → deliver P cs = .ok P1 →
      P1.Partial := by
  intro cs
  induction cs with
  | nil =>
    intro P P1 hP h
    simp only [deliver] at h
    cases h
    exact hP
  | cons c cs ih =>
    intro P P1 hP h
    simp only [deliver] at h
    cases h1 : new_message P c with
    | error e => rw [h1] at h; cases h
    | ok Pa =>
      rw [h1] at h
      simp only at h
      have t := new_message_partial P hP c
      rw [h1] at t
      exact ih Pa P1 t h

/-- C20. The partial-frame state invariant.  Start from `package_create`, or from any
state reached from it by `package_init` and handled messages, timer ticks included, and
let any sequence of chunks be delivered to `new_message`, every call returning.  In the
state `P1` so reached: `header_sz` is 0 or 1; `header_sz = 1` implies
`uncomplete_sz = -1`; `uncomplete_sz` is -1 or `1 ≤ uncomplete_sz ≤ uncomplete.sz ≤ 65535`;
and while `proxy` is 0, 1 or 2 the receive counter is 0 and `uncomplete_sz` is -1.  A
further call of `new_message` in that state fails none of the assertions of lines 222
(`recv == 0`), 223 (`uncomplete_sz == -1`), 246 (`proxy_len > 0`) and 284
(`header_sz == 1`). -/
theorem partial_frame_invariant (P : Package) (hP : Reachable P) (cs : List (List Byte))
    (P1 : Package) (hd : deliver P cs = .ok P1) :
    (P1.header_sz = 0 ∨ P1.header_sz = 1) ∧
    (P1.header_sz = 1 → P1.uncomplete_sz = -1) ∧
    (P1.uncomplete_sz = -1 ∨
      (1 ≤ P1.uncomplete_sz ∧ P1.uncomplete_sz ≤ P1.uncomplete.sz ∧
        P1.uncomplete.sz ≤ 65535)) ∧
    (0 ≤ P1.proxy ∧ P1.proxy < 3 → P1.recv = 0 ∧ P1.uncomplete_sz = -1) ∧
    P1.Partial ∧
    ∀ msg : List Byte,
      new_message P1 msg ≠ .error (.assertion 222) ∧
      new_message P1 msg ≠ .error (.assertion 223) ∧
      new_message P1 msg ≠ .error (.assertion 246) ∧
      new_message P1 msg ≠ .error (.assertion 284) := by
  have h1 : P1.Partial := deliver_Partial cs P P1 (Reachable_Partial P hP) hd
  refine ⟨h1.header_sz_eq, h1.header_excl, h1.payload, h1.preamble, h1, ?_⟩
  intro msg
  have key : ∀ l : Nat, l ≠ 86 → l ≠ 209 → new_message P1 msg ≠ .error (.assertion l) := by
    intro l l1 l2 he
    have t := new_message_partial P1 h1 msg
    rw [he] at t
    rcases t with t | t | t
    · cases t
    · cases t; exact l1 rfl
    · cases t; exact l2 rfl
  exact ⟨key 222 (by decide) (by decide), key 223 (by decide) (by decide),
    key 246 (by decide) (by decide), key 284 (by decide) (by decide)⟩

theorem partial_frame_invariant_witness :
    Reachable package_create ∧
    deliver package_create [[0, 1, 65, 0]] = .ok state_after_frame ∧
    (state_after_frame.header_sz = 0 ∨ state_after_frame.header_sz = 1) ∧
    (state_after_frame.header_sz = 1 → state_after_frame.uncomplete_sz = -1) ∧
    (state_after_frame.uncomplete_sz = -1 ∨
      (1 ≤ state_after_frame.uncomplete_sz ∧
        state_after_frame.uncomplete_sz ≤ state_after_frame.uncomplete.sz ∧
        state_after_frame.uncomplete.sz ≤ 65535)) ∧
    (0 ≤ state_after_frame.proxy ∧ state_after_frame.proxy < 3 →
      state_after_frame.recv = 0 ∧ state_after_frame.uncomplete_sz = -1) ∧
    state_after_frame.Partial ∧
    ∀ msg : List Byte,
      new_message state_after_frame msg ≠ .error (.assertion 222) ∧
      new_message state_after_frame msg ≠ .error (.assertion 223) ∧
      new_message state_after_frame msg ≠ .error (.assertion 246) ∧
      new_message state_after_frame msg ≠ .error (.assertion 284) :=
  ⟨Reachable.create, by decide,
    partial_frame_invariant package_create Reachable.create [[0, 1, 65, 0]] state_after_frame
      (by decide)⟩

/-! ## FoundCR where the buffer has room -/

/-- In state FoundCR with room for one more byte in the buffer, a chunk that begins with a
line feed completes the preamble: one byte is consumed, the frame enqueued is the
accumulated preamble followed by the line feed, and the rest of the chunk is decoded in
state Done.  A chunk that begins with another byte fails the assertion of line 209, and an
empty chunk changes nothing.  The state `found_cr_108` has no room for the byte. -/
theorem found_cr_line_feed (P : Package) (h2 : P.proxy = 2) (hr : P.recv = 0)
    (hu : P.uncomplete_sz = -1) (hroom : P.uncomplete.sz + 1 ≤ P.uncomplete.msg.length)
    (wb : P.response.WF) :
    (∀ rest : List Byte, ∃ q : Queue Response,
      new_message P (10 :: rest) =
        new_message_decode
          { P with
            proxy := 3,
            uncomplete :=
              { sz := P.uncomplete.sz + 1,
                msg := P.uncomplete.msg.take P.uncomplete.sz ++ [10] ++
                  P.uncomplete.msg.drop (P.uncomplete.sz + 1) },
            response := q, uncomplete_sz := -1 } rest ∧
      q.WF ∧
      q.toList = P.response.toList ++
        [{ sz := P.uncomplete.sz + 1,
           msg := P.uncomplete.msg.take P.uncomplete.sz ++ [10] ++
             P.uncomplete.msg.drop (P.uncomplete.sz + 1) }] ∧
      Response.bytes
          { sz := P.uncomplete.sz + 1,
            msg := P.uncomplete.msg.take P.uncomplete.sz ++ [10] ++
              P.uncomplete.msg.drop (P.uncomplete.sz + 1) } =
        P.uncomplete.bytes ++ [10]) ∧
    (∀ (b : Byte) (rest : List Byte), b ≠ 10 →
      new_message P (b :: rest) = .error (.assertion 209)) ∧
    new_message P [] = .ok P := by
  have hp : P.proxy ≥ 0 ∧ P.proxy < 3 := by omega
  have p0 : ¬ P.proxy = 0 := by omega
  have p1 : ¬ P.proxy = 1 := by omega
  refine ⟨?_, ?_, ?_⟩
  · intro rest
    obtain ⟨q, e, w, l, -⟩ := queue_push_spec P.response wb
      { sz := P.uncomplete.sz + 1,
        msg := P.uncomplete.msg.take P.uncomplete.sz ++ [10] ++
          P.uncomplete.msg.drop (P.uncomplete.sz + 1) }
    refine ⟨q, ?_, w, l, ?_⟩
    · have hm := memcpy_nat P.uncomplete.msg P.uncomplete.sz (10 :: rest) 1
      rw [if_pos ⟨hroom, by simp⟩] at hm
      simp only [List.take_succ_cons, List.take_zero, Nat.cast_one] at hm
      unfold new_message
      rw [if_pos hp, if_neg (by simp [hr]), if_neg (by simp [hu]), if_neg p0, if_neg p1,
        if_pos h2]
      unfold parse_proxy_v1
      rw [if_neg p1, if_pos h2]
      simp only [ne_eq, not_true_eq_false, if_false, hm]
      have e1 := e
      simp only [List.append_assoc, List.singleton_append] at e1
      simp [e1]
    · unfold Response.bytes
      simp only
      have hl : (P.uncomplete.msg.take P.uncomplete.sz).length = P.uncomplete.sz := by
        rw [List.length_take]
        omega
      rw [List.append_assoc, List.take_append_eq_append_take, hl]
      simp [List.take_take]
  · intro b rest hb
    unfold new_message
    rw [if_pos hp, if_neg (by simp [hr]), if_neg (by simp [hu]), if_neg p0, if_neg p1,
      if_pos h2]
    unfold parse_proxy_v1
    rw [if_neg p1, if_pos h2]
    simp only [ne_eq, hb, not_false_eq_true, if_true]
  · unfold new_message
    rw [if_pos hp, if_neg (by simp [hr]), if_neg (by simp [hu]), if_neg p0, if_neg p1,
      if_pos h2]
    unfold parse_proxy_v1
    rw [if_neg p1, if_pos h2]
    simp

/-! ## The proxy preamble split before the line feed -/

/-- The two deliveries of a preamble line split before its line feed, step by step: the
first ends in `preamble_found_cr`, and the second is the delivery of `rest` to
`preamble_done`. -/
theorem proxy_preamble_steps (P : Package) (hP : P.New) (body rest : List Byte)
    (hstart : body.take 6 = PROXY_literal) (hlen : body.length + 2 ≤ 108)
    (hcr : ∀ b ∈ body, b ≠ 13) :
    new_message P (body ++ [13]) = .ok (preamble_found_cr P body) ∧
    new_message (preamble_found_cr P body) (10 :: rest) =
      new_message (preamble_done P body) rest ∧
    (preamble_frame body).bytes = body ++ [13, 10] := by
  obtain ⟨h1, h2, h3, h4, h5⟩ := hP
  have hb6 : 6 ≤ body.length := by
    have := congrArg List.length hstart
    simp only [List.length_take, PROXY_literal, List.length_cons, List.length_nil] at this
    omega
  -- the first delivery
  have hscan : parse_proxy_v1_loop (body ++ [13]) (body.length + 1) 0
      { P with proxy := 1, uncomplete := { sz := 0, msg := skynet_malloc 108 } }
      = .ok ({ P with
                proxy := 2,
                uncomplete :=
                  { sz := body.length + 1,
                    msg := body ++ [13] ++ List.replicate (108 - (body.length + 1)) 0 } }, 0) := by
    rw [parse_proxy_v1_loop_skip (body ++ [13]) body.length 1 0 _
      (fun j _ hj => getElem?_body body [13] hcr j (by omega))]
    have hc : (body ++ [13])[0 + body.length]? = some (13 : Byte) := by
      rw [Nat.zero_add, List.getElem?_append_right (le_refl _)]
      simp
    have hm := memcpy_nat (skynet_malloc 108 : List Byte) 0 (body ++ [13]) (body.length + 1)
    rw [if_pos (by rw [skynet_malloc_length]; simp; omega), List.take_zero, List.nil_append,
      List.take_of_length_le (by simp), Nat.zero_add, skynet_malloc_drop] at hm
    simp only [parse_proxy_v1_loop, mem_read, hc, if_true, List.length_append,
      List.length_singleton, Nat.lt_irrefl, false_and, if_false]
    simp only [Nat.cast_zero, Nat.zero_add] at hm ⊢
    rw [hm, if_neg (by omega)]
  have hfirst : new_message P (body ++ [13])
      = .ok { P with
                proxy := 2,
                uncomplete :=
                  { sz := body.length + 1,
                    msg := body ++ [13] ++ List.replicate (108 - (body.length + 1)) 0 } } := by
    unfold new_message
    have ht : (body ++ [13]).take 6 = PROXY_literal := by
      rw [List.take_append_of_le_length hb6, hstart]
    have hl : (body ++ [13]).length ≥ 6 := by simp; omega
    rw [if_pos (by omega), if_neg (by simp [h2]), if_neg (by simp [h3]), if_pos h1,
      if_pos ⟨hl, ht⟩]
    unfold parse_proxy_v1
    simp only [if_true]
    rw [if_neg (by simp; omega)]
    simp only [List.length_append, List.length_singleton] at hscan ⊢
    rw [hscan]
    simp
  -- the second delivery
  have hm2 := memcpy_nat (body ++ [13] ++ List.replicate (108 - (body.length + 1)) 0)
    (body.length + 1) (10 :: rest) 1
  rw [if_pos (by
    rw [List.length_append, List.length_append, List.length_replicate]
    simp only [List.length_singleton, List.length_cons]
    omega)] at hm2
  have hbuf : List.take (body.length + 1)
        (body ++ [13] ++ List.replicate (108 - (body.length + 1)) 0) ++
        List.take 1 (10 :: rest) ++
        List.drop (body.length + 1 + 1)
          (body ++ [13] ++ List.replicate (108 - (body.length + 1)) 0)
      = body ++ [13, 10] ++ List.replicate (108 - (body.length + 2)) 0 := by
    rw [List.take_append_of_le_length (by simp), List.take_of_length_le (by simp),
      List.drop_append_eq_append_drop, List.drop_eq_nil_of_le (by simp), List.nil_append,
      List.drop_replicate]
    simp only [List.take_succ_cons, List.take_zero, List.length_append, List.length_singleton,
      List.append_assoc, List.singleton_append]
    congr 3
    omega
  rw [hbuf] at hm2
  refine ⟨hfirst, ?_, ?_⟩
  · simp only [preamble_found_cr, preamble_done, preamble_frame]
    rw [new_message_of_not_preamble _ rest (Or.inl rfl)]
    rw [Nat.cast_one] at hm2
    have hparse : parse_proxy_v1
        { P with
          proxy := 2,
          uncomplete :=
            { sz := body.length + 1,
              msg := body ++ [13] ++ List.replicate (108 - (body.length + 1)) 0 } }
        (10 :: rest)
        = .ok ({ P with
                  proxy := 3,
                  uncomplete :=
                    { sz := body.length + 2,
                      msg := body ++ [13, 10] ++ List.replicate (108 - (body.length + 2)) 0 } },
                1) := by
      unfold parse_proxy_v1
      simp only [hm2]
      simp
    unfold new_message
    simp only [hparse]
    simp [h2, h3, h5, queue_init_push]
  · simp only [Response.bytes, preamble_frame]
    rw [List.take_append_of_le_length (by simp), List.take_of_length_le (by simp)]

/-- C8. Proxy preamble split before the line feed.  Let `body` begin with `"PROXY "`, hold
no carriage return and have at most 106 bytes, so that the line `L = body ++ CR LF` has at
most 108.  On a new connection `P` the delivery of `body ++ CR` returns in the state
`preamble_found_cr P body`, with nothing enqueued: the response queue is the empty queue
that `package_create` made.  The delivery of `LF ++ rest` to that state is the decoding
loop of `new_message` on `rest` from the state `preamble_done P body`, which is in state
Done with no partial frame and whose well-formed response queue holds exactly one frame,
of length `|L|` and bytes `L`.  So whenever the second delivery returns, the response
queue is well formed, its first frame is that of `L`, and the frames behind it are those
that the decoder yields from `rest` on the same Done state with an empty response queue;
and when `rest` is the concatenation of the wire encodings of payloads `ps`, the second
delivery returns with the response queue holding the frame of `L` followed by the frames
of `ps` in order, and no partial frame. -/
theorem proxy_preamble_split (P : Package) (hP : P.New) (body rest : List Byte)
    (hstart : body.take 6 = PROXY_literal) (hlen : body.length + 2 ≤ 108)
    (hcr : ∀ b ∈ body, b ≠ 13) :
    new_message P (body ++ [13]) = .ok (preamble_found_cr P body) ∧
    (preamble_found_cr P body).response = queue_init 16 ∧
    (preamble_found_cr P body).response.toList = [] ∧
    new_message (preamble_found_cr P body) (10 :: rest) =
      new_message (preamble_done P body) rest ∧
    new_message (preamble_found_cr P body) (10 :: rest) =
      new_message_decode (preamble_done P body) rest ∧
    (preamble_done P body).proxy = 3 ∧ (preamble_done P body).header_sz = 0 ∧
    (preamble_done P body).uncomplete_sz = -1 ∧
    (preamble_done P body).response.WF ∧
    (preamble_done P body).response.toList = [preamble_frame body] ∧
    (preamble_frame body).sz = (body ++ [13, 10]).length ∧
    (preamble_frame body).bytes = body ++ [13, 10] ∧
    (∀ P2 : Package, new_message (preamble_found_cr P body) (10 :: rest) = .ok P2 →
      P2.proxy = 3 ∧ P2.response.WF ∧
      ∃ (fs : List Response) (q0 : Queue Response),
        P2.response.toList = preamble_frame body :: fs ∧
        new_message_decode { preamble_done P body with response := queue_init 16 } rest =
          .ok { P2 with response := q0 } ∧
        q0.toList = fs) ∧
    (∀ ps : List (List Byte), (∀ p ∈ ps, p.length ≤ 65535) →
      rest = (ps.map wire_encoding).flatten →
      ∃ P2 : Package,
        new_message (preamble_found_cr P body) (10 :: rest) = .ok P2 ∧
        P2.response.toList = preamble_frame body :: ps.map frame_of ∧
        P2.proxy = 3 ∧ P2.header_sz = 0 ∧ P2.uncomplete_sz = -1) := by
  obtain ⟨s1, s2, s3⟩ := proxy_preamble_steps P hP body rest hstart hlen hcr
  have hd : new_message (preamble_found_cr P body) (10 :: rest) =
      new_message_decode (preamble_done P body) rest := by
    rw [s2, new_message_of_not_preamble (preamble_done P body) rest (Or.inl rfl)]
  have wd : (preamble_done P body).response.WF :=
    ⟨show 0 < 16 by decide, show 0 < 4 by decide, show 1 < 4 by decide, rfl⟩
  have ld : (preamble_done P body).response.toList = [preamble_frame body] := rfl
  have h0 : (preamble_found_cr P body).response = queue_init 16 := hP.response_eq
  refine ⟨s1, h0, by rw [h0]; rfl, s2, hd, rfl, hP.header_sz_eq, rfl, wd, ld,
    by simp [preamble_frame], s3, ?_, ?_⟩
  · intro P2 h2
    rw [hd] at h2
    obtain ⟨qb1, fs, e, w1, l1, wR, lR, -⟩ :=
      new_message_decode_sim (preamble_done P body) P2 rest h2 (preamble_done P body).closed
        (preamble_done P body).request (queue_init 16) (queue_init_WF 16 (by decide)) wd
    obtain ⟨-, -, -, -, g5, g6, g7, -⟩ := new_message_decode_frame _ _ _ h2
    have eq : ({ P2 with
          closed := (preamble_done P body).closed, request := (preamble_done P body).request,
          response := qb1 } : Package) = { P2 with response := qb1 } := by
      rw [← g5, ← g6]
    refine ⟨by rw [g7]; rfl, wR, fs, qb1, by rw [lR, ld]; rfl, e.trans (congrArg Except.ok eq), ?_⟩
    rw [l1]
    rfl
  · intro ps hps hrest
    obtain ⟨S, e, a1, a2, a3, a4⟩ :=
      new_message_for_stream ps (preamble_done P body) hP.header_sz_eq rfl wd hps
    have ho := new_message_for_outer_eq _ _ _ e
    have hp : S.proxy = 3 := by rw [← ho]; rfl
    rw [hd, hrest, new_message_decode_eq, e]
    exact ⟨_, rfl, by rw [ld] at a4; exact a4, hp, a1, a2⟩

theorem proxy_preamble_split_witness :
    package_create.New ∧ preamble_example.take 6 = PROXY_literal ∧
    preamble_example.length + 2 ≤ 108 ∧ (∀ b ∈ preamble_example, b ≠ 13) ∧
    (deliver package_create [preamble_example ++ [13], [10, 0, 2, 104, 105]]).map
        (fun Q => Q.response.toList.map Response.bytes) =
      .ok [preamble_example ++ [13, 10], [104, 105]] ∧
    new_message package_create (preamble_example ++ [13]) =
      .ok (preamble_found_cr package_create preamble_example) ∧
    (preamble_found_cr package_create preamble_example).response = queue_init 16 ∧
    (preamble_found_cr package_create preamble_example).response.toList = [] ∧
    new_message (preamble_found_cr package_create preamble_example) (10 :: [0, 2, 104, 105]) =
      new_message (preamble_done package_create preamble_example) [0, 2, 104, 105] ∧
    new_message (preamble_found_cr package_create preamble_example) (10 :: [0, 2, 104, 105]) =
      new_message_decode (preamble_done package_create preamble_example) [0, 2, 104, 105] ∧
    (preamble_done package_create preamble_example).proxy = 3 ∧
    (preamble_done package_create preamble_example).header_sz = 0 ∧
    (preamble_done package_create preamble_example).uncomplete_sz = -1 ∧
    (preamble_done package_create preamble_example).response.WF ∧
    (preamble_done package_create preamble_example).response.toList =
      [preamble_frame preamble_example] ∧
    (preamble_frame preamble_example).sz = (preamble_example ++ [13, 10]).length ∧
    (preamble_frame preamble_example).bytes = preamble_example ++ [13, 10] ∧
    (∀ P2 : Package,
      new_message (preamble_found_cr package_create preamble_example)
          (10 :: [0, 2, 104, 105]) = .ok P2 →
      P2.proxy = 3 ∧ P2.response.WF ∧
      ∃ (fs : List Response) (q0 : Queue Response),
        P2.response.toList = preamble_frame preamble_example :: fs ∧
        new_message_decode
            { preamble_done package_create preamble_example with response := queue_init 16 }
            [0, 2, 104, 105] =
          .ok { P2 with response := q0 } ∧
        q0.toList = fs) ∧
    (∀ ps : List (List Byte), (∀ p ∈ ps, p.length ≤ 65535) →
      [0, 2, 104, 105] = (ps.map wire_encoding).flatten →
      ∃ P2 : Package,
        new_message (preamble_found_cr package_create preamble_example)
            (10 :: [0, 2, 104, 105]) = .ok P2 ∧
        P2.response.toList = preamble_frame preamble_example :: ps.map frame_of ∧
        P2.proxy = 3 ∧ P2.header_sz = 0 ∧ P2.uncomplete_sz = -1) :=
  ⟨package_create_New, by decide, by decide, by decide, by decide,
    proxy_preamble_split package_create package_create_New preamble_example [0, 2, 104, 105]
      (by decide) (by decide) (by decide)⟩

end SkynetPackage
